import Mathlib

/-!
Verification of the move-picker core of the Sudsakorn engine
(`src/movepick.cpp`, namespace `Brainlearn`).

The development shallowly embeds the staged move-ordering state machine:
`Move`/`ExtMove` values, the `Position` collaborator interface (§6 of the
spec), the scoring heuristics (`score<CAPTURES|QUIETS|EVASIONS>`), the
order-statistics primitive `partial_insertion_sort` (here named
`limited_insertion_sort` for lexical reasons), the two selection
primitives `select<Next>` / `select<Best>`, and the `next_move` dispatch
with its fall-through stage transitions, faithfully following the C++.

The move buffer `moves[MAX_MOVES]` is modelled as a `List ExtMove` holding
the cells `[0, endMoves)`; the cursor members are `Nat` indices into it
(in the `REFUTATION` stage the C++ repoints `cur`/`endMoves` into the
`refutations` member array, and the embedding mirrors that by indexing
`refutations` in that stage).  Fields the C++ constructors leave
uninitialized are modelled as zeros; they are never read before being
written on any path the C++ itself executes.
-/

set_option maxHeartbeats 1000000

namespace Brainlearn

/-- A move: origin square, destination square, and special annotation bits
(promotion/flag part of the 16-bit payload).  Equality-comparable, with a
distinguished none-sentinel (`Move::none()`, payload 0). -/
structure Move where
  fromSq : Nat
  toSq : Nat
  promo : Nat
deriving DecidableEq, Repr

/-- `Move::none()`: the all-zero payload. -/
def Move.none : Move := ⟨0, 0, 0⟩

/-- `to_sq(m)`: destination square (types.h is not in src/; standard
Stockfish move decoding). -/
def to_sq (m : Move) : Nat := m.toSq

/-- `from_to(m)`: the 12-bit origin-destination key used to index the
butterfly history (types.h is not in src/; standard decoding
`from * 64 + to`). -/
def from_to (m : Move) : Nat := 64 * m.fromSq + m.toSq

/-- `type_of(pc)`: piece-type part of a piece code (types.h is not in
src/; standard decoding `pc & 7`). -/
def type_of (pc : Nat) : Nat := pc % 8

/-- `relative_rank(c, s)`: rank of square `s` from the point of view of
colour `c` (types.h is not in src/; standard decoding `rank_of(s) ^ (c * 7)`,
`false` = White). -/
def relative_rank (c : Bool) (sq : Nat) : Nat :=
  (sq / 8) ^^^ (if c then 7 else 0)

/-- `DEPTH_QS_CHECKS`.  Modelled from the spec: the quiescence depth at
which the machine "explicitly requests quiet-check exploration"
(types.h is not in src/; standard value 0). -/
def DEPTH_QS_CHECKS : Int := 0

/-- The `Position` collaborator together with the move generator and the
ambient `PieceValue[MG]` table (position.h / movegen.h are not in src/;
only the narrow query interface of spec §6 is used).  The four `gen*`
lists are the outputs of `generate<CAPTURES|QUIETS|EVASIONS|QUIET_CHECKS>`
for this position. -/
structure Position where
  checkers : Bool
  side_to_move : Bool
  pseudo_legal : Move → Bool
  capture_stage : Move → Bool
  capture : Move → Bool
  see_ge : Move → Int → Bool
  piece_on : Nat → Nat
  moved_piece : Move → Nat
  pieceValueMG : Nat → Int
  genCaptures : List Move
  genQuiets : List Move
  genEvasions : List Move
  genQuietChecks : List Move

/-- `ExtMove`: a move paired with its signed sorting value.  As in the
C++, comparison with a `Move` (and `ExtMove == ExtMove`) looks only at
the move part, while `operator<` compares values. -/
structure ExtMove where
  move : Move
  value : Int
deriving DecidableEq, Repr

instance : Inhabited ExtMove := ⟨⟨Move.none, 0⟩⟩

/-- Read a buffer cell (`*p` for an `ExtMove*` at index `i`). -/
def eget (l : List ExtMove) (i : Nat) : ExtMove := l.getD i default

/-- Wrap a generated move list into buffer cells; the sorting values start
as unspecified garbage in the C++ and are modelled as 0 (they are always
overwritten by a `score<>` pass before being read, except in the
quiescence-check stage where they are never read). -/
def toExtMoves (l : List Move) : List ExtMove := l.map fun m => ⟨m, 0⟩

/-! The `Stages` enumeration, with its C++ numeric values. -/

def MAIN_TT : Nat := 0
def CAPTURE_INIT : Nat := 1
def GOOD_CAPTURE : Nat := 2
def REFUTATION : Nat := 3
def QUIET_INIT : Nat := 4
def GOOD_QUIET : Nat := 5
def BAD_CAPTURE : Nat := 6
def BAD_QUIET : Nat := 7
def EVASION_TT : Nat := 8
def EVASION_INIT : Nat := 9
def EVASION : Nat := 10
def PROBCUT_TT : Nat := 11
def PROBCUT_INIT : Nat := 12
def PROBCUT : Nat := 13
def QSEARCH_TT : Nat := 14
def QCAPTURE_INIT : Nat := 15
def QCAPTURE : Nat := 16
def QCHECK_INIT : Nat := 17
def QCHECK : Nat := 18

/-- Inner loop of `partial_insertion_sort`: starting with `q` at the new
`sortedEnd`, shift the cells left of `q` right while they compare
`< tmp`, then store `tmp` at the final `q`. -/
def lisInner (l : List ExtMove) (q : Nat) (tmp : ExtMove) : List ExtMove :=
  if q = 0 then l.set 0 tmp
  else if (eget l (q - 1)).value < tmp.value then
    lisInner (l.set q (eget l (q - 1))) (q - 1) tmp
  else l.set q tmp

/-- Outer loop of `partial_insertion_sort` over `p ∈ [1, en)`: each cell
whose value reaches `limit` is inserted into the sorted region
`[0, sortedEnd]`, after first moving the cell at `++sortedEnd` out to
`p`. -/
def lisOuter (en : Nat) (limit : Int) (l : List ExtMove) (sortedEnd p : Nat) :
    List ExtMove :=
  if h : p < en then
    if limit ≤ (eget l p).value then
      lisOuter en limit
        (lisInner (l.set p (eget l (sortedEnd + 1))) (sortedEnd + 1) (eget l p))
        (sortedEnd + 1) (p + 1)
    else lisOuter en limit l sortedEnd (p + 1)
  else l
termination_by en - p

/-- `partial_insertion_sort(begin, end, limit)` on the whole list (the
name is changed for lexical reasons only): sorts, in descending order of
value, all cells whose value is `>= limit`, leaving the order of the
cells below `limit` unspecified. -/
def limited_insertion_sort (l : List ExtMove) (limit : Int) : List ExtMove :=
  lisOuter l.length limit l 0 1

/-- `select<Next>`: walk `[cur, endM)`, skip the hash move
unconditionally, and return the first cell accepted by the filter
(returning `Move::none()` on exhaustion).  Result: yielded move and the
new `cur`.  -/
def selectNext (buf : List ExtMove) (ttm : Move) (accept : ExtMove → Bool)
    (cur endM : Nat) : Move × Nat :=
  if h : cur < endM then
    if (eget buf cur).move ≠ ttm ∧ accept (eget buf cur) then
      ((eget buf cur).move, cur + 1)
    else selectNext buf ttm accept (cur + 1) endM
  else (Move.none, cur)
termination_by endM - cur

/-- `select<Next>` as instantiated in the `GOOD_CAPTURE` stage, where the
filter has the side effect `*endBadCaptures++ = *cur` on rejection
(losing captures are compacted to the front of the buffer for later).
Result: yielded move, mutated buffer, new `endBadCaptures`, new `cur`.
Note the C++ `&&` short-circuit: a cell equal to the hash move is skipped
without being tested (and hence never copied to the bad-capture range). -/
def selectGC (p : Position) (ttm : Move) (buf : List ExtMove)
    (ebc cur endM : Nat) : Move × List ExtMove × Nat × Nat :=
  if h : cur < endM then
    if (eget buf cur).move ≠ ttm then
      if p.see_ge (eget buf cur).move (Int.tdiv (-(eget buf cur).value) 18) then
        ((eget buf cur).move, buf, ebc, cur + 1)
      else selectGC p ttm (buf.set ebc (eget buf cur)) (ebc + 1) (cur + 1) endM
    else selectGC p ttm buf ebc (cur + 1) endM
  else (Move.none, buf, ebc, cur)
termination_by endM - cur

/-- `std::max_element(cur, endM)` by `ExtMove::operator<` (first maximal
cell), expressed as the scan from `i` with current best index `best`. -/
def maxIdxFrom (buf : List ExtMove) (best i endM : Nat) : Nat :=
  if h : i < endM then
    maxIdxFrom buf (if (eget buf best).value < (eget buf i).value then i else best)
      (i + 1) endM
  else best
termination_by endM - i

/-- `std::swap(*i, *j)` on buffer cells. -/
def lswap (buf : List ExtMove) (i j : Nat) : List ExtMove :=
  (buf.set i (eget buf j)).set j (eget buf i)

/-- `select<Best>` with the always-true filter (its only instantiation,
the `EVASION` stage): swap the first maximal remaining cell to `cur`,
yield it unless it is the hash move, else skip it and rescan. -/
def selectBest (buf : List ExtMove) (ttm : Move) (cur endM : Nat) :
    Move × List ExtMove × Nat :=
  if h : cur < endM then
    let buf1 := lswap buf cur (maxIdxFrom buf cur (cur + 1) endM)
    if (eget buf1 cur).move ≠ ttm then ((eget buf1 cur).move, buf1, cur + 1)
    else selectBest buf1 ttm (cur + 1) endM
  else (Move.none, buf, cur)
termination_by endM - cur

/-- The `MovePicker` object: borrowed collaborators, the hash move, the
three refutation cells `{killer1, killer2, countermove}`, the stage, the
move buffer and the cursor indices. -/
structure MovePicker where
  pos : Position
  mainHistory : Bool → Nat → Int
  captureHistory : Nat → Nat → Nat → Int
  continuationHistory : Nat → Nat → Nat → Int
  pawnHistory : Nat → Nat → Nat → Int
  ttMove : Move
  refutations : List ExtMove
  depth : Int
  threshold : Int
  stage : Nat
  moves : List ExtMove
  cur : Nat
  endMoves : Nat
  endBadCaptures : Nat
  beginBadQuiets : Nat
  endBadQuiets : Nat

/-- The capture score: `PieceValue[MG][pos.piece_on(to_sq(m))]
- 200 * relative_rank(side_to_move, to_sq(m))`. -/
def captureScore (p : Position) (m : Move) : Int :=
  p.pieceValueMG (p.piece_on (to_sq m))
    - 200 * (relative_rank p.side_to_move (to_sq m) : Int)

/-- `score<CAPTURES>()` over a cell range. -/
def MovePicker.score_captures (s : MovePicker) (l : List ExtMove) : List ExtMove :=
  l.map fun e => { e with value := captureScore s.pos e.move }

/-- Slot of the two-ply continuation-history array holding the ply−k
entry: the caller passes `(ss-1)->continuationHistory` at slot 0,
`(ss-2)->…` at slot 1, and so on, so the ply−k table sits at slot k−1. -/
def contSlot (k : Nat) : Nat := k - 1

/-- The quiet score: butterfly history plus the slot-0, slot-1 and slot-3
continuation histories of the moved piece on the destination square. -/
def quietScore (s : MovePicker) (m : Move) : Int :=
  s.mainHistory s.pos.side_to_move (from_to m)
    + s.continuationHistory 0 (s.pos.moved_piece m) (to_sq m)
    + s.continuationHistory 1 (s.pos.moved_piece m) (to_sq m)
    + s.continuationHistory 3 (s.pos.moved_piece m) (to_sq m)

/-- `score<QUIETS>()` over a cell range. -/
def MovePicker.score_quiets (s : MovePicker) (l : List ExtMove) : List ExtMove :=
  l.map fun e => { e with value := quietScore s e.move }

/-- The evasion score: captures by victim value minus attacker type,
quiets by butterfly history minus `1 << 28`. -/
def evasionScore (s : MovePicker) (m : Move) : Int :=
  if s.pos.capture m then
    s.pos.pieceValueMG (s.pos.piece_on (to_sq m))
      - (type_of (s.pos.moved_piece m) : Int)
  else s.mainHistory s.pos.side_to_move (from_to m) - 268435456

/-- `score<EVASIONS>()` over a cell range. -/
def MovePicker.score_evasions (s : MovePicker) (l : List ExtMove) : List ExtMove :=
  l.map fun e => { e with value := evasionScore s e.move }

/-- The `quiet_threshold` lambda of `next_move`: `-3330 * d`. -/
def quiet_threshold (d : Int) : Int := -3330 * d

/-- `CAPTURE_INIT` / `PROBCUT_INIT` / `QCAPTURE_INIT` body:
`cur = endBadCaptures = moves; endMoves = generate<CAPTURES>;`
then score and fully sort (limit `INT_MIN` = `-2147483648`), `++stage`. -/
def MovePicker.captureInit (s : MovePicker) : MovePicker :=
  { s with cur := 0, endBadCaptures := 0,
           moves := limited_insertion_sort
             (s.score_captures (toExtMoves s.pos.genCaptures)) (-2147483648),
           endMoves := (toExtMoves s.pos.genCaptures).length,
           stage := s.stage + 1 }

/-- The `GOOD_QUIET` / `BAD_QUIET` filter:
`*cur != refutations[0] && *cur != refutations[1] && *cur != refutations[2]`
(comparing move parts, as `ExtMove` equality does). -/
def MovePicker.goodQuietAccept (s : MovePicker) : ExtMove → Bool := fun e =>
  decide (e.move ≠ (eget s.refutations 0).move)
    && decide (e.move ≠ (eget s.refutations 1).move)
    && decide (e.move ≠ (eget s.refutations 2).move)

/-- The `REFUTATION` filter:
`*cur != Move::none() && !pos.capture_stage(*cur) && pos.pseudo_legal(*cur)`. -/
def MovePicker.refAccept (s : MovePicker) : ExtMove → Bool := fun e =>
  decide (e.move ≠ Move.none)
    && !(s.pos.capture_stage e.move)
    && s.pos.pseudo_legal e.move

/-- Cursor reset on falling from `GOOD_QUIET` into `BAD_CAPTURE`:
`cur = moves; endMoves = endBadCaptures; ++stage`. -/
def MovePicker.enterBadCapture (s : MovePicker) : MovePicker :=
  { s with cur := 0, endMoves := s.endBadCaptures, stage := BAD_CAPTURE }

/-- `BAD_QUIET` stage: unless quiets are skipped, yield remaining quiets
not equal to any refutation; terminal. -/
def MovePicker.doBadQuiet (s : MovePicker) (skipQuiets : Bool) : Move × MovePicker :=
  if skipQuiets then (Move.none, s)
  else
    match selectNext s.moves s.ttMove s.goodQuietAccept s.cur s.endMoves with
    | (m, cur') => (m, { s with cur := cur' })

/-- `BAD_CAPTURE` stage: yield the compacted `[moves, endBadCaptures)`
range unfiltered; on exhaustion repoint the cursors at the bad-quiet
sub-range and fall through. -/
def MovePicker.doBadCapture (s : MovePicker) (skipQuiets : Bool) : Move × MovePicker :=
  match selectNext s.moves s.ttMove (fun _ => true) s.cur s.endMoves with
  | (m, cur') =>
    if m ≠ Move.none then (m, { s with cur := cur' })
    else
      MovePicker.doBadQuiet
        { s with cur := s.beginBadQuiets, endMoves := s.endBadQuiets,
                 stage := BAD_QUIET } skipQuiets

/-- `GOOD_QUIET` stage: unless quiets are skipped, select the next quiet
not equal to a refutation; accept it if its value is `> -8000` or does
not exceed the depth threshold, otherwise mark the start of the bad
quiets and fall through to `BAD_CAPTURE`. -/
def MovePicker.doGoodQuiet (s : MovePicker) (skipQuiets : Bool) : Move × MovePicker :=
  if skipQuiets then MovePicker.doBadCapture s.enterBadCapture skipQuiets
  else
    match selectNext s.moves s.ttMove s.goodQuietAccept s.cur s.endMoves with
    | (m, cur') =>
      if m ≠ Move.none then
        if (eget s.moves (cur' - 1)).value > -8000
            ∨ (eget s.moves (cur' - 1)).value ≤ quiet_threshold s.depth then
          (m, { s with cur := cur' })
        else
          MovePicker.doBadCapture
            (MovePicker.enterBadCapture
              { s with cur := cur', beginBadQuiets := cur' - 1 }) skipQuiets
      else MovePicker.doBadCapture (MovePicker.enterBadCapture { s with cur := cur' })
        skipQuiets

/-- `QUIET_INIT` stage: unless quiets are skipped, generate the quiets
after the bad-capture range, score them and sort them down to
`quiet_threshold(depth)`; fall through to `GOOD_QUIET` either way. -/
def MovePicker.doQuietInit (s : MovePicker) (skipQuiets : Bool) : Move × MovePicker :=
  if skipQuiets then MovePicker.doGoodQuiet { s with stage := GOOD_QUIET } skipQuiets
  else
    MovePicker.doGoodQuiet
      { s with cur := s.endBadCaptures,
               moves := s.moves.take s.endBadCaptures ++
                 limited_insertion_sort
                   (s.score_quiets (toExtMoves s.pos.genQuiets))
                   (quiet_threshold s.depth),
               endMoves := s.endBadCaptures + (toExtMoves s.pos.genQuiets).length,
               beginBadQuiets := s.endBadCaptures + (toExtMoves s.pos.genQuiets).length,
               endBadQuiets := s.endBadCaptures + (toExtMoves s.pos.genQuiets).length,
               stage := GOOD_QUIET } skipQuiets

/-- `REFUTATION` stage: yield killers then countermove through the
refutation filter; on exhaustion fall through to `QUIET_INIT`. -/
def MovePicker.doRefutation (s : MovePicker) (skipQuiets : Bool) : Move × MovePicker :=
  match selectNext s.refutations s.ttMove s.refAccept s.cur s.endMoves with
  | (m, cur') =>
    if m ≠ Move.none then (m, { s with cur := cur' })
    else MovePicker.doQuietInit { s with cur := cur', stage := QUIET_INIT } skipQuiets

/-- `GOOD_CAPTURE` stage: select the next capture passing
`see_ge(m, -value/18)`, compacting rejected captures into the bad-capture
range; on exhaustion repoint the cursors at the refutation array
(dropping a countermove equal to a killer) and fall through. -/
def MovePicker.doGoodCapture (s : MovePicker) (skipQuiets : Bool) : Move × MovePicker :=
  match selectGC s.pos s.ttMove s.moves s.endBadCaptures s.cur s.endMoves with
  | (m, buf, ebc, cur') =>
    if m ≠ Move.none then
      (m, { s with moves := buf, endBadCaptures := ebc, cur := cur' })
    else
      MovePicker.doRefutation
        { s with moves := buf, endBadCaptures := ebc,
                 cur := 0,
                 endMoves :=
                   if (eget s.refutations 0).move = (eget s.refutations 2).move
                       ∨ (eget s.refutations 1).move = (eget s.refutations 2).move
                   then 2 else 3,
                 stage := REFUTATION } skipQuiets

/-- `EVASION_INIT` stage body: generate and score the evasions,
`++stage`. -/
def MovePicker.evasionInit (s : MovePicker) : MovePicker :=
  { s with cur := 0,
           moves := s.score_evasions (toExtMoves s.pos.genEvasions),
           endMoves := (toExtMoves s.pos.genEvasions).length,
           stage := EVASION }

/-- `EVASION` stage: best-first selection over the evasions; terminal. -/
def MovePicker.doEvasion (s : MovePicker) : Move × MovePicker :=
  match selectBest s.moves s.ttMove s.cur s.endMoves with
  | (m, buf, cur') => (m, { s with moves := buf, cur := cur' })

/-- `PROBCUT` stage: select captures whose static exchange meets the
threshold; terminal. -/
def MovePicker.doProbcut (s : MovePicker) : Move × MovePicker :=
  match selectNext s.moves s.ttMove (fun e => s.pos.see_ge e.move s.threshold)
      s.cur s.endMoves with
  | (m, cur') => (m, { s with cur := cur' })

/-- `QCHECK_INIT` stage body: generate the quiet checks (unscored),
`++stage`. -/
def MovePicker.qcheckInit (s : MovePicker) : MovePicker :=
  { s with cur := 0,
           moves := toExtMoves s.pos.genQuietChecks,
           endMoves := (toExtMoves s.pos.genQuietChecks).length,
           stage := QCHECK }

/-- `QCHECK` stage: yield the remaining quiet checks in scanned order;
terminal. -/
def MovePicker.doQCheck (s : MovePicker) : Move × MovePicker :=
  match selectNext s.moves s.ttMove (fun _ => true) s.cur s.endMoves with
  | (m, cur') => (m, { s with cur := cur' })

/-- `QCAPTURE` stage: yield the captures in scanned order; on exhaustion
finish unless `depth == DEPTH_QS_CHECKS`, in which case fall through to
the quiet-check stages. -/
def MovePicker.doQCapture (s : MovePicker) : Move × MovePicker :=
  match selectNext s.moves s.ttMove (fun _ => true) s.cur s.endMoves with
  | (m, cur') =>
    if m ≠ Move.none then (m, { s with cur := cur' })
    else if s.depth ≠ DEPTH_QS_CHECKS then (Move.none, { s with cur := cur' })
    else MovePicker.doQCheck (MovePicker.qcheckInit { s with cur := cur' })

/-- `MovePicker::next_move(skipQuiets)`: dispatch on the stage; the
hash-move stages emit `ttMove` verbatim and advance, the `*_INIT` stages
prepare a range and re-dispatch (`goto top`), and all other stages yield
through their selection primitive, falling through on exhaustion.  An
out-of-range stage is the C++ `assert(false); return Move::none();`
path. -/
def MovePicker.next_move (s : MovePicker) (skipQuiets : Bool) : Move × MovePicker :=
  match s.stage with
  | 0 | 8 | 11 | 14 => (s.ttMove, { s with stage := s.stage + 1 })
  | 1 => MovePicker.doGoodCapture s.captureInit skipQuiets
  | 2 => MovePicker.doGoodCapture s skipQuiets
  | 3 => MovePicker.doRefutation s skipQuiets
  | 4 => MovePicker.doQuietInit s skipQuiets
  | 5 => MovePicker.doGoodQuiet s skipQuiets
  | 6 => MovePicker.doBadCapture s skipQuiets
  | 7 => MovePicker.doBadQuiet s skipQuiets
  | 9 => MovePicker.doEvasion s.evasionInit
  | 10 => MovePicker.doEvasion s
  | 12 => MovePicker.doProbcut s.captureInit
  | 13 => MovePicker.doProbcut s
  | 15 => MovePicker.doQCapture s.captureInit
  | 16 => MovePicker.doQCapture s
  | 17 => MovePicker.doQCheck s.qcheckInit
  | 18 => MovePicker.doQCheck s
  | _ => (Move.none, s)

/-- One `next_move` call per flag, recording the yielded move and the
post-call state. -/
def MovePicker.steps : MovePicker → List Bool → List (Move × MovePicker)
  | _, [] => []
  | s, f :: fs =>
    match s.next_move f with
    | (m, s') => (m, s') :: s'.steps fs

/-- The yielded-move sequence of a sequence of `next_move` calls. -/
def MovePicker.trace (s : MovePicker) (flags : List Bool) : List Move :=
  (s.steps flags).map Prod.fst

/-- The main-search constructor (`assert(d > 0)`): stores the
collaborators, the hash move and the refutation triple
`{{killers[0], 0}, {killers[1], 0}, {cm, 0}}`, and picks the initial
stage. -/
def mkMainSearch (p : Position) (ttm : Move) (d : Int)
    (mh : Bool → Nat → Int) (cph : Nat → Nat → Nat → Int)
    (ch : Nat → Nat → Nat → Int) (ph : Nat → Nat → Nat → Int)
    (cm k0 k1 : Move) : MovePicker :=
  { pos := p, mainHistory := mh, captureHistory := cph,
    continuationHistory := ch, pawnHistory := ph,
    ttMove := ttm,
    refutations := [⟨k0, 0⟩, ⟨k1, 0⟩, ⟨cm, 0⟩],
    depth := d, threshold := 0,
    stage := (if p.checkers then EVASION_TT else MAIN_TT)
      + (if ttm ≠ Move.none ∧ p.pseudo_legal ttm then 0 else 1),
    moves := [], cur := 0, endMoves := 0, endBadCaptures := 0,
    beginBadQuiets := 0, endBadQuiets := 0 }

/-- The quiescence constructor (`assert(d <= 0)`): as the main one but
without refutations (left uninitialized in the C++, modelled as none
cells), starting from `QSEARCH_TT`. -/
def mkQSearch (p : Position) (ttm : Move) (d : Int)
    (mh : Bool → Nat → Int) (cph : Nat → Nat → Nat → Int)
    (ch : Nat → Nat → Nat → Int) (ph : Nat → Nat → Nat → Int) : MovePicker :=
  { pos := p, mainHistory := mh, captureHistory := cph,
    continuationHistory := ch, pawnHistory := ph,
    ttMove := ttm,
    refutations := [⟨Move.none, 0⟩, ⟨Move.none, 0⟩, ⟨Move.none, 0⟩],
    depth := d, threshold := 0,
    stage := (if p.checkers then EVASION_TT else QSEARCH_TT)
      + (if ttm ≠ Move.none ∧ p.pseudo_legal ttm then 0 else 1),
    moves := [], cur := 0, endMoves := 0, endBadCaptures := 0,
    beginBadQuiets := 0, endBadQuiets := 0 }

/-- The ProbCut constructor (`assert(!pos.checkers())`): keeps only the
capture history; the hash-move stage survives only for a pseudo-legal
capture-class hash move meeting the static-exchange threshold. -/
def mkProbCut (p : Position) (ttm : Move) (th : Int)
    (cph : Nat → Nat → Nat → Int) : MovePicker :=
  { pos := p, mainHistory := fun _ _ => 0, captureHistory := cph,
    continuationHistory := fun _ _ _ => 0, pawnHistory := fun _ _ _ => 0,
    ttMove := ttm,
    refutations := [⟨Move.none, 0⟩, ⟨Move.none, 0⟩, ⟨Move.none, 0⟩],
    depth := 0, threshold := th,
    stage := PROBCUT_TT
      + (if ttm ≠ Move.none ∧ p.capture_stage ttm ∧ p.pseudo_legal ttm
              ∧ p.see_ge ttm th then 0 else 1),
    moves := [], cur := 0, endMoves := 0, endBadCaptures := 0,
    beginBadQuiets := 0, endBadQuiets := 0 }

/-- Two picker states that agree on every field except the capture
history and the pawn history (the noninterference relation of the
capture/pawn-history independence claim). -/
def AgreesExcept (s1 s2 : MovePicker) : Prop :=
  s1.pos = s2.pos ∧ s1.mainHistory = s2.mainHistory
  ∧ s1.continuationHistory = s2.continuationHistory
  ∧ s1.ttMove = s2.ttMove ∧ s1.refutations = s2.refutations
  ∧ s1.depth = s2.depth ∧ s1.threshold = s2.threshold ∧ s1.stage = s2.stage
  ∧ s1.moves = s2.moves ∧ s1.cur = s2.cur ∧ s1.endMoves = s2.endMoves
  ∧ s1.endBadCaptures = s2.endBadCaptures
  ∧ s1.beginBadQuiets = s2.beginBadQuiets ∧ s1.endBadQuiets = s2.endBadQuiets

/-- The descending-by-value ordering used to state sortedness of the
buffer prefix produced by `partial_insertion_sort`. -/
def valueDesc (a b : ExtMove) : Prop := b.value ≤ a.value

/-- The qualifying predicate of `partial_insertion_sort`:
`value >= limit`. -/
def scoreAtLeast (limit : Int) : ExtMove → Bool := fun e => decide (limit ≤ e.value)

/-- The fields of a picker that `next_move` never writes: the borrowed
collaborators, the hash move, the refutation triple, the depth and the
threshold. -/
def SameCore (s s' : MovePicker) : Prop :=
  s'.pos = s.pos ∧ s'.mainHistory = s.mainHistory
  ∧ s'.captureHistory = s.captureHistory
  ∧ s'.continuationHistory = s.continuationHistory
  ∧ s'.pawnHistory = s.pawnHistory
  ∧ s'.ttMove = s.ttMove ∧ s'.refutations = s.refutations
  ∧ s'.depth = s.depth ∧ s'.threshold = s.threshold

/-- A stage that is not one of the four hash-move stages. -/
def NT (n : Nat) : Prop := n ≠ MAIN_TT ∧ n ≠ EVASION_TT ∧ n ≠ PROBCUT_TT ∧ n ≠ QSEARCH_TT

/-! Concrete environments used by witnesses and counterexamples. -/

/-- Concrete move a1→b1-ish (payload 1/2). -/
def wMvA : Move := ⟨1, 2, 0⟩

/-- Concrete move (payload 3/4). -/
def wMvB : Move := ⟨3, 4, 0⟩

/-- Concrete move (payload 5/6). -/
def wMvC : Move := ⟨5, 6, 0⟩

/-- Concrete move (payload 7/8). -/
def wMvK : Move := ⟨7, 8, 0⟩

/-- A bland concrete position: not in check, everything pseudo-legal,
nothing capture-class, no generated moves. -/
def wPos : Position :=
  { checkers := false, side_to_move := false,
    pseudo_legal := fun _ => true,
    capture_stage := fun _ => false,
    capture := fun _ => false,
    see_ge := fun _ _ => true,
    piece_on := fun _ => 0, moved_piece := fun _ => 0,
    pieceValueMG := fun _ => 0,
    genCaptures := [], genQuiets := [], genEvasions := [], genQuietChecks := [] }

/-- Concrete picker over `wPos` with recognizable history tables. -/
def wPicker : MovePicker :=
  mkMainSearch wPos Move.none 1 (fun _ _ => 3) (fun _ _ _ => 0)
    (fun k _ _ => (k : Int)) (fun _ _ _ => 0) Move.none Move.none Move.none

/-- Concrete position where only `wMvA` is a capture. -/
def wPosC9 : Position :=
  { wPos with capture := fun m => decide (m = wMvA),
              pieceValueMG := fun _ => 100,
              moved_piece := fun _ => 5 }

/-- Concrete picker over `wPosC9`. -/
def wPickerC9 : MovePicker :=
  mkQSearch wPosC9 Move.none 0 (fun _ _ => 50) (fun _ _ _ => 0)
    (fun _ _ _ => 0) (fun _ _ _ => 0)

/-- Concrete position for the ProbCut witness: two generated captures
passing the exchange test, a hash move that fails it. -/
def wPosC6 : Position :=
  { wPos with capture_stage := fun m => decide (m = wMvK),
              see_ge := fun m _ => decide (m = wMvA ∨ m = wMvB),
              piece_on := fun sq => sq,
              pieceValueMG := fun pc => (pc : Int) * 100,
              genCaptures := [wMvA, wMvB] }


/-- Every cell of a buffer range holds a move from the given generated
list or the none-sentinel (compaction copies of default cells). -/
def cellsFrom (g : List Move) (l : List ExtMove) : Prop :=
  ∀ e ∈ l, e.move ∈ g ∨ e.move = Move.none

/-- Buffer-contents invariant: in the capture stages (`GOOD_CAPTURE` …
`BAD_QUIET`, `PROBCUT`, `QCAPTURE`) every buffer cell holds a generated
capture (or the none-sentinel, from compaction of default cells), in the
`EVASION` stage a generated evasion, in the `QCHECK` stage a generated
quiet check. -/
def Inv2 (s : MovePicker) : Prop :=
  (2 ≤ s.stage ∧ s.stage ≤ 7 → cellsFrom s.pos.genCaptures s.moves)
  ∧ (s.stage = 10 → cellsFrom s.pos.genEvasions s.moves)
  ∧ ((s.stage = 13 ∨ s.stage = 16) → cellsFrom s.pos.genCaptures s.moves)
  ∧ (s.stage = 18 → cellsFrom s.pos.genQuietChecks s.moves)

/-- The possible sources of a yielded move. -/
def YieldOK (s : MovePicker) (m : Move) : Prop :=
  m = Move.none ∨ m ∈ s.pos.genCaptures ∨ m = s.ttMove
  ∨ m ∈ s.refutations.map ExtMove.move
  ∨ m ∈ s.pos.genEvasions ∨ m ∈ s.pos.genQuietChecks


/-- The dedup condition of the good-capture-to-refutation transition:
`refutations[0] == refutations[2] || refutations[1] == refutations[2]`
(a countermove equal to a killer). -/
def refDup (s : MovePicker) : Prop :=
  (eget s.refutations 0).move = (eget s.refutations 2).move
    ∨ (eget s.refutations 1).move = (eget s.refutations 2).move

instance (s : MovePicker) : Decidable (refDup s) := by
  unfold refDup
  infer_instance

/-- The refutation cells that remain scannable by the `REFUTATION` stage
from a given state: before the stage is entered, the whole (dedup'd)
refutation array; while it runs, the unscanned suffix; afterwards,
nothing. -/
def refCands (s : MovePicker) : List ExtMove :=
  if s.stage < 3 then s.refutations.take (if refDup s then 2 else 3)
  else if s.stage = 3 then (s.refutations.take s.endMoves).drop s.cur
  else []

/-- Acceptance of a refutation cell by `select<Next>` in the
`REFUTATION` stage, hash-move skip included. -/
def refAcceptTT (s : MovePicker) : ExtMove → Bool := fun e =>
  decide (e.move ≠ s.ttMove) && s.refAccept e

/-- The moves that the `REFUTATION` stage can still yield from a given
state. -/
def refMenu (s : MovePicker) : List Move :=
  (((refCands s).filter (refAcceptTT s)).map ExtMove.move)

/-- The refutation-stage yields of a call sequence: the non-none moves
of the steps whose post-state sits in the `REFUTATION` stage (a yield
leaves the stage where it was served, and only the refutation selection
leaves stage 3). -/
def refYields (l : List (Move × MovePicker)) : List Move :=
  (l.filter (fun q => decide (q.1 ≠ Move.none) && decide (q.2.stage = 3))).map Prod.fst

/-- The moves that the `GOOD_CAPTURE` filter accepts from a scan of the
given cells, in order: cells equal to the hash move are skipped, a cell
passing `see_ge(m, -value/18)` is yielded. -/
def gcGoods (p : Position) (ttm : Move) : List ExtMove → List Move
  | [] => []
  | e :: r =>
    if e.move = ttm then gcGoods p ttm r
    else if p.see_ge e.move (Int.tdiv (-e.value) 18) then e.move :: gcGoods p ttm r
    else gcGoods p ttm r

/-- The cells that the `GOOD_CAPTURE` filter copies into the bad-capture
sub-range (`*endBadCaptures++ = *cur`) from a scan of the given cells,
in order: losing captures, the hash move excluded by the `&&`
short-circuit. -/
def gcBads (p : Position) (ttm : Move) : List ExtMove → List ExtMove
  | [] => []
  | e :: r =>
    if e.move = ttm then gcBads p ttm r
    else if p.see_ge e.move (Int.tdiv (-e.value) 18) then gcBads p ttm r
    else e :: gcBads p ttm r

/-- The cells the active selection loop has not yet scanned. -/
def capRegion (s : MovePicker) : List ExtMove := (s.moves.take s.endMoves).drop s.cur

/-- The bad-capture sub-range `[moves, endBadCaptures)`. -/
def badsSoFar (s : MovePicker) : List ExtMove := s.moves.take s.endBadCaptures

/-- The scored and fully sorted capture buffer that `CAPTURE_INIT`
produces. -/
def sortedCaps (s : MovePicker) : List ExtMove :=
  limited_insertion_sort (s.score_captures (toExtMoves s.pos.genCaptures)) (-2147483648)

/-- The exact list of moves the `GOOD_CAPTURE` stage will still yield
from a given state. -/
def gMenu (s : MovePicker) : List Move :=
  if s.stage ≤ 1 then gcGoods s.pos s.ttMove (sortedCaps s)
  else if s.stage = 2 then gcGoods s.pos s.ttMove (capRegion s)
  else []

/-- The exact list of moves the `BAD_CAPTURE` stage will still yield
from a given state: before and during the good-capture scan, the
already-collected bad captures plus those still to be collected; between
the scans, the bad-capture sub-range; during the bad-capture scan, its
unscanned remainder. -/
def bMenu (s : MovePicker) : List Move :=
  if s.stage ≤ 1 then (gcBads s.pos s.ttMove (sortedCaps s)).map ExtMove.move
  else if s.stage = 2 then
    ((badsSoFar s ++ gcBads s.pos s.ttMove (capRegion s)).map ExtMove.move)
  else if s.stage ≤ 5 then (badsSoFar s).map ExtMove.move
  else if s.stage = 6 then (capRegion s).map ExtMove.move
  else []

/-- Cursor well-formedness carried along the capture phases: the
bad-capture sub-range sits below the scan cursor inside the buffer and
never holds the hash move. -/
def WF7 (s : MovePicker) : Prop :=
  (s.stage = 2 → s.endBadCaptures ≤ s.cur ∧ s.cur ≤ s.endMoves
    ∧ s.endMoves ≤ s.moves.length
    ∧ (∀ e ∈ badsSoFar s, e.move ≠ s.ttMove)
    ∧ (∀ e ∈ s.moves, e.move ≠ Move.none))
  ∧ ((3 ≤ s.stage ∧ s.stage ≤ 5) → s.endBadCaptures ≤ s.moves.length
    ∧ (∀ e ∈ badsSoFar s, e.move ≠ s.ttMove)
    ∧ (∀ e ∈ badsSoFar s, e.move ≠ Move.none))
  ∧ (s.stage = 6 → s.endMoves ≤ s.moves.length
    ∧ (∀ e ∈ capRegion s, e.move ≠ s.ttMove)
    ∧ (∀ e ∈ capRegion s, e.move ≠ Move.none))

/-- The good-capture-stage yields of a call sequence: non-none moves of
steps whose post-state sits in `GOOD_CAPTURE`. -/
def goodCapYields (l : List (Move × MovePicker)) : List Move :=
  (l.filter (fun q => decide (q.1 ≠ Move.none) && decide (q.2.stage = 2))).map Prod.fst

/-- The bad-capture-stage yields of a call sequence: non-none moves of
steps whose post-state sits in `BAD_CAPTURE`. -/
def badCapYields (l : List (Move × MovePicker)) : List Move :=
  (l.filter (fun q => decide (q.1 ≠ Move.none) && decide (q.2.stage = 6))).map Prod.fst

/-- The picker state after a sequence of `next_move` calls. -/
def MovePicker.runState : MovePicker → List Bool → MovePicker
  | s, [] => s
  | s, f :: fs => ((s.next_move f).2).runState fs

/-- One-call bookkeeping of the two capture menus: a good-capture yield
consumes the head of the good menu, a bad-capture yield the head of the
bad menu, and nothing else changes them. -/
def capStep (s s' : MovePicker) (m : Move) : Prop :=
  (if m ≠ Move.none ∧ s'.stage = 2 then gMenu s = m :: gMenu s' else gMenu s = gMenu s')
  ∧ (if m ≠ Move.none ∧ s'.stage = 6 then bMenu s = m :: bMenu s' else bMenu s = bMenu s')

/-! Theorems from here on: everything above is definitions. -/

/-- C5: for a main-search construction the initial stage is the
evasion hash-move stage when the side to move is in check and the main
hash-move stage otherwise, advanced by exactly one precisely when the
hash move is the none-sentinel or not pseudo-legal; the quiescence
constructor follows the same rule with the quiescence hash-move stage. -/
theorem construction_initial_stage (p : Position) (ttm : Move) (d : Int)
    (mh : Bool → Nat → Int) (cph ch ph : Nat → Nat → Nat → Int)
    (cm k0 k1 : Move) :
    ((mkMainSearch p ttm d mh cph ch ph cm k0 k1).stage
        = (if p.checkers then EVASION_TT else MAIN_TT)
          + (if ttm = Move.none ∨ ¬ p.pseudo_legal ttm then 1 else 0))
    ∧ ((mkQSearch p ttm d mh cph ch ph).stage
        = (if p.checkers then EVASION_TT else QSEARCH_TT)
          + (if ttm = Move.none ∨ ¬ p.pseudo_legal ttm then 1 else 0)) := by
  constructor <;>
  · simp only [mkMainSearch, mkQSearch]
    split_ifs <;> first | rfl | tauto

/-- C8: every generated quiet move is scored as the butterfly history of
(side to move, origin→destination) plus the ply−1, ply−2 and ply−4
continuation-history entries of (moved piece, destination); the ply−3
continuation slot is not consulted at all. -/
theorem quiet_score_formula (s : MovePicker) (l : List ExtMove) (e : ExtMove)
    (he : e ∈ s.score_quiets l) :
    (e.value =
        s.mainHistory s.pos.side_to_move (from_to e.move)
          + s.continuationHistory (contSlot 1) (s.pos.moved_piece e.move) (to_sq e.move)
          + s.continuationHistory (contSlot 2) (s.pos.moved_piece e.move) (to_sq e.move)
          + s.continuationHistory (contSlot 4) (s.pos.moved_piece e.move) (to_sq e.move))
    ∧ ∀ g : Nat → Nat → Int,
        MovePicker.score_quiets
          { s with continuationHistory :=
              fun k => if k = contSlot 3 then g else s.continuationHistory k } l
          = s.score_quiets l := by
  constructor
  · obtain ⟨e0, _, rfl⟩ := List.mem_map.mp he
    rfl
  · intro g
    simp [MovePicker.score_quiets, quietScore, contSlot]

/-- Witness for C8 at a concrete picker and buffer. -/
theorem quiet_score_formula_witness :
    ((⟨wMvA, 7⟩ : ExtMove) ∈ wPicker.score_quiets [⟨wMvA, 0⟩])
    ∧ (⟨wMvA, 7⟩ : ExtMove).value =
        wPicker.mainHistory wPicker.pos.side_to_move (from_to wMvA)
          + wPicker.continuationHistory (contSlot 1) (wPicker.pos.moved_piece wMvA) (to_sq wMvA)
          + wPicker.continuationHistory (contSlot 2) (wPicker.pos.moved_piece wMvA) (to_sq wMvA)
          + wPicker.continuationHistory (contSlot 4) (wPicker.pos.moved_piece wMvA) (to_sq wMvA) :=
  ⟨by decide, (quiet_score_formula wPicker [⟨wMvA, 0⟩] ⟨wMvA, 7⟩ (by decide)).1⟩

/-- C9: among scored evasions, a capture always outranks a quiet: the
quiet score is a butterfly-history value minus `1 << 28`, so under the
bounded history range it is strictly below any capture score (victim
value minus attacker type, the latter below 8 by construction). -/
theorem evasion_capture_outranks_quiet (s : MovePicker) (l : List ExtMove)
    (e1 e2 : ExtMove)
    (h1 : e1 ∈ s.score_evasions l) (h2 : e2 ∈ s.score_evasions l)
    (hc1 : s.pos.capture e1.move = true) (hc2 : s.pos.capture e2.move = false)
    (hpv : 0 ≤ s.pos.pieceValueMG (s.pos.piece_on (to_sq e1.move)))
    (hh : s.mainHistory s.pos.side_to_move (from_to e2.move) ≤ 268435448) :
    e2.value < e1.value := by
  obtain ⟨f1, -, rfl⟩ := List.mem_map.mp h1
  obtain ⟨f2, -, rfl⟩ := List.mem_map.mp h2
  simp only [evasionScore] at *
  rw [if_pos hc1, if_neg (by simp [hc2])]
  have ht : (type_of (s.pos.moved_piece f1.move) : Int) ≤ 7 := by
    have : type_of (s.pos.moved_piece f1.move) < 8 := Nat.mod_lt _ (by omega)
    omega
  omega

/-- Witness for C9 at a concrete picker and buffer. -/
theorem evasion_capture_outranks_quiet_witness :
    ((⟨wMvA, 95⟩ : ExtMove) ∈ wPickerC9.score_evasions [⟨wMvA, 0⟩, ⟨wMvB, 0⟩])
    ∧ ((⟨wMvB, 50 - 268435456⟩ : ExtMove) ∈
        wPickerC9.score_evasions [⟨wMvA, 0⟩, ⟨wMvB, 0⟩])
    ∧ (⟨wMvB, 50 - 268435456⟩ : ExtMove).value < (⟨wMvA, 95⟩ : ExtMove).value :=
  ⟨by decide, by decide,
    evasion_capture_outranks_quiet wPickerC9 [⟨wMvA, 0⟩, ⟨wMvB, 0⟩]
      ⟨wMvA, 95⟩ ⟨wMvB, 50 - 268435456⟩ (by decide) (by decide)
      (by decide) (by decide) (by decide) (by decide)⟩

theorem score_quiets_agrees {s1 s2 : MovePicker} (h : AgreesExcept s1 s2) :
    MovePicker.score_quiets s1 = MovePicker.score_quiets s2 := by
  obtain ⟨h1, h2, h3, -⟩ := h
  unfold MovePicker.score_quiets quietScore
  rw [h1, h2, h3]

theorem score_captures_agrees {s1 s2 : MovePicker} (h : AgreesExcept s1 s2) :
    MovePicker.score_captures s1 = MovePicker.score_captures s2 := by
  obtain ⟨h1, -⟩ := h
  unfold MovePicker.score_captures
  rw [h1]

theorem score_evasions_agrees {s1 s2 : MovePicker} (h : AgreesExcept s1 s2) :
    MovePicker.score_evasions s1 = MovePicker.score_evasions s2 := by
  obtain ⟨h1, h2, -⟩ := h
  unfold MovePicker.score_evasions evasionScore
  rw [h1, h2]

theorem goodQuietAccept_agrees {s1 s2 : MovePicker} (h : AgreesExcept s1 s2) :
    s1.goodQuietAccept = s2.goodQuietAccept := by
  unfold MovePicker.goodQuietAccept
  rw [h.2.2.2.2.1]

theorem refAccept_agrees {s1 s2 : MovePicker} (h : AgreesExcept s1 s2) :
    s1.refAccept = s2.refAccept := by
  unfold MovePicker.refAccept
  rw [h.1]

theorem doBadQuiet_agrees {s1 s2 : MovePicker} (h : AgreesExcept s1 s2) (f : Bool) :
    (s1.doBadQuiet f).1 = (s2.doBadQuiet f).1
    ∧ AgreesExcept (s1.doBadQuiet f).2 (s2.doBadQuiet f).2 := by
  have hacc := goodQuietAccept_agrees h
  obtain ⟨h1, h2, h3, h4, h5, h6, h7, h8, h9, h10, h11, h12, h13, h14⟩ := h
  unfold MovePicker.doBadQuiet
  rw [h9, h4, hacc, h10, h11]
  cases hsel : selectNext s2.moves s2.ttMove s2.goodQuietAccept s2.cur s2.endMoves with
  | mk m cur' =>
    rcases f with _ | _ <;> simp [AgreesExcept, *]
theorem doBadCapture_agrees {s1 s2 : MovePicker} (h : AgreesExcept s1 s2) (f : Bool) :
    (s1.doBadCapture f).1 = (s2.doBadCapture f).1
    ∧ AgreesExcept (s1.doBadCapture f).2 (s2.doBadCapture f).2 := by
  obtain ⟨h1, h2, h3, h4, h5, h6, h7, h8, h9, h10, h11, h12, h13, h14⟩ := h
  unfold MovePicker.doBadCapture
  rw [h9, h4, h10, h11]
  cases hsel : selectNext s2.moves s2.ttMove (fun _ => true) s2.cur s2.endMoves with
  | mk m cur' =>
    by_cases hm : m = Move.none
    · simp only [hm, ne_eq, not_true_eq_false, if_false, reduceIte]
      exact doBadQuiet_agrees (by simp [AgreesExcept, *]) f
    · simp only [hm, ne_eq, not_false_eq_true, if_true, reduceIte]
      exact ⟨by simp, by simp [AgreesExcept, *]⟩

theorem doGoodQuiet_agrees {s1 s2 : MovePicker} (h : AgreesExcept s1 s2) (f : Bool) :
    (s1.doGoodQuiet f).1 = (s2.doGoodQuiet f).1
    ∧ AgreesExcept (s1.doGoodQuiet f).2 (s2.doGoodQuiet f).2 := by
  have hacc := goodQuietAccept_agrees h
  obtain ⟨h1, h2, h3, h4, h5, h6, h7, h8, h9, h10, h11, h12, h13, h14⟩ := h
  unfold MovePicker.doGoodQuiet MovePicker.enterBadCapture
  rcases f with _ | _
  · simp only [Bool.false_eq_true, if_false, reduceIte]
    rw [h9, h4, hacc, h10, h11, h6]
    cases hsel : selectNext s2.moves s2.ttMove s2.goodQuietAccept s2.cur s2.endMoves with
    | mk m cur' =>
      by_cases hm : m = Move.none
      · simp only [hm, ne_eq, not_true_eq_false, reduceIte]
        exact doBadCapture_agrees (by simp [AgreesExcept, *]) false
      · simp only [hm, ne_eq, not_false_eq_true, reduceIte]
        by_cases hv : (eget s2.moves (cur' - 1)).value > -8000
            ∨ (eget s2.moves (cur' - 1)).value ≤ quiet_threshold s2.depth
        · simp only [hv, reduceIte, if_true]
          exact ⟨by simp, by simp [AgreesExcept, *]⟩
        · simp only [hv, reduceIte, if_false]
          exact doBadCapture_agrees (by simp [AgreesExcept, *]) false
  · simp only [reduceIte]
    exact doBadCapture_agrees (by simp [AgreesExcept, *]) true

theorem doQuietInit_agrees {s1 s2 : MovePicker} (h : AgreesExcept s1 s2) (f : Bool) :
    (s1.doQuietInit f).1 = (s2.doQuietInit f).1
    ∧ AgreesExcept (s1.doQuietInit f).2 (s2.doQuietInit f).2 := by
  have hsq := score_quiets_agrees h
  obtain ⟨h1, h2, h3, h4, h5, h6, h7, h8, h9, h10, h11, h12, h13, h14⟩ := h
  unfold MovePicker.doQuietInit
  rcases f with _ | _
  · simp only [Bool.false_eq_true, if_false, reduceIte]
    rw [h9, h12, h6, h1, hsq]
    exact doGoodQuiet_agrees (by simp [AgreesExcept, *]) false
  · simp only [reduceIte]
    exact doGoodQuiet_agrees (by simp [AgreesExcept, *]) true

theorem doRefutation_agrees {s1 s2 : MovePicker} (h : AgreesExcept s1 s2) (f : Bool) :
    (s1.doRefutation f).1 = (s2.doRefutation f).1
    ∧ AgreesExcept (s1.doRefutation f).2 (s2.doRefutation f).2 := by
  have hacc := refAccept_agrees h
  obtain ⟨h1, h2, h3, h4, h5, h6, h7, h8, h9, h10, h11, h12, h13, h14⟩ := h
  unfold MovePicker.doRefutation
  rw [h5, h4, hacc, h10, h11]
  cases hsel : selectNext s2.refutations s2.ttMove s2.refAccept s2.cur s2.endMoves with
  | mk m cur' =>
    by_cases hm : m = Move.none
    · simp only [hm, ne_eq, not_true_eq_false, reduceIte]
      exact doQuietInit_agrees (by simp [AgreesExcept, *]) f
    · simp only [hm, ne_eq, not_false_eq_true, reduceIte]
      exact ⟨by simp, by simp [AgreesExcept, *]⟩

theorem doGoodCapture_agrees {s1 s2 : MovePicker} (h : AgreesExcept s1 s2) (f : Bool) :
    (s1.doGoodCapture f).1 = (s2.doGoodCapture f).1
    ∧ AgreesExcept (s1.doGoodCapture f).2 (s2.doGoodCapture f).2 := by
  obtain ⟨h1, h2, h3, h4, h5, h6, h7, h8, h9, h10, h11, h12, h13, h14⟩ := h
  unfold MovePicker.doGoodCapture
  rw [h1, h4, h9, h12, h10, h11, h5]
  cases hsel : selectGC s2.pos s2.ttMove s2.moves s2.endBadCaptures s2.cur s2.endMoves with
  | mk m rest =>
    obtain ⟨buf, ebc, cur'⟩ := rest
    by_cases hm : m = Move.none
    · simp only [hm, ne_eq, not_true_eq_false, reduceIte]
      exact doRefutation_agrees (by simp [AgreesExcept, *]) f
    · simp only [hm, ne_eq, not_false_eq_true, reduceIte]
      exact ⟨by simp, by simp [AgreesExcept, *]⟩

theorem captureInit_agrees {s1 s2 : MovePicker} (h : AgreesExcept s1 s2) :
    AgreesExcept s1.captureInit s2.captureInit := by
  have hsc := score_captures_agrees h
  obtain ⟨h1, h2, h3, h4, h5, h6, h7, h8, h9, h10, h11, h12, h13, h14⟩ := h
  unfold MovePicker.captureInit
  rw [h1, h8, hsc]
  simp [AgreesExcept, *]

theorem evasionInit_agrees {s1 s2 : MovePicker} (h : AgreesExcept s1 s2) :
    AgreesExcept s1.evasionInit s2.evasionInit := by
  have hse := score_evasions_agrees h
  obtain ⟨h1, h2, h3, h4, h5, h6, h7, h8, h9, h10, h11, h12, h13, h14⟩ := h
  unfold MovePicker.evasionInit
  rw [h1, hse]
  simp [AgreesExcept, *]

theorem qcheckInit_agrees {s1 s2 : MovePicker} (h : AgreesExcept s1 s2) :
    AgreesExcept s1.qcheckInit s2.qcheckInit := by
  obtain ⟨h1, h2, h3, h4, h5, h6, h7, h8, h9, h10, h11, h12, h13, h14⟩ := h
  unfold MovePicker.qcheckInit
  rw [h1]
  simp [AgreesExcept, *]

theorem doEvasion_agrees {s1 s2 : MovePicker} (h : AgreesExcept s1 s2) :
    (s1.doEvasion).1 = (s2.doEvasion).1
    ∧ AgreesExcept (s1.doEvasion).2 (s2.doEvasion).2 := by
  obtain ⟨h1, h2, h3, h4, h5, h6, h7, h8, h9, h10, h11, h12, h13, h14⟩ := h
  unfold MovePicker.doEvasion
  rw [h9, h4, h10, h11]
  cases hsel : selectBest s2.moves s2.ttMove s2.cur s2.endMoves with
  | mk m rest =>
    obtain ⟨buf, cur'⟩ := rest
    exact ⟨by simp, by simp [AgreesExcept, *]⟩

theorem doProbcut_agrees {s1 s2 : MovePicker} (h : AgreesExcept s1 s2) :
    (s1.doProbcut).1 = (s2.doProbcut).1
    ∧ AgreesExcept (s1.doProbcut).2 (s2.doProbcut).2 := by
  obtain ⟨h1, h2, h3, h4, h5, h6, h7, h8, h9, h10, h11, h12, h13, h14⟩ := h
  unfold MovePicker.doProbcut
  rw [h9, h4, h10, h11, h1, h7]
  cases hsel : selectNext s2.moves s2.ttMove (fun e => s2.pos.see_ge e.move s2.threshold) s2.cur s2.endMoves with
  | mk m cur' => exact ⟨by simp, by simp [AgreesExcept, *]⟩

theorem doQCheck_agrees {s1 s2 : MovePicker} (h : AgreesExcept s1 s2) :
    (s1.doQCheck).1 = (s2.doQCheck).1
    ∧ AgreesExcept (s1.doQCheck).2 (s2.doQCheck).2 := by
  obtain ⟨h1, h2, h3, h4, h5, h6, h7, h8, h9, h10, h11, h12, h13, h14⟩ := h
  unfold MovePicker.doQCheck
  rw [h9, h4, h10, h11]
  cases hsel : selectNext s2.moves s2.ttMove (fun _ => true) s2.cur s2.endMoves with
  | mk m cur' => exact ⟨by simp, by simp [AgreesExcept, *]⟩

theorem doQCapture_agrees {s1 s2 : MovePicker} (h : AgreesExcept s1 s2) :
    (s1.doQCapture).1 = (s2.doQCapture).1
    ∧ AgreesExcept (s1.doQCapture).2 (s2.doQCapture).2 := by
  obtain ⟨h1, h2, h3, h4, h5, h6, h7, h8, h9, h10, h11, h12, h13, h14⟩ := h
  unfold MovePicker.doQCapture
  rw [h9, h4, h10, h11, h6]
  cases hsel : selectNext s2.moves s2.ttMove (fun _ => true) s2.cur s2.endMoves with
  | mk m cur' =>
    by_cases hm : m = Move.none
    · simp only [hm, ne_eq, not_true_eq_false, reduceIte]
      by_cases hd : s2.depth = DEPTH_QS_CHECKS
      · simp only [hd, ne_eq, not_true_eq_false, reduceIte]
        refine doQCheck_agrees (qcheckInit_agrees (by simp [AgreesExcept, *]))
      · simp only [hd, ne_eq, not_false_eq_true, reduceIte]
        exact ⟨by simp, by simp [AgreesExcept, *]⟩
    · simp only [hm, ne_eq, not_false_eq_true, reduceIte]
      exact ⟨by simp, by simp [AgreesExcept, *]⟩

theorem next_move_agrees {s1 s2 : MovePicker} (h : AgreesExcept s1 s2) (f : Bool) :
    (s1.next_move f).1 = (s2.next_move f).1
    ∧ AgreesExcept (s1.next_move f).2 (s2.next_move f).2 := by
  have h' := h
  obtain ⟨h1, h2, h3, h4, h5, h6, h7, h8, h9, h10, h11, h12, h13, h14⟩ := h'
  unfold MovePicker.next_move
  rw [h8, h4]
  rcases hst : s2.stage with _|_|_|_|_|_|_|_|_|_|_|_|_|_|_|_|_|_|_|st
  · exact ⟨by simp, by simp [AgreesExcept, *]⟩
  · exact doGoodCapture_agrees (captureInit_agrees h) f
  · exact doGoodCapture_agrees h f
  · exact doRefutation_agrees h f
  · exact doQuietInit_agrees h f
  · exact doGoodQuiet_agrees h f
  · exact doBadCapture_agrees h f
  · exact doBadQuiet_agrees h f
  · exact ⟨by simp, by simp [AgreesExcept, *]⟩
  · exact doEvasion_agrees (evasionInit_agrees h)
  · exact doEvasion_agrees h
  · exact ⟨by simp, by simp [AgreesExcept, *]⟩
  · exact doProbcut_agrees (captureInit_agrees h)
  · exact doProbcut_agrees h
  · exact ⟨by simp, by simp [AgreesExcept, *]⟩
  · exact doQCapture_agrees (captureInit_agrees h)
  · exact doQCapture_agrees h
  · exact doQCheck_agrees (qcheckInit_agrees h)
  · exact doQCheck_agrees h
  · exact ⟨rfl, h⟩

theorem trace_agrees {s1 s2 : MovePicker} (h : AgreesExcept s1 s2) (flags : List Bool) :
    s1.trace flags = s2.trace flags := by
  induction flags generalizing s1 s2 with
  | nil => rfl
  | cons f fs ih =>
    have hnm := next_move_agrees h f
    unfold MovePicker.trace MovePicker.steps
    cases hn1 : s1.next_move f with
    | mk m1 t1 =>
      cases hn2 : s2.next_move f with
      | mk m2 t2 =>
        rw [hn1, hn2] at hnm
        simp only [List.map_cons]
        exact congrArg₂ _ hnm.1 (ih hnm.2)

/-- C10: the capture-history and pawn-history tables are never read by
the scoring functions or the selection logic, so two runs of the full
next_move sequence differing only in those two tables yield identical
move sequences. -/
theorem capture_pawn_history_independence (s : MovePicker)
    (cph cph' ph ph' : Nat → Nat → Nat → Int) (flags : List Bool) :
    MovePicker.trace { s with captureHistory := cph, pawnHistory := ph } flags
      = MovePicker.trace { s with captureHistory := cph', pawnHistory := ph' } flags :=
  trace_agrees (by simp [AgreesExcept]) flags

theorem eget_eq_getElem {l : List ExtMove} {i : Nat} (h : i < l.length) :
    eget l i = l[i] := by
  simp [eget, List.getD_eq_getElem?_getD, List.getElem?_eq_getElem h]

theorem drop_set_self {l : List ExtMove} {i : Nat} (a : ExtMove) (h : i < l.length) :
    (l.set i a).drop i = a :: l.drop (i + 1) := by
  rw [List.set_eq_take_cons_drop a h]
  rw [List.drop_append_of_le_length (by simp [List.length_take]; omega)]
  simp [List.length_take, Nat.min_eq_left (Nat.le_of_lt h)]

theorem take_set_of_le (a : ExtMove) {n m : Nat} (l : List ExtMove) (h : m ≤ n) :
    (l.set n a).take m = l.take m := by
  apply List.ext_getElem?
  intro i
  by_cases hi : i < m
  · rw [List.getElem?_take_of_lt hi, List.getElem?_take_of_lt hi,
      List.getElem?_set_ne (by omega)]
  · rw [List.getElem?_take_eq_none (by omega), List.getElem?_take_eq_none (by omega)]

theorem take_sorted_of_sorted {l : List ExtMove} (q : Nat)
    (h : List.Sorted valueDesc l) : List.Sorted valueDesc (l.take q) :=
  List.Pairwise.sublist (List.take_sublist q l) h

theorem take_succ_eget {l : List ExtMove} {q : Nat} (h : q < l.length) :
    l.take (q + 1) = l.take q ++ [eget l q] := by
  rw [List.take_succ, List.getElem?_eq_getElem h, eget_eq_getElem h]
  rfl

theorem lisInner_spec (tmp : ExtMove) :
    ∀ (q : Nat) (l : List ExtMove), q < l.length →
      List.Sorted valueDesc (l.take q) →
      ∃ r, lisInner l q tmp = r ++ l.drop (q + 1)
        ∧ r.length = q + 1
        ∧ r.Perm (tmp :: l.take q)
        ∧ List.Sorted valueDesc r := by
  intro q
  induction q with
  | zero =>
    intro l hl _
    refine ⟨[tmp], ?_, rfl, by simp, List.sorted_singleton _⟩
    rw [lisInner, if_pos rfl]
    cases l with
    | nil => simp at hl
    | cons a l' => rfl
  | succ q ih =>
    intro l hl hs
    have hql : q < l.length := by omega
    have hsq1 : List.Sorted valueDesc (l.take (q + 1)) := hs
    have htsucc : l.take (q + 1) = l.take q ++ [eget l q] := take_succ_eget hql
    have hxall : ∀ a ∈ l.take q, (eget l q).value ≤ a.value := by
      intro a ha
      have := (List.pairwise_append.mp (htsucc ▸ hsq1)).2.2
      exact this a ha (eget l q) (by simp)
    rw [lisInner]
    simp only [Nat.succ_ne_zero, if_false, Nat.add_sub_cancel]
    by_cases hc : (eget l q).value < tmp.value
    · rw [if_pos hc]
      have hlen' : q < (l.set (q + 1) (eget l q)).length := by
        rw [List.length_set]; omega
      have htk : (l.set (q + 1) (eget l q)).take (q + 1) = l.take (q + 1) :=
        take_set_of_le _ _ (le_refl _)
      have htkq : (l.set (q + 1) (eget l q)).take q = l.take q :=
        take_set_of_le _ _ (by omega)
      have hsq0 : List.Sorted valueDesc ((l.set (q + 1) (eget l q)).take q) := by
        rw [htkq]
        have := take_sorted_of_sorted q hsq1
        rwa [List.take_take, Nat.min_eq_left (by omega)] at this
      obtain ⟨r0, hEq, hLen, hPerm, hSort⟩ :=
        ih (l.set (q + 1) (eget l q)) hlen' hsq0
      rw [htkq] at hPerm
      refine ⟨r0 ++ [eget l q], ?_, ?_, ?_, ?_⟩
      · rw [hEq, drop_set_self _ hl, List.append_assoc]
        rfl
      · simp [hLen]
      · rw [htsucc]
        have h2 := hPerm.append_right [eget l q]
        refine h2.trans ?_
        simp
      · refine List.pairwise_append.mpr ⟨hSort, List.sorted_singleton _, ?_⟩
        intro a ha b hb
        rw [List.mem_singleton] at hb
        subst hb
        rcases List.mem_cons.mp (hPerm.mem_iff.mp ha) with h | h
        · subst h
          exact le_of_lt hc
        · exact hxall a h
    · rw [if_neg hc]
      refine ⟨l.take (q + 1) ++ [tmp], ?_, ?_, ?_, ?_⟩
      · rw [List.set_eq_take_cons_drop tmp hl, List.append_assoc]
        rfl
      · simp [List.length_take, Nat.min_eq_left (Nat.le_of_lt hl)]
      · exact List.perm_append_comm
      · refine List.pairwise_append.mpr ⟨hsq1, List.sorted_singleton _, ?_⟩
        intro a ha b hb
        rw [List.mem_singleton] at hb
        rw [hb]
        rw [htsucc] at ha
        rcases List.mem_append.mp ha with h | h
        · have h1 := hxall a h
          have h2 : tmp.value ≤ (eget l q).value := not_lt.mp hc
          exact le_trans h2 h1
        · rw [List.mem_singleton] at h
          rw [h]
          exact not_lt.mp hc

theorem eget_drop {l : List ExtMove} {i j : Nat} :
    eget (l.drop i) j = eget l (i + j) := by
  simp [eget, List.getD_eq_getElem?_getD, List.getElem?_drop]

theorem drop_eq_eget_cons {l : List ExtMove} {n : Nat} (h : n < l.length) :
    l.drop n = eget l n :: l.drop (n + 1) := by
  rw [eget_eq_getElem h]
  exact List.drop_eq_getElem_cons h

theorem eget_congr_of_drop_eq {l l' : List ExtMove} {p : Nat}
    (h : l.drop p = l'.drop p) : eget l p = eget l' p := by
  have h0 : (l.drop p)[0]? = (l'.drop p)[0]? := by rw [h]
  simp only [List.getElem?_drop, Nat.add_zero] at h0
  simp [eget, List.getD_eq_getElem?_getD, h0]

theorem lisOuter_inv (l₀ : List ExtMove) (limit : Int) :
    ∀ (k : Nat) (l : List ExtMove) (sortedEnd p : Nat),
      sortedEnd < p → p ≤ l₀.length → l₀.length - p = k →
      l.Perm l₀ →
      l.drop p = l₀.drop p →
      (l.take (sortedEnd + 1)).Perm
        (l₀.take 1 ++ ((l₀.drop 1).take (p - 1)).filter (scoreAtLeast limit)) →
      List.Sorted valueDesc (l.take (sortedEnd + 1)) →
      ∃ se', se' < l₀.length
        ∧ (lisOuter l₀.length limit l sortedEnd p).Perm l₀
        ∧ ((lisOuter l₀.length limit l sortedEnd p).take (se' + 1)).Perm
            (l₀.take 1 ++ (l₀.drop 1).filter (scoreAtLeast limit))
        ∧ List.Sorted valueDesc
            ((lisOuter l₀.length limit l sortedEnd p).take (se' + 1)) := by
  intro k
  induction k with
  | zero =>
    intro l sortedEnd p hsp hpn hk hglob hdrop hreg hsort
    have hpeq : p = l₀.length := by omega
    rw [lisOuter, dif_neg (by omega)]
    refine ⟨sortedEnd, by omega, hglob, ?_, hsort⟩
    have : ((l₀.drop 1).take (p - 1)) = l₀.drop 1 := by
      apply List.take_of_length_le
      simp [List.length_drop]
      omega
    rwa [this] at hreg
  | succ k ih =>
    intro l sortedEnd p hsp hpn hk hglob hdrop hreg hsort
    have hlen : l.length = l₀.length := hglob.length_eq
    have hpn' : p < l₀.length := by omega
    have hp1 : 1 ≤ p := by omega
    have hpl : p < l.length := by omega
    have hegp : eget l p = eget l₀ p := eget_congr_of_drop_eq hdrop
    have htail : p - 1 < (l₀.drop 1).length := by
      simp [List.length_drop]; omega
    have htailsucc : (l₀.drop 1).take (p - 1 + 1)
        = (l₀.drop 1).take (p - 1) ++ [eget (l₀.drop 1) (p - 1)] :=
      take_succ_eget htail
    have hegtail : eget (l₀.drop 1) (p - 1) = eget l₀ p := by
      rw [eget_drop]
      congr 1
      omega
    have hp11 : p - 1 + 1 = p := by omega
    rw [lisOuter, dif_pos hpn']
    by_cases hq : limit ≤ (eget l p).value
    · rw [if_pos hq]
      -- the qualifying step: insert eget l p into the sorted region
      set tmp := eget l p with htmp
      set y := eget l (sortedEnd + 1) with hy
      set l1 := l.set p y with hl1
      have hse1p : sortedEnd + 1 ≤ p := by omega
      have hl1len : l1.length = l₀.length := by rw [hl1, List.length_set]; omega
      have hse1l1 : sortedEnd + 1 < l1.length := by omega
      have htk1 : l1.take (sortedEnd + 1) = l.take (sortedEnd + 1) :=
        take_set_of_le _ _ hse1p
      obtain ⟨r, hEq, hLen, hPerm, hSort⟩ :=
        lisInner_spec tmp (sortedEnd + 1) l1 hse1l1 (by rw [htk1]; exact hsort)
      -- the cell at sortedEnd + 1 in l1 is y
      have hl1at : eget l1 (sortedEnd + 1) = y := by
        rcases Nat.lt_or_ge (sortedEnd + 1) p with hlt | hge
        · rw [hl1]
          simp only [eget, List.getD_eq_getElem?_getD]
          rw [List.getElem?_set_ne (by omega)]
          rw [← List.getD_eq_getElem?_getD]
          exact hy.symm
        · have hEqp : sortedEnd + 1 = p := by omega
          rw [hEqp, hl1]
          simp only [eget, List.getD_eq_getElem?_getD]
          rw [List.getElem?_set_self hpl]
          rfl
      -- global permutation of the new buffer
      have hglob2 : (lisInner l1 (sortedEnd + 1) tmp).Perm l := by
        rw [hEq]
        have hWl : l.Perm (tmp :: (l.take p ++ l.drop (p + 1))) := by
          conv_lhs => rw [← List.take_append_drop p l, drop_eq_eget_cons hpl]
          rw [← htmp]
          exact List.perm_middle
        have hWl1 : l1.Perm (y :: (l.take p ++ l.drop (p + 1))) := by
          rw [hl1, List.set_eq_take_cons_drop y hpl]
          exact List.perm_middle
        have hZl1 : l1.Perm (y :: (l1.take (sortedEnd + 1) ++ l1.drop (sortedEnd + 2))) := by
          conv_lhs => rw [← List.take_append_drop (sortedEnd + 1) l1,
            drop_eq_eget_cons (by omega : sortedEnd + 1 < l1.length), hl1at]
          exact List.perm_middle
        have hZW : (l1.take (sortedEnd + 1) ++ l1.drop (sortedEnd + 2)).Perm
            (l.take p ++ l.drop (p + 1)) :=
          (hZl1.symm.trans hWl1).cons_inv
        refine (hPerm.append_right (l1.drop (sortedEnd + 1 + 1))).trans ?_
        refine List.Perm.trans ?_ hWl.symm
        exact hZW.cons tmp
      -- new suffix
      have hdrop2 : (lisInner l1 (sortedEnd + 1) tmp).drop (p + 1) = l₀.drop (p + 1) := by
        rw [hEq, List.drop_append_eq_append_drop]
        have hr1 : r.length ≤ p + 1 := by rw [hLen]; omega
        rw [List.drop_eq_nil_of_le hr1, List.nil_append, List.drop_drop]
        have : sortedEnd + 1 + 1 + (p + 1 - r.length) = p + 1 := by omega
        rw [this, hl1, List.drop_set_of_lt _ _ (by omega)]
        rw [← List.drop_drop, hdrop, List.drop_drop]
      -- new sorted region
      have htakeR : (lisInner l1 (sortedEnd + 1) tmp).take (sortedEnd + 1 + 1) = r := by
        rw [hEq]
        exact List.take_left' hLen
      have hreg2 : ((lisInner l1 (sortedEnd + 1) tmp).take (sortedEnd + 1 + 1)).Perm
          (l₀.take 1 ++ ((l₀.drop 1).take (p + 1 - 1)).filter (scoreAtLeast limit)) := by
        rw [htakeR]
        have hfq : scoreAtLeast limit (eget l₀ p) = true := by
          simp [scoreAtLeast]
          rw [← hegp]
          exact hq
        have : ((l₀.drop 1).take (p + 1 - 1)).filter (scoreAtLeast limit)
            = ((l₀.drop 1).take (p - 1)).filter (scoreAtLeast limit) ++ [eget l₀ p] := by
          have hstep : p + 1 - 1 = p - 1 + 1 := by omega
          rw [hstep, htailsucc, List.filter_append, hegtail]
          simp [hfq]
        rw [this]
        refine hPerm.trans ?_
        rw [htk1]
        refine (hreg.cons tmp).trans ?_
        have hswap : List.Perm
            ([tmp] ++ (l₀.take 1 ++ ((l₀.drop 1).take (p - 1)).filter (scoreAtLeast limit)))
            ((l₀.take 1 ++ ((l₀.drop 1).take (p - 1)).filter (scoreAtLeast limit)) ++ [tmp]) :=
          List.perm_append_comm
        refine hswap.trans ?_
        rw [List.append_assoc, hegp]
      exact ih (lisInner l1 (sortedEnd + 1) tmp) (sortedEnd + 1) (p + 1)
        (by omega) (by omega) (by omega)
        (hglob2.trans hglob) hdrop2 hreg2 (htakeR ▸ hSort)
    · rw [if_neg hq]
      have hreg2 : (l.take (sortedEnd + 1)).Perm
          (l₀.take 1 ++ ((l₀.drop 1).take (p + 1 - 1)).filter (scoreAtLeast limit)) := by
        have hfq : scoreAtLeast limit (eget l₀ p) = false := by
          simp [scoreAtLeast]
          rw [← hegp]
          exact not_le.mp hq
        have : ((l₀.drop 1).take (p + 1 - 1)).filter (scoreAtLeast limit)
            = ((l₀.drop 1).take (p - 1)).filter (scoreAtLeast limit) := by
          have hstep : p + 1 - 1 = p - 1 + 1 := by omega
          rw [hstep, htailsucc, List.filter_append, hegtail]
          simp [hfq]
        rw [this]
        exact hreg
      exact ih l sortedEnd (p + 1) (by omega) (by omega) (by omega)
        hglob (by rw [← List.drop_drop, hdrop, List.drop_drop]) hreg2 hsort
/-- Full correctness of `partial_insertion_sort`: permutation, the
qualifying prefix, and its non-increasing order. -/
theorem lis_partial_sort_facts (l : List ExtMove) (limit : Int) :
    (limited_insertion_sort l limit).Perm l
    ∧ ((limited_insertion_sort l limit).take
        ((l.filter (scoreAtLeast limit)).length)).Perm (l.filter (scoreAtLeast limit))
    ∧ List.Sorted valueDesc
        ((limited_insertion_sort l limit).take ((l.filter (scoreAtLeast limit)).length)) := by
  cases l with
  | nil =>
    have : limited_insertion_sort [] limit = [] := by
      rw [limited_insertion_sort, lisOuter, dif_neg (by simp)]
    simp [this]
  | cons h t =>
    obtain ⟨se', hse'n, hglob, htake, hsorted⟩ :=
      lisOuter_inv (h :: t) limit ((h :: t).length - 1) (h :: t) 0 1
        (by omega) (by simp) (by simp) (List.Perm.refl _) rfl
        (by simp) (by simp)
    have hres : limited_insertion_sort (h :: t) limit
        = lisOuter (h :: t).length limit (h :: t) 0 1 := rfl
    rw [hres]
    set res := lisOuter (h :: t).length limit (h :: t) 0 1 with hresdef
    have hreslen : res.length = t.length + 1 := by
      have := hglob.length_eq
      simpa using this
    have htake1 : (h :: t).take 1 = [h] := rfl
    have hdrop1 : (h :: t).drop 1 = t := rfl
    rw [htake1, hdrop1] at htake
    have hTlen : (res.take (se' + 1)).length = (t.filter (scoreAtLeast limit)).length + 1 := by
      have h1 := htake.length_eq
      simp only [List.length_append, List.length_cons, List.length_nil] at h1
      omega
    have hTlen' : (res.take (se' + 1)).length = se' + 1 := by
      rw [List.length_take, hreslen]
      simp only [List.length_cons] at hse'n
      omega
    rcases hq : scoreAtLeast limit h with _ | _
    · -- head below the limit: the qualifying prefix has length se'
      have hK : ((h :: t).filter (scoreAtLeast limit)).length
          = (t.filter (scoreAtLeast limit)).length := by
        rw [List.filter_cons_of_neg (by simp [hq])]
      have hse : se' = (t.filter (scoreAtLeast limit)).length := by omega
      set T := res.take (se' + 1) with hT
      have hTne : T ≠ [] := by
        intro hnil
        rw [hnil] at hTlen
        simp at hTlen
      set x := T.getLast hTne with hx
      have hTx : T.dropLast ++ [x] = T := List.dropLast_concat_getLast hTne
      have hTdl : T.dropLast = res.take se' := by
        rw [List.dropLast_eq_take, hTlen', hT, List.take_take]
        congr 1
        omega
      have hmemx : x ∈ h :: t.filter (scoreAtLeast limit) := by
        refine htake.mem_iff.mp ?_
        exact List.getLast_mem hTne
      have hvalall : ∀ e ∈ T, x.value ≤ e.value := by
        intro e he
        rw [← hTx] at he
        rcases List.mem_append.mp he with h1 | h1
        · have hsorted' : List.Sorted valueDesc (T.dropLast ++ [x]) := by
            rw [hTx]
            exact hsorted
          exact (List.pairwise_append.mp hsorted').2.2 e h1 x (by simp)
        · rw [List.mem_singleton] at h1
          rw [h1]
      have hxlow : ¬ limit ≤ x.value := by
        intro hle
        have hhT : h ∈ T := htake.mem_iff.mpr (by simp)
        have := hvalall h hhT
        have : limit ≤ h.value := le_trans hle this
        rw [show scoreAtLeast limit h = true by simp [scoreAtLeast, this]] at hq
        simp at hq
      have hxh : x = h := by
        rcases List.mem_cons.mp hmemx with h1 | h1
        · exact h1
        · exfalso
          have := (List.mem_filter.mp h1).2
          simp [scoreAtLeast] at this
          exact hxlow this
      have hdlF : (T.dropLast).Perm (t.filter (scoreAtLeast limit)) := by
        have h1 : List.Perm (T.dropLast ++ [x]) (h :: t.filter (scoreAtLeast limit)) := by
          rw [hTx]
          exact htake
        have h2 : List.Perm (x :: T.dropLast) (T.dropLast ++ [x]) :=
          @List.perm_append_comm ExtMove [x] T.dropLast
        have h3 := h2.trans h1
        rw [hxh] at h3
        exact h3.cons_inv
      refine ⟨hglob, ?_, ?_⟩
      · rw [hK, ← hse, ← hTdl, List.filter_cons_of_neg (by simp [hq])]
        exact hdlF
      · rw [hK, ← hse, ← hTdl]
        exact List.Pairwise.sublist (List.dropLast_sublist T) hsorted
    · -- head at or above the limit: the qualifying prefix is the whole region
      have hK : ((h :: t).filter (scoreAtLeast limit)).length
          = (t.filter (scoreAtLeast limit)).length + 1 := by
        rw [List.filter_cons_of_pos (by rw [hq])]
        simp
      have hse : se' + 1 = ((h :: t).filter (scoreAtLeast limit)).length := by omega
      refine ⟨hglob, ?_, ?_⟩
      · rw [← hse, List.filter_cons_of_pos (by rw [hq])]
        exact htake
      · rw [← hse]
        exact hsorted

/-- C3 (amended): after `partial_insertion_sort` the range is a
permutation of the original, and its prefix of length (number of cells
with value ≥ limit) is exactly those cells, in non-increasing
(descending, ties allowed) value order; strict descent fails on ties,
see the counterexample. -/
theorem limited_insertion_sort_spec (l : List ExtMove) (limit : Int) :
    (limited_insertion_sort l limit).Perm l
    ∧ ((limited_insertion_sort l limit).take
        ((l.filter (scoreAtLeast limit)).length)).Perm (l.filter (scoreAtLeast limit))
    ∧ List.Sorted valueDesc
        ((limited_insertion_sort l limit).take ((l.filter (scoreAtLeast limit)).length)) :=
  lis_partial_sort_facts l limit

/-- C3 counterexample: on the two-cell range `[(wMvA,5), (wMvB,5)]`
with threshold 0 there is no prefix that is in strictly descending score
order and contains exactly the cells with score ≥ 0, so the claim as
stated (with "strictly") is false at this input. -/
theorem limited_insertion_sort_strict_counterexample :
    ¬ ((limited_insertion_sort [⟨wMvA, 5⟩, ⟨wMvB, 5⟩] 0).Perm [⟨wMvA, 5⟩, ⟨wMvB, 5⟩]
      ∧ ∃ k, List.Chain' (fun a b : ExtMove => b.value < a.value)
            ((limited_insertion_sort [⟨wMvA, 5⟩, ⟨wMvB, 5⟩] 0).take k)
          ∧ ((limited_insertion_sort [⟨wMvA, 5⟩, ⟨wMvB, 5⟩] 0).take k).Perm
              ([⟨wMvA, 5⟩, ⟨wMvB, 5⟩].filter (scoreAtLeast 0))) := by
  have hcomp : limited_insertion_sort [⟨wMvA, 5⟩, ⟨wMvB, 5⟩] 0
      = [⟨wMvA, 5⟩, ⟨wMvB, 5⟩] := by
    simp [limited_insertion_sort, lisOuter, lisInner, eget, wMvA, wMvB]
  have hfil : [(⟨wMvA, 5⟩ : ExtMove), ⟨wMvB, 5⟩].filter (scoreAtLeast 0)
      = [⟨wMvA, 5⟩, ⟨wMvB, 5⟩] := by decide
  rintro ⟨-, k, hchain, hperm⟩
  rw [hcomp] at hchain hperm
  rw [hfil] at hperm
  have hlen := hperm.length_eq
  rw [List.length_take] at hlen
  simp only [List.length_cons, List.length_nil] at hlen
  have hk : 2 ≤ k := by omega
  have htk : (([⟨wMvA, 5⟩, ⟨wMvB, 5⟩] : List ExtMove).take k)
      = [⟨wMvA, 5⟩, ⟨wMvB, 5⟩] :=
    List.take_of_length_le (by simp; omega)
  rw [htk] at hchain
  have := (List.chain'_cons.mp hchain).1
  simp at this

theorem selectNext_spec (buf : List ExtMove) (ttm : Move) (accept : ExtMove → Bool) :
    ∀ (k cur endM : Nat), endM - cur = k →
      ((selectNext buf ttm accept cur endM).1 = Move.none
        ∧ cur ≤ (selectNext buf ttm accept cur endM).2
        ∧ ∀ i, cur ≤ i → i < endM →
            ¬((eget buf i).move ≠ ttm ∧ accept (eget buf i) = true))
      ∨ (∃ i, cur ≤ i ∧ i < endM
          ∧ selectNext buf ttm accept cur endM = ((eget buf i).move, i + 1)
          ∧ (eget buf i).move ≠ ttm ∧ accept (eget buf i) = true
          ∧ ∀ j, cur ≤ j → j < i →
              ¬((eget buf j).move ≠ ttm ∧ accept (eget buf j) = true)) := by
  intro k
  induction k with
  | zero =>
    intro cur endM hk
    rw [selectNext, dif_neg (by omega)]
    exact Or.inl ⟨rfl, le_refl _, fun i h1 h2 => absurd (by omega : cur < cur) (by omega)⟩
  | succ k ih =>
    intro cur endM hk
    have hlt : cur < endM := by omega
    rw [selectNext, dif_pos hlt]
    by_cases hacc : (eget buf cur).move ≠ ttm ∧ accept (eget buf cur) = true
    · rw [if_pos hacc]
      exact Or.inr ⟨cur, le_refl _, hlt, rfl, hacc.1, hacc.2,
        fun j h1 h2 => absurd (by omega : cur < cur) (by omega)⟩
    · rw [if_neg hacc]
      rcases ih (cur + 1) endM (by omega) with ⟨h1, h2, h3⟩ | ⟨i, h1, h2, h3, h4, h5, h6⟩
      · refine Or.inl ⟨h1, by omega, ?_⟩
        intro i hi1 hi2
        rcases Nat.eq_or_lt_of_le hi1 with heq | hgt
        · rw [← heq]
          exact hacc
        · exact h3 i hgt hi2
      · refine Or.inr ⟨i, by omega, h2, h3, h4, h5, ?_⟩
        intro j hj1 hj2
        rcases Nat.eq_or_lt_of_le hj1 with heq | hgt
        · rw [← heq]
          exact hacc
        · exact h6 j hgt hj2

theorem selectNext_ne (buf : List ExtMove) (ttm : Move) (accept : ExtMove → Bool)
    (cur endM : Nat) :
    (selectNext buf ttm accept cur endM).1 = Move.none
    ∨ (selectNext buf ttm accept cur endM).1 ≠ ttm := by
  rcases selectNext_spec buf ttm accept (endM - cur) cur endM rfl with
    ⟨h1, -⟩ | ⟨i, -, -, h3, h4, -⟩
  · exact Or.inl h1
  · right
    rw [h3]
    exact h4

theorem selectGC_ne (p : Position) (ttm : Move) :
    ∀ (k : Nat) (buf : List ExtMove) (ebc cur endM : Nat), endM - cur = k →
      (selectGC p ttm buf ebc cur endM).1 = Move.none
      ∨ (selectGC p ttm buf ebc cur endM).1 ≠ ttm := by
  intro k
  induction k with
  | zero =>
    intro buf ebc cur endM hk
    rw [selectGC, dif_neg (by omega)]
    exact Or.inl rfl
  | succ k ih =>
    intro buf ebc cur endM hk
    rw [selectGC, dif_pos (by omega : cur < endM)]
    by_cases htt : (eget buf cur).move ≠ ttm
    · rw [if_pos htt]
      by_cases hsee : p.see_ge (eget buf cur).move (Int.tdiv (-(eget buf cur).value) 18) = true
      · rw [if_pos hsee]
        exact Or.inr htt
      · rw [if_neg hsee]
        exact ih _ _ _ _ (by omega)
    · rw [if_neg htt]
      exact ih _ _ _ _ (by omega)

theorem selectBest_ne (ttm : Move) :
    ∀ (k : Nat) (buf : List ExtMove) (cur endM : Nat), endM - cur = k →
      (selectBest buf ttm cur endM).1 = Move.none
      ∨ (selectBest buf ttm cur endM).1 ≠ ttm := by
  intro k
  induction k with
  | zero =>
    intro buf cur endM hk
    rw [selectBest, dif_neg (by omega)]
    exact Or.inl rfl
  | succ k ih =>
    intro buf cur endM hk
    rw [selectBest, dif_pos (by omega : cur < endM)]
    by_cases htt : (eget (lswap buf cur (maxIdxFrom buf cur (cur + 1) endM)) cur).move ≠ ttm
    · rw [if_pos htt]
      exact Or.inr htt
    · rw [if_neg htt]
      exact ih _ _ _ (by omega)
theorem SameCore_refl (s : MovePicker) : SameCore s s :=
  ⟨rfl, rfl, rfl, rfl, rfl, rfl, rfl, rfl, rfl⟩

theorem SameCore_trans {a b c : MovePicker} (h1 : SameCore a b) (h2 : SameCore b c) :
    SameCore a c := by
  obtain ⟨x1, x2, x3, x4, x5, x6, x7, x8, x9⟩ := h1
  obtain ⟨y1, y2, y3, y4, y5, y6, y7, y8, y9⟩ := h2
  exact ⟨y1.trans x1, y2.trans x2, y3.trans x3, y4.trans x4, y5.trans x5,
    y6.trans x6, y7.trans x7, y8.trans x8, y9.trans x9⟩

theorem doBadQuiet_facts (s : MovePicker) (f : Bool) :
    ((s.doBadQuiet f).1 = Move.none ∨ (s.doBadQuiet f).1 ≠ s.ttMove)
    ∧ SameCore s (s.doBadQuiet f).2
    ∧ (s.doBadQuiet f).2.stage = s.stage := by
  unfold MovePicker.doBadQuiet
  rcases f with _ | _
  · cases hsel : selectNext s.moves s.ttMove s.goodQuietAccept s.cur s.endMoves with
    | mk m cur' =>
      have hne := selectNext_ne s.moves s.ttMove s.goodQuietAccept s.cur s.endMoves
      rw [hsel] at hne
      exact ⟨hne, by simp [SameCore], rfl⟩
  · exact ⟨Or.inl rfl, SameCore_refl s, rfl⟩

theorem doBadCapture_facts (s : MovePicker) (f : Bool) :
    ((s.doBadCapture f).1 = Move.none ∨ (s.doBadCapture f).1 ≠ s.ttMove)
    ∧ SameCore s (s.doBadCapture f).2
    ∧ ((s.doBadCapture f).2.stage = s.stage ∨ NT (s.doBadCapture f).2.stage) := by
  unfold MovePicker.doBadCapture
  cases hsel : selectNext s.moves s.ttMove (fun _ => true) s.cur s.endMoves with
  | mk m cur' =>
    have hne := selectNext_ne s.moves s.ttMove (fun _ => true) s.cur s.endMoves
    rw [hsel] at hne
    dsimp only
    dsimp only at hne
    by_cases hm : m = Move.none
    · rw [if_neg (by simp [hm])]
      set s1 : MovePicker :=
        { s with cur := s.beginBadQuiets, endMoves := s.endBadQuiets,
                 stage := BAD_QUIET } with hs1
      obtain ⟨ha, hb, hc⟩ := doBadQuiet_facts s1 f
      have hcore : SameCore s s1 := by simp [SameCore, hs1]
      refine ⟨?_, SameCore_trans hcore hb, ?_⟩
      · rcases ha with h | h
        · exact Or.inl h
        · right
          rw [hcore.2.2.2.2.2.1] at h
          exact h
      · right
        rw [hc]
        simp [hs1, NT, BAD_QUIET, MAIN_TT, EVASION_TT, PROBCUT_TT, QSEARCH_TT]
    · rw [if_pos (by simp [hm])]
      exact ⟨hne, by simp [SameCore], Or.inl rfl⟩
theorem NT_explicit (n : Nat) (h0 : n ≠ 0) (h8 : n ≠ 8) (h11 : n ≠ 11) (h14 : n ≠ 14) :
    NT n := by
  simp [NT, MAIN_TT, EVASION_TT, PROBCUT_TT, QSEARCH_TT, h0, h8, h11, h14]

theorem doGoodQuiet_facts (s : MovePicker) (f : Bool) :
    ((s.doGoodQuiet f).1 = Move.none ∨ (s.doGoodQuiet f).1 ≠ s.ttMove)
    ∧ SameCore s (s.doGoodQuiet f).2
    ∧ ((s.doGoodQuiet f).2.stage = s.stage ∨ NT (s.doGoodQuiet f).2.stage) := by
  have hbc : ∀ s1 : MovePicker, SameCore s s1 →
      ((MovePicker.doBadCapture s1.enterBadCapture f).1 = Move.none
        ∨ (MovePicker.doBadCapture s1.enterBadCapture f).1 ≠ s.ttMove)
      ∧ SameCore s (MovePicker.doBadCapture s1.enterBadCapture f).2
      ∧ NT (MovePicker.doBadCapture s1.enterBadCapture f).2.stage := by
    intro s1 hcore1
    have hcore2 : SameCore s1 s1.enterBadCapture := by
      simp [SameCore, MovePicker.enterBadCapture]
    have hst2 : s1.enterBadCapture.stage = BAD_CAPTURE := rfl
    obtain ⟨ha, hb, hc⟩ := doBadCapture_facts s1.enterBadCapture f
    have hcore := SameCore_trans (SameCore_trans hcore1 hcore2) hb
    refine ⟨?_, hcore, ?_⟩
    · rcases ha with h | h
      · exact Or.inl h
      · right
        rw [(SameCore_trans hcore1 hcore2).2.2.2.2.2.1] at h
        exact h
    · rcases hc with h | h
      · rw [h, hst2]
        exact NT_explicit _ (by simp [BAD_CAPTURE]) (by simp [BAD_CAPTURE])
          (by simp [BAD_CAPTURE]) (by simp [BAD_CAPTURE])
      · exact h
  unfold MovePicker.doGoodQuiet
  rcases f with _ | _
  · cases hsel : selectNext s.moves s.ttMove s.goodQuietAccept s.cur s.endMoves with
    | mk m cur' =>
      have hne := selectNext_ne s.moves s.ttMove s.goodQuietAccept s.cur s.endMoves
      rw [hsel] at hne
      dsimp only
      dsimp only at hne
      by_cases hm : m = Move.none
      · simp only [hm, ne_eq, not_true_eq_false, if_false, reduceIte]
        obtain ⟨ha, hb, hc⟩ := hbc { s with cur := cur' } (by simp [SameCore])
        exact ⟨ha, hb, Or.inr hc⟩
      · simp only [hm, ne_eq, not_false_eq_true, if_true, reduceIte]
        by_cases hv : (eget s.moves (cur' - 1)).value > -8000
            ∨ (eget s.moves (cur' - 1)).value ≤ quiet_threshold s.depth
        · simp only [hv, if_true, reduceIte]
          exact ⟨hne, by simp [SameCore], Or.inl rfl⟩
        · simp only [hv, if_false, reduceIte]
          obtain ⟨ha, hb, hc⟩ :=
            hbc { s with cur := cur', beginBadQuiets := cur' - 1 } (by simp [SameCore])
          exact ⟨ha, hb, Or.inr hc⟩
  · obtain ⟨ha, hb, hc⟩ := hbc s (SameCore_refl s)
    exact ⟨ha, hb, Or.inr hc⟩

theorem doQuietInit_facts (s : MovePicker) (f : Bool) :
    ((s.doQuietInit f).1 = Move.none ∨ (s.doQuietInit f).1 ≠ s.ttMove)
    ∧ SameCore s (s.doQuietInit f).2
    ∧ NT (s.doQuietInit f).2.stage := by
  have key : ∀ s1 : MovePicker, SameCore s s1 → s1.stage = GOOD_QUIET →
      ((MovePicker.doGoodQuiet s1 f).1 = Move.none
        ∨ (MovePicker.doGoodQuiet s1 f).1 ≠ s.ttMove)
      ∧ SameCore s (MovePicker.doGoodQuiet s1 f).2
      ∧ NT (MovePicker.doGoodQuiet s1 f).2.stage := by
    intro s1 hcore1 hst1
    obtain ⟨ha, hb, hc⟩ := doGoodQuiet_facts s1 f
    refine ⟨?_, SameCore_trans hcore1 hb, ?_⟩
    · rcases ha with h | h
      · exact Or.inl h
      · right
        rw [hcore1.2.2.2.2.2.1] at h
        exact h
    · rcases hc with h | h
      · rw [h, hst1]
        exact NT_explicit _ (by simp [GOOD_QUIET]) (by simp [GOOD_QUIET])
          (by simp [GOOD_QUIET]) (by simp [GOOD_QUIET])
      · exact h
  unfold MovePicker.doQuietInit
  rcases f with _ | _
  · exact key _ (by simp [SameCore]) rfl
  · exact key _ (by simp [SameCore]) rfl

theorem doRefutation_facts (s : MovePicker) (f : Bool) :
    ((s.doRefutation f).1 = Move.none ∨ (s.doRefutation f).1 ≠ s.ttMove)
    ∧ SameCore s (s.doRefutation f).2
    ∧ ((s.doRefutation f).2.stage = s.stage ∨ NT (s.doRefutation f).2.stage) := by
  unfold MovePicker.doRefutation
  cases hsel : selectNext s.refutations s.ttMove s.refAccept s.cur s.endMoves with
  | mk m cur' =>
    have hne := selectNext_ne s.refutations s.ttMove s.refAccept s.cur s.endMoves
    rw [hsel] at hne
    dsimp only
    dsimp only at hne
    by_cases hm : m = Move.none
    · rw [if_neg (by simp [hm])]
      obtain ⟨ha, hb, hc⟩ :=
        doQuietInit_facts { s with cur := cur', stage := QUIET_INIT } f
      have hcore1 : SameCore s ({ s with cur := cur', stage := QUIET_INIT } : MovePicker) := by
        simp [SameCore]
      refine ⟨?_, SameCore_trans hcore1 hb, Or.inr hc⟩
      rcases ha with h | h
      · exact Or.inl h
      · right
        rw [hcore1.2.2.2.2.2.1] at h
        exact h
    · rw [if_pos (by simp [hm])]
      exact ⟨hne, by simp [SameCore], Or.inl rfl⟩

theorem doGoodCapture_facts (s : MovePicker) (f : Bool) :
    ((s.doGoodCapture f).1 = Move.none ∨ (s.doGoodCapture f).1 ≠ s.ttMove)
    ∧ SameCore s (s.doGoodCapture f).2
    ∧ ((s.doGoodCapture f).2.stage = s.stage ∨ NT (s.doGoodCapture f).2.stage) := by
  unfold MovePicker.doGoodCapture
  cases hsel : selectGC s.pos s.ttMove s.moves s.endBadCaptures s.cur s.endMoves with
  | mk m rest =>
    obtain ⟨buf, ebc, cur'⟩ := rest
    have hne := selectGC_ne s.pos s.ttMove (s.endMoves - s.cur) s.moves
      s.endBadCaptures s.cur s.endMoves rfl
    rw [hsel] at hne
    dsimp only
    dsimp only at hne
    by_cases hm : m = Move.none
    · rw [if_neg (by simp [hm])]
      set s1 : MovePicker :=
        { s with moves := buf, endBadCaptures := ebc, cur := 0,
                 endMoves :=
                   if (eget s.refutations 0).move = (eget s.refutations 2).move
                       ∨ (eget s.refutations 1).move = (eget s.refutations 2).move
                   then 2 else 3,
                 stage := REFUTATION } with hs1
      obtain ⟨ha, hb, hc⟩ := doRefutation_facts s1 f
      have hcore1 : SameCore s s1 := by simp [SameCore, hs1]
      refine ⟨?_, SameCore_trans hcore1 hb, ?_⟩
      · rcases ha with h | h
        · exact Or.inl h
        · right
          rw [hcore1.2.2.2.2.2.1] at h
          exact h
      · right
        rcases hc with h | h
        · rw [h]
          exact NT_explicit _ (by simp [hs1, REFUTATION]) (by simp [hs1, REFUTATION])
            (by simp [hs1, REFUTATION]) (by simp [hs1, REFUTATION])
        · exact h
    · rw [if_pos (by simp [hm])]
      exact ⟨hne, by simp [SameCore], Or.inl rfl⟩

theorem doEvasion_facts (s : MovePicker) :
    ((s.doEvasion).1 = Move.none ∨ (s.doEvasion).1 ≠ s.ttMove)
    ∧ SameCore s (s.doEvasion).2
    ∧ (s.doEvasion).2.stage = s.stage := by
  unfold MovePicker.doEvasion
  cases hsel : selectBest s.moves s.ttMove s.cur s.endMoves with
  | mk m rest =>
    obtain ⟨buf, cur'⟩ := rest
    have hne := selectBest_ne s.ttMove (s.endMoves - s.cur) s.moves s.cur s.endMoves rfl
    rw [hsel] at hne
    dsimp only
    dsimp only at hne
    exact ⟨hne, by simp [SameCore], rfl⟩

theorem doProbcut_facts (s : MovePicker) :
    ((s.doProbcut).1 = Move.none ∨ (s.doProbcut).1 ≠ s.ttMove)
    ∧ SameCore s (s.doProbcut).2
    ∧ (s.doProbcut).2.stage = s.stage := by
  unfold MovePicker.doProbcut
  cases hsel : selectNext s.moves s.ttMove (fun e => s.pos.see_ge e.move s.threshold)
      s.cur s.endMoves with
  | mk m cur' =>
    have hne := selectNext_ne s.moves s.ttMove
      (fun e => s.pos.see_ge e.move s.threshold) s.cur s.endMoves
    rw [hsel] at hne
    dsimp only
    dsimp only at hne
    exact ⟨hne, by simp [SameCore], rfl⟩

theorem doQCheck_facts (s : MovePicker) :
    ((s.doQCheck).1 = Move.none ∨ (s.doQCheck).1 ≠ s.ttMove)
    ∧ SameCore s (s.doQCheck).2
    ∧ (s.doQCheck).2.stage = s.stage := by
  unfold MovePicker.doQCheck
  cases hsel : selectNext s.moves s.ttMove (fun _ => true) s.cur s.endMoves with
  | mk m cur' =>
    have hne := selectNext_ne s.moves s.ttMove (fun _ => true) s.cur s.endMoves
    rw [hsel] at hne
    dsimp only
    dsimp only at hne
    exact ⟨hne, by simp [SameCore], rfl⟩

theorem doQCapture_facts (s : MovePicker) :
    ((s.doQCapture).1 = Move.none ∨ (s.doQCapture).1 ≠ s.ttMove)
    ∧ SameCore s (s.doQCapture).2
    ∧ ((s.doQCapture).2.stage = s.stage ∨ NT (s.doQCapture).2.stage) := by
  unfold MovePicker.doQCapture
  cases hsel : selectNext s.moves s.ttMove (fun _ => true) s.cur s.endMoves with
  | mk m cur' =>
    have hne := selectNext_ne s.moves s.ttMove (fun _ => true) s.cur s.endMoves
    rw [hsel] at hne
    dsimp only
    dsimp only at hne
    by_cases hm : m = Move.none
    · rw [if_neg (by simp [hm])]
      by_cases hd : s.depth ≠ DEPTH_QS_CHECKS
      · rw [if_pos hd]
        exact ⟨Or.inl rfl, by simp [SameCore], Or.inl rfl⟩
      · rw [if_neg hd]
        obtain ⟨ha, hb, hc⟩ :=
          doQCheck_facts (MovePicker.qcheckInit { s with cur := cur' })
        have hcore1 : SameCore s (MovePicker.qcheckInit { s with cur := cur' }) := by
          simp [SameCore, MovePicker.qcheckInit]
        refine ⟨?_, SameCore_trans hcore1 hb, ?_⟩
        · rcases ha with h | h
          · exact Or.inl h
          · right
            rw [hcore1.2.2.2.2.2.1] at h
            exact h
        · right
          rw [hc]
          exact NT_explicit _ (by simp [MovePicker.qcheckInit, QCHECK])
            (by simp [MovePicker.qcheckInit, QCHECK])
            (by simp [MovePicker.qcheckInit, QCHECK])
            (by simp [MovePicker.qcheckInit, QCHECK])
    · rw [if_pos (by simp [hm])]
      exact ⟨hne, by simp [SameCore], Or.inl rfl⟩
theorem next_move_at_tt (s : MovePicker) (f : Bool)
    (h : s.stage = 0 ∨ s.stage = 8 ∨ s.stage = 11 ∨ s.stage = 14) :
    (s.next_move f).1 = s.ttMove ∧ SameCore s (s.next_move f).2
    ∧ NT (s.next_move f).2.stage := by
  unfold MovePicker.next_move
  rcases h with h | h | h | h <;> rw [h] <;>
    exact ⟨rfl, by simp [SameCore], NT_explicit _ (by simp [MAIN_TT]) (by simp [EVASION_TT])
      (by simp [PROBCUT_TT]) (by simp [QSEARCH_TT])⟩

theorem next_move_facts (s : MovePicker) (f : Bool) (hnt : NT s.stage) :
    ((s.next_move f).1 = Move.none ∨ (s.next_move f).1 ≠ s.ttMove)
    ∧ SameCore s (s.next_move f).2
    ∧ NT (s.next_move f).2.stage := by
  have lift : ∀ (s1 : MovePicker) (r : Move × MovePicker), SameCore s s1 →
      ((r.1 = Move.none ∨ r.1 ≠ s1.ttMove) ∧ SameCore s1 r.2
        ∧ (r.2.stage = s1.stage ∨ NT r.2.stage)) →
      NT s1.stage →
      ((r.1 = Move.none ∨ r.1 ≠ s.ttMove) ∧ SameCore s r.2 ∧ NT r.2.stage) := by
    intro s1 r hcore ⟨ha, hb, hc⟩ hnt1
    refine ⟨?_, SameCore_trans hcore hb, ?_⟩
    · rcases ha with h | h
      · exact Or.inl h
      · right
        rw [hcore.2.2.2.2.2.1] at h
        exact h
    · rcases hc with h | h
      · rw [h]
        exact hnt1
      · exact h
  unfold MovePicker.next_move
  rcases hst : s.stage with _|_|_|_|_|_|_|_|_|_|_|_|_|_|_|_|_|_|_|n
  · exact absurd hst (by simpa [MAIN_TT] using hnt.1)
  · -- CAPTURE_INIT
    refine lift s.captureInit _ (by simp [SameCore, MovePicker.captureInit])
      (doGoodCapture_facts s.captureInit f) ?_
    have : s.captureInit.stage = s.stage + 1 := rfl
    rw [this, hst]
    exact NT_explicit _ (by simp [MAIN_TT]) (by simp [EVASION_TT])
      (by simp [PROBCUT_TT]) (by simp [QSEARCH_TT])
  · exact lift s _ (SameCore_refl s) (doGoodCapture_facts s f)
      (by rw [hst] at hnt ⊢; exact hnt)
  · exact lift s _ (SameCore_refl s) (doRefutation_facts s f)
      (by rw [hst] at hnt ⊢; exact hnt)
  · refine lift s _ (SameCore_refl s) ⟨(doQuietInit_facts s f).1,
      (doQuietInit_facts s f).2.1, Or.inr (doQuietInit_facts s f).2.2⟩
      (by rw [hst] at hnt ⊢; exact hnt)
  · exact lift s _ (SameCore_refl s) (doGoodQuiet_facts s f)
      (by rw [hst] at hnt ⊢; exact hnt)
  · exact lift s _ (SameCore_refl s) (doBadCapture_facts s f)
      (by rw [hst] at hnt ⊢; exact hnt)
  · refine lift s _ (SameCore_refl s) ⟨(doBadQuiet_facts s f).1,
      (doBadQuiet_facts s f).2.1, Or.inl (doBadQuiet_facts s f).2.2⟩
      (by rw [hst] at hnt ⊢; exact hnt)
  · exact absurd hst (by simpa [EVASION_TT] using hnt.2.1)
  · -- EVASION_INIT
    refine lift s.evasionInit _ (by simp [SameCore, MovePicker.evasionInit])
      ⟨(doEvasion_facts s.evasionInit).1, (doEvasion_facts s.evasionInit).2.1,
        Or.inl (doEvasion_facts s.evasionInit).2.2⟩ ?_
    have : s.evasionInit.stage = EVASION := rfl
    rw [this]
    exact NT_explicit _ (by simp [EVASION, MAIN_TT]) (by simp [EVASION, EVASION_TT])
      (by simp [EVASION, PROBCUT_TT]) (by simp [EVASION, QSEARCH_TT])
  · refine lift s _ (SameCore_refl s) ⟨(doEvasion_facts s).1,
      (doEvasion_facts s).2.1, Or.inl (doEvasion_facts s).2.2⟩
      (by rw [hst] at hnt ⊢; exact hnt)
  · exact absurd hst (by simpa [PROBCUT_TT] using hnt.2.2.1)
  · -- PROBCUT_INIT
    refine lift s.captureInit _ (by simp [SameCore, MovePicker.captureInit])
      ⟨(doProbcut_facts s.captureInit).1, (doProbcut_facts s.captureInit).2.1,
        Or.inl (doProbcut_facts s.captureInit).2.2⟩ ?_
    have : s.captureInit.stage = s.stage + 1 := rfl
    rw [this, hst]
    exact NT_explicit _ (by simp [MAIN_TT]) (by simp [EVASION_TT])
      (by simp [PROBCUT_TT]) (by simp [QSEARCH_TT])
  · refine lift s _ (SameCore_refl s) ⟨(doProbcut_facts s).1,
      (doProbcut_facts s).2.1, Or.inl (doProbcut_facts s).2.2⟩
      (by rw [hst] at hnt ⊢; exact hnt)
  · exact absurd hst (by simpa [QSEARCH_TT] using hnt.2.2.2)
  · -- QCAPTURE_INIT
    refine lift s.captureInit _ (by simp [SameCore, MovePicker.captureInit])
      (doQCapture_facts s.captureInit) ?_
    have : s.captureInit.stage = s.stage + 1 := rfl
    rw [this, hst]
    exact NT_explicit _ (by simp [MAIN_TT]) (by simp [EVASION_TT])
      (by simp [PROBCUT_TT]) (by simp [QSEARCH_TT])
  · exact lift s _ (SameCore_refl s) (doQCapture_facts s)
      (by rw [hst] at hnt ⊢; exact hnt)
  · -- QCHECK_INIT
    refine lift s.qcheckInit _ (by simp [SameCore, MovePicker.qcheckInit])
      ⟨(doQCheck_facts s.qcheckInit).1, (doQCheck_facts s.qcheckInit).2.1,
        Or.inl (doQCheck_facts s.qcheckInit).2.2⟩ ?_
    have : s.qcheckInit.stage = QCHECK := rfl
    rw [this]
    exact NT_explicit _ (by simp [QCHECK, MAIN_TT]) (by simp [QCHECK, EVASION_TT])
      (by simp [QCHECK, PROBCUT_TT]) (by simp [QCHECK, QSEARCH_TT])
  · refine lift s _ (SameCore_refl s) ⟨(doQCheck_facts s).1,
      (doQCheck_facts s).2.1, Or.inl (doQCheck_facts s).2.2⟩
      (by rw [hst] at hnt ⊢; exact hnt)
  · exact ⟨Or.inl rfl, SameCore_refl s, hnt⟩

theorem trace_ne_tt : ∀ (flags : List Bool) (s : MovePicker), NT s.stage →
    ∀ m ∈ s.trace flags, m = Move.none ∨ m ≠ s.ttMove := by
  intro flags
  induction flags with
  | nil =>
    intro s _ m hm
    simp [MovePicker.trace, MovePicker.steps] at hm
  | cons f fs ih =>
    intro s hnt m hm
    obtain ⟨ha, hb, hc⟩ := next_move_facts s f hnt
    rw [MovePicker.trace, MovePicker.steps] at hm
    cases hn : s.next_move f with
    | mk m0 s' =>
      rw [hn] at hm ha hb hc
      simp only [List.map_cons, List.mem_cons] at hm
      rcases hm with h | h
      · rw [h]
        exact ha
      · have := ih s' hc m (by rw [MovePicker.trace]; exact h)
        rcases this with h1 | h1
        · exact Or.inl h1
        · right
          rw [hb.2.2.2.2.2.1] at h1
          exact h1
/-- C1: in every construction context whose hash move passes that
context's validity test, the first next_move call yields the hash move,
it is yielded exactly once over any full call sequence, and no later
call ever yields it again. -/
theorem hash_move_first_exactly_once
    (p : Position) (ttm : Move) (d th : Int) (mh : Bool → Nat → Int)
    (cph ch ph : Nat → Nat → Nat → Int) (cm k0 k1 : Move) (s : MovePicker)
    (hs : (s = mkMainSearch p ttm d mh cph ch ph cm k0 k1
            ∧ ttm ≠ Move.none ∧ p.pseudo_legal ttm = true)
        ∨ (s = mkQSearch p ttm d mh cph ch ph
            ∧ ttm ≠ Move.none ∧ p.pseudo_legal ttm = true)
        ∨ (s = mkProbCut p ttm th cph
            ∧ ttm ≠ Move.none ∧ p.capture_stage ttm = true
            ∧ p.pseudo_legal ttm = true ∧ p.see_ge ttm th = true)) :
    ∀ (flags : List Bool), flags ≠ [] →
      ((s.trace flags).head? = some ttm ∧ (s.trace flags).count ttm = 1) := by
  have httm : s.ttMove = ttm := by
    rcases hs with ⟨h, -⟩ | ⟨h, -⟩ | ⟨h, -⟩ <;> rw [h] <;> rfl
  have httnn : ttm ≠ Move.none := by
    rcases hs with ⟨-, h, -⟩ | ⟨-, h, -⟩ | ⟨-, h, -⟩ <;> exact h
  have hstage : s.stage = 0 ∨ s.stage = 8 ∨ s.stage = 11 ∨ s.stage = 14 := by
    rcases hs with ⟨h, h1, h2⟩ | ⟨h, h1, h2⟩ | ⟨h, h1, h2, h3, h4⟩
    · by_cases hc : p.checkers = true
      · right
        left
        rw [h]
        show ((if p.checkers = true then EVASION_TT else MAIN_TT)
          + (if ttm ≠ Move.none ∧ p.pseudo_legal ttm = true then 0 else 1)) = 8
        rw [if_pos (show ttm ≠ Move.none ∧ p.pseudo_legal ttm = true from ⟨h1, h2⟩),
          if_pos hc]
        rfl
      · left
        rw [h]
        show ((if p.checkers = true then EVASION_TT else MAIN_TT)
          + (if ttm ≠ Move.none ∧ p.pseudo_legal ttm = true then 0 else 1)) = 0
        rw [if_pos (show ttm ≠ Move.none ∧ p.pseudo_legal ttm = true from ⟨h1, h2⟩),
          if_neg hc]
        rfl
    · by_cases hc : p.checkers = true
      · right
        left
        rw [h]
        show ((if p.checkers = true then EVASION_TT else QSEARCH_TT)
          + (if ttm ≠ Move.none ∧ p.pseudo_legal ttm = true then 0 else 1)) = 8
        rw [if_pos (show ttm ≠ Move.none ∧ p.pseudo_legal ttm = true from ⟨h1, h2⟩),
          if_pos hc]
        rfl
      · right
        right
        right
        rw [h]
        show ((if p.checkers = true then EVASION_TT else QSEARCH_TT)
          + (if ttm ≠ Move.none ∧ p.pseudo_legal ttm = true then 0 else 1)) = 14
        rw [if_pos (show ttm ≠ Move.none ∧ p.pseudo_legal ttm = true from ⟨h1, h2⟩),
          if_neg hc]
        rfl
    · right
      right
      left
      rw [h]
      show (PROBCUT_TT
        + (if ttm ≠ Move.none ∧ p.capture_stage ttm = true ∧ p.pseudo_legal ttm = true
              ∧ p.see_ge ttm th = true then 0 else 1)) = 11
      rw [if_pos (show ttm ≠ Move.none ∧ p.capture_stage ttm = true
        ∧ p.pseudo_legal ttm = true ∧ p.see_ge ttm th = true from ⟨h1, h2, h3, h4⟩)]
      rfl
  intro flags hne
  cases flags with
  | nil => exact absurd rfl hne
  | cons f fs =>
    obtain ⟨ha, hb, hc⟩ := next_move_at_tt s f hstage
    rw [MovePicker.trace, MovePicker.steps]
    cases hn : s.next_move f with
    | mk m0 s' =>
      rw [hn] at ha hb hc
      dsimp only at ha hb hc ⊢
      rw [ha, httm]
      have htail : ∀ m ∈ s'.trace fs, m ≠ ttm := by
        intro m hm
        rcases trace_ne_tt fs s' hc m hm with h | h
        · rw [h]
          exact fun hx => httnn hx.symm
        · rw [hb.2.2.2.2.2.1, httm] at h
          exact h
      constructor
      · rfl
      · have hz : (s'.trace fs).count ttm = 0 :=
          List.count_eq_zero.mpr (fun hmem => htail ttm hmem rfl)
        show ((ttm :: (s'.steps fs).map Prod.fst).count ttm) = 1
        rw [List.count_cons_self]
        have : ((s'.steps fs).map Prod.fst).count ttm = 0 := hz
        omega

/-- Witness for C1: a concrete main-search construction with a valid
hash move, run for two calls. -/
theorem hash_move_first_exactly_once_witness :
    (wMvC ≠ Move.none ∧ wPos.pseudo_legal wMvC = true)
    ∧ (((mkMainSearch wPos wMvC 1 (fun _ _ => 0) (fun _ _ _ => 0) (fun _ _ _ => 0)
          (fun _ _ _ => 0) Move.none Move.none Move.none).trace
            [true, false]).head? = some wMvC
        ∧ ((mkMainSearch wPos wMvC 1 (fun _ _ => 0) (fun _ _ _ => 0) (fun _ _ _ => 0)
          (fun _ _ _ => 0) Move.none Move.none Move.none).trace
            [true, false]).count wMvC = 1) :=
  ⟨⟨by decide, by decide⟩,
    hash_move_first_exactly_once wPos wMvC 1 0 (fun _ _ => 0) (fun _ _ _ => 0)
      (fun _ _ _ => 0) (fun _ _ _ => 0) Move.none Move.none Move.none _
      (Or.inl ⟨rfl, by decide, by decide⟩) [true, false] (by decide)⟩

theorem lis_sorted_of_all (l : List ExtMove) (limit : Int)
    (h : ∀ e ∈ l, limit ≤ e.value) :
    (limited_insertion_sort l limit).Perm l
    ∧ List.Sorted valueDesc (limited_insertion_sort l limit) := by
  obtain ⟨hperm, -, hsort⟩ := lis_partial_sort_facts l limit
  have hfil : l.filter (scoreAtLeast limit) = l :=
    List.filter_eq_self.mpr (fun e he => by simp [scoreAtLeast, h e he])
  rw [hfil] at hsort
  have hlen : (limited_insertion_sort l limit).length = l.length := hperm.length_eq
  rw [List.take_of_length_le (by omega)] at hsort
  exact ⟨hperm, hsort⟩

theorem score_captures_as_map (s : MovePicker) (l : List Move) :
    s.score_captures (toExtMoves l) = l.map (fun m => ⟨m, captureScore s.pos m⟩) := by
  unfold MovePicker.score_captures toExtMoves
  rw [List.map_map]
  rfl

/-- C6: a ProbCut construction with threshold 0 whose hash move is a
capture failing the static exchange test skips the hash-move stage, the
hash move is never yielded, and the first call yields a generated
capture meeting the threshold whose capture score is maximal among all
generated captures meeting the threshold. -/
theorem probcut_failing_hash_move
    (p : Position) (ttm : Move) (cph : Nat → Nat → Nat → Int) (f : Bool)
    (htt : ttm ≠ Move.none)
    (hcap : p.capture_stage ttm = true)
    (hsee : p.see_ge ttm 0 = false)
    (hrange : ∀ m ∈ p.genCaptures, -2147483648 ≤ captureScore p m)
    (hex : ∃ m ∈ p.genCaptures, p.see_ge m 0 = true) :
    (mkProbCut p ttm 0 cph).stage = PROBCUT_INIT
    ∧ (∀ flags, ∀ m ∈ (mkProbCut p ttm 0 cph).trace flags, m ≠ ttm)
    ∧ ((mkProbCut p ttm 0 cph).next_move f).1 ∈ p.genCaptures
    ∧ p.see_ge ((mkProbCut p ttm 0 cph).next_move f).1 0 = true
    ∧ ∀ m' ∈ p.genCaptures, p.see_ge m' 0 = true →
        captureScore p m' ≤ captureScore p ((mkProbCut p ttm 0 cph).next_move f).1 := by
  set s : MovePicker := mkProbCut p ttm 0 cph with hsdef
  have hcond : ¬(ttm ≠ Move.none ∧ p.capture_stage ttm = true
      ∧ p.pseudo_legal ttm = true ∧ p.see_ge ttm (0 : Int) = true) := by
    intro hcontra
    rw [hcontra.2.2.2] at hsee
    exact absurd hsee (by simp)
  have hstage : s.stage = PROBCUT_INIT := by
    rw [hsdef]
    show (PROBCUT_TT + (if ttm ≠ Move.none ∧ p.capture_stage ttm = true
        ∧ p.pseudo_legal ttm = true ∧ p.see_ge ttm 0 = true then 0 else 1)) = _
    rw [if_neg hcond]
    rfl
  have hnever : ∀ flags, ∀ m ∈ s.trace flags, m ≠ ttm := by
    intro flags m hm
    have hNT : NT s.stage := by
      rw [hstage]
      exact NT_explicit _ (by simp [PROBCUT_INIT, MAIN_TT]) (by simp [PROBCUT_INIT, EVASION_TT])
        (by simp [PROBCUT_INIT, PROBCUT_TT]) (by simp [PROBCUT_INIT, QSEARCH_TT])
    have httm : s.ttMove = ttm := rfl
    rcases trace_ne_tt flags s hNT m hm with h | h
    · rw [h]
      exact fun hx => htt hx.symm
    · rw [httm] at h
      exact h
  -- the first call runs PROBCUT_INIT then the probcut select
  have hfirst : s.next_move f = (s.captureInit).doProbcut := by
    unfold MovePicker.next_move
    rw [hstage]
    rfl
  set scored := s.score_captures (toExtMoves p.genCaptures) with hscored
  set buf := limited_insertion_sort scored (-2147483648) with hbuf
  have hmapped : scored = p.genCaptures.map (fun m => ⟨m, captureScore p m⟩) :=
    score_captures_as_map s (p.genCaptures)
  have hall : ∀ e ∈ scored, (-2147483648 : Int) ≤ e.value := by
    intro e he
    rw [hmapped] at he
    obtain ⟨m, hm, rfl⟩ := List.mem_map.mp he
    exact hrange m hm
  obtain ⟨hperm, hsort⟩ := lis_sorted_of_all scored (-2147483648) hall
  have hlenbuf : buf.length = p.genCaptures.length := by
    rw [hbuf, hperm.length_eq, hmapped, List.length_map]
  have hL : (toExtMoves p.genCaptures).length = p.genCaptures.length := by
    simp [toExtMoves]
  have hmembuf : ∀ e, e ∈ buf ↔ ∃ m ∈ p.genCaptures, e = ⟨m, captureScore p m⟩ := by
    intro e
    rw [hbuf]
    constructor
    · intro he
      have := hperm.mem_iff.mp he
      rw [hmapped] at this
      obtain ⟨m, hm, hme⟩ := List.mem_map.mp this
      exact ⟨m, hm, hme.symm⟩
    · rintro ⟨m, hm, rfl⟩
      refine hperm.mem_iff.mpr ?_
      rw [hmapped]
      exact List.mem_map.mpr ⟨m, hm, rfl⟩
  have hcapInit : s.captureInit.doProbcut
      = (match selectNext buf ttm (fun e => p.see_ge e.move 0) 0
            (toExtMoves p.genCaptures).length with
         | (m, cur') => (m, { s.captureInit with cur := cur' })) := rfl
  rcases hspec : selectNext buf ttm (fun e => p.see_ge e.move 0) 0
      (toExtMoves p.genCaptures).length with ⟨m0, cur'⟩
  rcases selectNext_spec buf ttm (fun e => p.see_ge e.move 0)
      ((toExtMoves p.genCaptures).length - 0) 0 (toExtMoves p.genCaptures).length rfl with
    ⟨hnone, -, hrej⟩ | ⟨i, -, hiL, heq, hneq, hacc, hmin⟩
  · -- exhaustion is impossible: the witness capture is accepted somewhere
    exfalso
    obtain ⟨mw, hmw, hmwsee⟩ := hex
    have hcell : (⟨mw, captureScore p mw⟩ : ExtMove) ∈ buf :=
      (hmembuf _).mpr ⟨mw, hmw, rfl⟩
    obtain ⟨j, hj, hje⟩ := List.getElem_of_mem hcell
    refine hrej j (Nat.zero_le j) (by rw [hL]; omega) ⟨?_, ?_⟩
    · rw [eget_eq_getElem (by omega), hje]
      show mw ≠ ttm
      intro hx
      rw [hx] at hmwsee
      rw [hmwsee] at hsee
      exact absurd hsee (by simp)
    · show (fun e => p.see_ge e.move 0) (eget buf j) = true
      rw [eget_eq_getElem (by omega), hje]
      exact hmwsee
  · -- the first accepted cell is the yield
    rw [hspec] at heq
    have hm0 : m0 = (eget buf i).move := by
      have := congrArg Prod.fst heq
      exact this
    have hiL' : i < buf.length := by rw [hlenbuf]; rw [hL] at hiL; omega
    have hibuf : eget buf i ∈ buf := by
      rw [eget_eq_getElem hiL']
      exact List.getElem_mem hiL'
    obtain ⟨mi, hmi, hmie⟩ := (hmembuf _).mp hibuf
    have hres : (s.next_move f).1 = m0 := by
      rw [hfirst, hcapInit]
      have : (s.captureInit).moves = buf := rfl
      rw [hspec]
    refine ⟨hstage, hnever, ?_, ?_, ?_⟩
    · rw [hres, hm0, hmie]
      exact hmi
    · rw [hres, hm0]
      have := hacc
      rwa [hmie] at this ⊢
    · intro m' hm' hm'see
      rw [hres, hm0, hmie]
      show captureScore p m' ≤ captureScore p mi
      have hcell' : (⟨m', captureScore p m'⟩ : ExtMove) ∈ buf :=
        (hmembuf _).mpr ⟨m', hm', rfl⟩
      obtain ⟨j, hj, hje⟩ := List.getElem_of_mem hcell'
      rcases Nat.lt_or_ge j i with hji | hij
      · exfalso
        refine hmin j (Nat.zero_le j) hji ⟨?_, ?_⟩
        · rw [eget_eq_getElem (by omega), hje]
          show m' ≠ ttm
          intro hx
          rw [hx] at hm'see
          rw [hm'see] at hsee
          exact absurd hsee (by simp)
        · show (fun e => p.see_ge e.move 0) (eget buf j) = true
          rw [eget_eq_getElem (by omega), hje]
          exact hm'see
      · have hival : buf[i].value = captureScore p mi := by
          rw [← eget_eq_getElem hiL', hmie]
        rcases Nat.eq_or_lt_of_le hij with hij' | hij'
        · subst hij'
          rw [hje] at hival
          exact le_of_eq hival
        · have hpw := List.pairwise_iff_getElem.mp hsort
          have hvv : valueDesc buf[i] buf[j] := hpw i j hiL' hj hij'
          have h3 : buf[j].value ≤ buf[i].value := hvv
          rw [hje] at h3
          have h4 : captureScore p m' ≤ buf[i].value := h3
          rw [hival] at h4
          exact h4

theorem probcut_failing_hash_move_witness :
    (wMvK ≠ Move.none ∧ wPosC6.capture_stage wMvK = true
      ∧ wPosC6.see_ge wMvK 0 = false
      ∧ (∀ m ∈ wPosC6.genCaptures, -2147483648 ≤ captureScore wPosC6 m)
      ∧ (∃ m ∈ wPosC6.genCaptures, wPosC6.see_ge m 0 = true))
    ∧ (mkProbCut wPosC6 wMvK 0 (fun _ _ _ => 0)).stage = PROBCUT_INIT
    ∧ ((mkProbCut wPosC6 wMvK 0 (fun _ _ _ => 0)).next_move false).1 ∈ wPosC6.genCaptures
    ∧ wPosC6.see_ge ((mkProbCut wPosC6 wMvK 0 (fun _ _ _ => 0)).next_move false).1 0 = true :=
  ⟨⟨by decide, by decide, by decide, by decide, by decide⟩,
    (probcut_failing_hash_move wPosC6 wMvK (fun _ _ _ => 0) false (by decide) (by decide)
      (by decide) (by decide) (by decide)).1,
    (probcut_failing_hash_move wPosC6 wMvK (fun _ _ _ => 0) false (by decide) (by decide)
      (by decide) (by decide) (by decide)).2.2.1,
    (probcut_failing_hash_move wPosC6 wMvK (fun _ _ _ => 0) false (by decide) (by decide)
      (by decide) (by decide) (by decide)).2.2.2.1⟩


theorem eget_mem_or_default (l : List ExtMove) (i : Nat) :
    eget l i ∈ l ∨ eget l i = default := by
  by_cases h : i < l.length
  · left
    rw [eget, List.getD_eq_getElem?_getD, List.getElem?_eq_getElem h]
    exact List.getElem_mem h
  · right
    rw [eget, List.getD_eq_getElem?_getD, List.getElem?_eq_none (by omega)]
    rfl

theorem default_move_none : (default : ExtMove).move = Move.none := rfl

theorem mem_lswap (buf : List ExtMove) (i j : Nat) (e : ExtMove)
    (h : e ∈ lswap buf i j) : e ∈ buf ∨ e = default := by
  rcases List.mem_or_eq_of_mem_set h with h1 | h1
  · rcases List.mem_or_eq_of_mem_set h1 with h2 | h2
    · exact Or.inl h2
    · rw [h2]
      exact eget_mem_or_default buf j
  · rw [h1]
    exact eget_mem_or_default buf i

theorem selectNext_yield (buf : List ExtMove) (ttm : Move) (accept : ExtMove → Bool)
    (cur endM : Nat) :
    (selectNext buf ttm accept cur endM).1 = Move.none
    ∨ ∃ e ∈ buf, (selectNext buf ttm accept cur endM).1 = e.move := by
  rcases selectNext_spec buf ttm accept (endM - cur) cur endM rfl with
    ⟨h1, -⟩ | ⟨i, -, -, h3, -⟩
  · exact Or.inl h1
  · rcases eget_mem_or_default buf i with hm | hm
    · refine Or.inr ⟨eget buf i, hm, ?_⟩
      rw [h3]
    · left
      rw [h3]
      show (eget buf i).move = Move.none
      rw [hm]
      rfl

theorem cellsFrom_sub {g : List Move} {l l' : List ExtMove}
    (hsub : ∀ e ∈ l', e ∈ l ∨ e = default) (hc : cellsFrom g l) : cellsFrom g l' := by
  intro e he
  rcases hsub e he with h | h
  · exact hc e h
  · right
    rw [h]
    rfl

theorem yieldOK_cells {s : MovePicker} {g : List Move} {l : List ExtMove} {m : Move}
    (hc : cellsFrom g l)
    (hy : m = Move.none ∨ ∃ e ∈ l, m = e.move)
    (hg : g = s.pos.genCaptures ∨ g = s.pos.genEvasions ∨ g = s.pos.genQuietChecks) :
    YieldOK s m := by
  rcases hy with h | ⟨e, he, hme⟩
  · exact Or.inl h
  · rcases hc e he with h2 | h2
    · rcases hg with hg | hg | hg
      · refine Or.inr (Or.inl ?_)
        rw [hme, ← hg]
        exact h2
      · refine Or.inr (Or.inr (Or.inr (Or.inr (Or.inl ?_))))
        rw [hme, ← hg]
        exact h2
      · refine Or.inr (Or.inr (Or.inr (Or.inr (Or.inr ?_))))
        rw [hme, ← hg]
        exact h2
    · exact Or.inl (hme.trans h2)

theorem selectGC_sources (p : Position) (ttm : Move) :
    ∀ (k : Nat) (buf : List ExtMove) (ebc cur endM : Nat), endM - cur = k →
      ((selectGC p ttm buf ebc cur endM).1 = Move.none
        ∨ ∃ e ∈ buf, (selectGC p ttm buf ebc cur endM).1 = e.move)
      ∧ ∀ e ∈ (selectGC p ttm buf ebc cur endM).2.1, e ∈ buf ∨ e = default := by
  intro k
  induction k with
  | zero =>
    intro buf ebc cur endM hk
    rw [selectGC, dif_neg (by omega)]
    exact ⟨Or.inl rfl, fun e he => Or.inl he⟩
  | succ k ih =>
    intro buf ebc cur endM hk
    rw [selectGC, dif_pos (by omega : cur < endM)]
    by_cases htt : (eget buf cur).move ≠ ttm
    · rw [if_pos htt]
      by_cases hsee : p.see_ge (eget buf cur).move (Int.tdiv (-(eget buf cur).value) 18) = true
      · rw [if_pos hsee]
        refine ⟨?_, fun e he => Or.inl he⟩
        rcases eget_mem_or_default buf cur with hm | hm
        · exact Or.inr ⟨eget buf cur, hm, rfl⟩
        · left
          show (eget buf cur).move = Move.none
          rw [hm]
          rfl
      · rw [if_neg hsee]
        obtain ⟨h1, h2⟩ := ih (buf.set ebc (eget buf cur)) (ebc + 1) (cur + 1) endM (by omega)
        refine ⟨?_, ?_⟩
        · rcases h1 with h | ⟨e, he, hme⟩
          · exact Or.inl h
          · rcases List.mem_or_eq_of_mem_set he with h3 | h3
            · exact Or.inr ⟨e, h3, hme⟩
            · rcases eget_mem_or_default buf cur with h4 | h4
              · refine Or.inr ⟨e, ?_, hme⟩
                rw [h3]
                exact h4
              · left
                rw [hme, h3, h4]
                rfl
        · intro e he
          rcases h2 e he with h3 | h3
          · rcases List.mem_or_eq_of_mem_set h3 with h4 | h4
            · exact Or.inl h4
            · rcases eget_mem_or_default buf cur with h5 | h5
              · left
                rw [h4]
                exact h5
              · exact Or.inr (h4.trans h5)
          · exact Or.inr h3
    · rw [if_neg htt]
      exact ih buf ebc (cur + 1) endM (by omega)

theorem selectBest_sources (ttm : Move) :
    ∀ (k : Nat) (buf : List ExtMove) (cur endM : Nat), endM - cur = k →
      ((selectBest buf ttm cur endM).1 = Move.none
        ∨ ∃ e, (e ∈ buf ∨ e = default) ∧ (selectBest buf ttm cur endM).1 = e.move)
      ∧ ∀ e ∈ (selectBest buf ttm cur endM).2.1, e ∈ buf ∨ e = default := by
  intro k
  induction k with
  | zero =>
    intro buf cur endM hk
    rw [selectBest, dif_neg (by omega)]
    exact ⟨Or.inl rfl, fun e he => Or.inl he⟩
  | succ k ih =>
    intro buf cur endM hk
    rw [selectBest, dif_pos (by omega : cur < endM)]
    by_cases htt : (eget (lswap buf cur (maxIdxFrom buf cur (cur + 1) endM)) cur).move ≠ ttm
    · rw [if_pos htt]
      refine ⟨?_, fun e he => mem_lswap _ _ _ _ he⟩
      rcases eget_mem_or_default (lswap buf cur (maxIdxFrom buf cur (cur + 1) endM)) cur
        with hm | hm
      · exact Or.inr ⟨_, mem_lswap _ _ _ _ hm, rfl⟩
      · left
        show (eget (lswap buf cur (maxIdxFrom buf cur (cur + 1) endM)) cur).move = Move.none
        rw [hm]
        rfl
    · rw [if_neg htt]
      obtain ⟨h1, h2⟩ :=
        ih (lswap buf cur (maxIdxFrom buf cur (cur + 1) endM)) (cur + 1) endM (by omega)
      refine ⟨?_, ?_⟩
      · rcases h1 with h | ⟨e, he, hme⟩
        · exact Or.inl h
        · rcases he with he | he
          · exact Or.inr ⟨e, mem_lswap _ _ _ _ he, hme⟩
          · exact Or.inr ⟨e, Or.inr he, hme⟩
      · intro e he
        rcases h2 e he with h3 | h3
        · exact mem_lswap _ _ _ _ h3
        · exact Or.inr h3


theorem cellsFrom_score_captures (s : MovePicker) :
    cellsFrom s.pos.genCaptures (s.score_captures (toExtMoves s.pos.genCaptures)) := by
  intro e he
  simp only [MovePicker.score_captures, toExtMoves, List.map_map, List.mem_map] at he
  obtain ⟨m, hm, he⟩ := he
  left
  rw [← he]
  exact hm

theorem cells_captureInit (s : MovePicker) :
    cellsFrom s.pos.genCaptures s.captureInit.moves := by
  have hperm := (lis_partial_sort_facts
    (s.score_captures (toExtMoves s.pos.genCaptures)) (-2147483648)).1
  intro e he
  exact cellsFrom_score_captures s e (hperm.mem_iff.mp he)

theorem cells_evasionInit (s : MovePicker) :
    cellsFrom s.pos.genEvasions s.evasionInit.moves := by
  intro e he
  have he2 : e ∈ s.score_evasions (toExtMoves s.pos.genEvasions) := he
  simp only [MovePicker.score_evasions, toExtMoves, List.map_map, List.mem_map] at he2
  obtain ⟨m, hm, hme⟩ := he2
  left
  rw [← hme]
  exact hm

theorem cells_qcheckInit (s : MovePicker) :
    cellsFrom s.pos.genQuietChecks s.qcheckInit.moves := by
  intro e he
  have he2 : e ∈ toExtMoves s.pos.genQuietChecks := he
  simp only [toExtMoves, List.mem_map] at he2
  obtain ⟨m, hm, hme⟩ := he2
  left
  rw [← hme]
  exact hm

theorem doBadQuiet_inv2 (s : MovePicker)
    (hs : 2 ≤ s.stage ∧ s.stage ≤ 7)
    (hc : cellsFrom s.pos.genCaptures s.moves) :
    YieldOK s (s.doBadQuiet true).1 ∧ Inv2 (s.doBadQuiet true).2 := by
  rw [MovePicker.doBadQuiet, if_pos rfl]
  exact ⟨Or.inl rfl, fun _ => hc,
    fun h => by exfalso; have h2 : s.stage = 10 := h; omega,
    fun h => by
      exfalso
      have h2 : s.stage = 13 ∨ s.stage = 16 := h
      rcases h2 with h2 | h2 <;> omega,
    fun h => by exfalso; have h2 : s.stage = 18 := h; omega⟩

theorem doBadCapture_inv2 (s : MovePicker)
    (hs : 2 ≤ s.stage ∧ s.stage ≤ 7)
    (hc : cellsFrom s.pos.genCaptures s.moves) :
    YieldOK s (s.doBadCapture true).1 ∧ Inv2 (s.doBadCapture true).2 := by
  unfold MovePicker.doBadCapture
  cases hsel : selectNext s.moves s.ttMove (fun _ => true) s.cur s.endMoves with
  | mk m cur' =>
    have hy := selectNext_yield s.moves s.ttMove (fun _ => true) s.cur s.endMoves
    rw [hsel] at hy
    dsimp only
    dsimp only at hy
    by_cases hm : m = Move.none
    · rw [if_neg (by simp [hm])]
      exact doBadQuiet_inv2
        { s with cur := s.beginBadQuiets, endMoves := s.endBadQuiets, stage := BAD_QUIET }
        (show 2 ≤ 7 ∧ 7 ≤ 7 by decide) hc
    · rw [if_pos (by simp [hm])]
      refine ⟨yieldOK_cells hc hy (Or.inl rfl), fun _ => hc,
        fun h => by exfalso; have h2 : s.stage = 10 := h; omega,
        fun h => by
          exfalso
          have h2 : s.stage = 13 ∨ s.stage = 16 := h
          rcases h2 with h2 | h2 <;> omega,
        fun h => by exfalso; have h2 : s.stage = 18 := h; omega⟩

theorem doGoodQuiet_inv2 (s : MovePicker)
    (hc : cellsFrom s.pos.genCaptures s.moves) :
    YieldOK s (s.doGoodQuiet true).1 ∧ Inv2 (s.doGoodQuiet true).2 := by
  rw [MovePicker.doGoodQuiet, if_pos rfl]
  exact doBadCapture_inv2 s.enterBadCapture (show 2 ≤ 6 ∧ 6 ≤ 7 by decide) hc

theorem doQuietInit_inv2 (s : MovePicker)
    (hc : cellsFrom s.pos.genCaptures s.moves) :
    YieldOK s (s.doQuietInit true).1 ∧ Inv2 (s.doQuietInit true).2 := by
  rw [MovePicker.doQuietInit, if_pos rfl]
  exact doGoodQuiet_inv2 { s with stage := GOOD_QUIET } hc

theorem doRefutation_inv2 (s : MovePicker)
    (hs : 2 ≤ s.stage ∧ s.stage ≤ 7)
    (hc : cellsFrom s.pos.genCaptures s.moves) :
    YieldOK s (s.doRefutation true).1 ∧ Inv2 (s.doRefutation true).2 := by
  unfold MovePicker.doRefutation
  cases hsel : selectNext s.refutations s.ttMove s.refAccept s.cur s.endMoves with
  | mk m cur' =>
    have hy := selectNext_yield s.refutations s.ttMove s.refAccept s.cur s.endMoves
    rw [hsel] at hy
    dsimp only
    dsimp only at hy
    by_cases hm : m = Move.none
    · rw [if_neg (by simp [hm])]
      exact doQuietInit_inv2 { s with cur := cur', stage := QUIET_INIT } hc
    · rw [if_pos (by simp [hm])]
      refine ⟨?_, fun _ => hc,
        fun h => by exfalso; have h2 : s.stage = 10 := h; omega,
        fun h => by
          exfalso
          have h2 : s.stage = 13 ∨ s.stage = 16 := h
          rcases h2 with h2 | h2 <;> omega,
        fun h => by exfalso; have h2 : s.stage = 18 := h; omega⟩
      rcases hy with h | ⟨e, he, hme⟩
      · exact Or.inl h
      · refine Or.inr (Or.inr (Or.inr (Or.inl ?_)))
        rw [hme]
        exact List.mem_map_of_mem ExtMove.move he

theorem doGoodCapture_inv2 (s : MovePicker)
    (hs : 2 ≤ s.stage ∧ s.stage ≤ 7)
    (hc : cellsFrom s.pos.genCaptures s.moves) :
    YieldOK s (s.doGoodCapture true).1 ∧ Inv2 (s.doGoodCapture true).2 := by
  unfold MovePicker.doGoodCapture
  cases hsel : selectGC s.pos s.ttMove s.moves s.endBadCaptures s.cur s.endMoves with
  | mk m rest =>
    obtain ⟨hy, hcl⟩ := selectGC_sources s.pos s.ttMove (s.endMoves - s.cur) s.moves
      s.endBadCaptures s.cur s.endMoves rfl
    rw [hsel] at hy hcl
    cases rest with
    | mk buf rest2 =>
      cases rest2 with
      | mk ebc cur' =>
        dsimp only
        dsimp only at hy hcl
        have hc' : cellsFrom s.pos.genCaptures buf := cellsFrom_sub hcl hc
        by_cases hm : m = Move.none
        · rw [if_neg (by simp [hm])]
          exact doRefutation_inv2
            { s with moves := buf, endBadCaptures := ebc, cur := 0,
                     endMoves :=
                       if (eget s.refutations 0).move = (eget s.refutations 2).move
                           ∨ (eget s.refutations 1).move = (eget s.refutations 2).move
                       then 2 else 3,
                     stage := REFUTATION }
            (show 2 ≤ 3 ∧ 3 ≤ 7 by decide) hc'
        · rw [if_pos (by simp [hm])]
          refine ⟨yieldOK_cells hc hy (Or.inl rfl), fun _ => hc',
            fun h => by exfalso; have h2 : s.stage = 10 := h; omega,
            fun h => by
              exfalso
              have h2 : s.stage = 13 ∨ s.stage = 16 := h
              rcases h2 with h2 | h2 <;> omega,
            fun h => by exfalso; have h2 : s.stage = 18 := h; omega⟩

theorem doEvasion_inv2 (s : MovePicker) (hs : s.stage = 10)
    (hc : cellsFrom s.pos.genEvasions s.moves) :
    YieldOK s s.doEvasion.1 ∧ Inv2 s.doEvasion.2 := by
  unfold MovePicker.doEvasion
  cases hsel : selectBest s.moves s.ttMove s.cur s.endMoves with
  | mk m rest =>
    obtain ⟨hy, hcl⟩ := selectBest_sources s.ttMove (s.endMoves - s.cur) s.moves
      s.cur s.endMoves rfl
    rw [hsel] at hy hcl
    cases rest with
    | mk buf cur' =>
      dsimp only
      dsimp only at hy hcl
      refine ⟨?_,
        fun h => by exfalso; have h2 : 2 ≤ s.stage ∧ s.stage ≤ 7 := h; omega,
        fun _ => cellsFrom_sub hcl hc,
        fun h => by
          exfalso
          have h2 : s.stage = 13 ∨ s.stage = 16 := h
          rcases h2 with h2 | h2 <;> omega,
        fun h => by exfalso; have h2 : s.stage = 18 := h; omega⟩
      rcases hy with h | ⟨e, he, hme⟩
      · exact Or.inl h
      · rcases he with he | he
        · rcases hc e he with h2 | h2
          · refine Or.inr (Or.inr (Or.inr (Or.inr (Or.inl ?_))))
            rw [hme]
            exact h2
          · exact Or.inl (hme.trans h2)
        · left
          rw [hme, he]
          rfl

theorem doProbcut_inv2 (s : MovePicker) (hs : s.stage = 13)
    (hc : cellsFrom s.pos.genCaptures s.moves) :
    YieldOK s s.doProbcut.1 ∧ Inv2 s.doProbcut.2 := by
  unfold MovePicker.doProbcut
  cases hsel : selectNext s.moves s.ttMove (fun e => s.pos.see_ge e.move s.threshold)
      s.cur s.endMoves with
  | mk m cur' =>
    have hy := selectNext_yield s.moves s.ttMove
      (fun e => s.pos.see_ge e.move s.threshold) s.cur s.endMoves
    rw [hsel] at hy
    dsimp only
    dsimp only at hy
    exact ⟨yieldOK_cells hc hy (Or.inl rfl),
      fun h => by exfalso; have h2 : 2 ≤ s.stage ∧ s.stage ≤ 7 := h; omega,
      fun h => by exfalso; have h2 : s.stage = 10 := h; omega,
      fun _ => hc,
      fun h => by exfalso; have h2 : s.stage = 18 := h; omega⟩

theorem doQCheck_inv2 (s : MovePicker) (hs : s.stage = 18)
    (hc : cellsFrom s.pos.genQuietChecks s.moves) :
    YieldOK s s.doQCheck.1 ∧ Inv2 s.doQCheck.2 := by
  unfold MovePicker.doQCheck
  cases hsel : selectNext s.moves s.ttMove (fun _ => true) s.cur s.endMoves with
  | mk m cur' =>
    have hy := selectNext_yield s.moves s.ttMove (fun _ => true) s.cur s.endMoves
    rw [hsel] at hy
    dsimp only
    dsimp only at hy
    exact ⟨yieldOK_cells hc hy (Or.inr (Or.inr rfl)),
      fun h => by exfalso; have h2 : 2 ≤ s.stage ∧ s.stage ≤ 7 := h; omega,
      fun h => by exfalso; have h2 : s.stage = 10 := h; omega,
      fun h => by
        exfalso
        have h2 : s.stage = 13 ∨ s.stage = 16 := h
        rcases h2 with h2 | h2 <;> omega,
      fun _ => hc⟩

theorem doQCapture_inv2 (s : MovePicker) (hs : s.stage = 16)
    (hc : cellsFrom s.pos.genCaptures s.moves) :
    YieldOK s s.doQCapture.1 ∧ Inv2 s.doQCapture.2 := by
  unfold MovePicker.doQCapture
  cases hsel : selectNext s.moves s.ttMove (fun _ => true) s.cur s.endMoves with
  | mk m cur' =>
    have hy := selectNext_yield s.moves s.ttMove (fun _ => true) s.cur s.endMoves
    rw [hsel] at hy
    dsimp only
    dsimp only at hy
    by_cases hm : m = Move.none
    · rw [if_neg (by simp [hm])]
      by_cases hd : s.depth ≠ DEPTH_QS_CHECKS
      · rw [if_pos hd]
        exact ⟨Or.inl rfl,
          fun h => by exfalso; have h2 : 2 ≤ s.stage ∧ s.stage ≤ 7 := h; omega,
          fun h => by exfalso; have h2 : s.stage = 10 := h; omega,
          fun _ => hc,
          fun h => by exfalso; have h2 : s.stage = 18 := h; omega⟩
      · rw [if_neg hd]
        exact doQCheck_inv2 (MovePicker.qcheckInit { s with cur := cur' }) rfl
          (cells_qcheckInit { s with cur := cur' })
    · rw [if_pos (by simp [hm])]
      exact ⟨yieldOK_cells hc hy (Or.inl rfl),
        fun h => by exfalso; have h2 : 2 ≤ s.stage ∧ s.stage ≤ 7 := h; omega,
        fun h => by exfalso; have h2 : s.stage = 10 := h; omega,
        fun _ => hc,
        fun h => by exfalso; have h2 : s.stage = 18 := h; omega⟩
theorem next_move_inv2 (s : MovePicker) (hInv : Inv2 s) :
    YieldOK s (s.next_move true).1 ∧ Inv2 (s.next_move true).2 := by
  obtain ⟨hc1, hc2, hc3, hc4⟩ := hInv
  unfold MovePicker.next_move
  rcases hst : s.stage with _|_|_|_|_|_|_|_|_|_|_|_|_|_|_|_|_|_|_|n
  · -- MAIN_TT
    exact ⟨Or.inr (Or.inr (Or.inl rfl)),
      fun h => by exfalso; have h2 : (2:Nat) ≤ 0 + 1 ∧ 0 + 1 ≤ 7 := h; omega,
      fun h => by exfalso; have h2 : (0:Nat) + 1 = 10 := h; omega,
      fun h => by
        exfalso
        have h2 : (0:Nat) + 1 = 13 ∨ (0:Nat) + 1 = 16 := h
        rcases h2 with h2 | h2 <;> omega,
      fun h => by exfalso; have h2 : (0:Nat) + 1 = 18 := h; omega⟩
  · -- CAPTURE_INIT
    have hstc : s.captureInit.stage = s.stage + 1 := rfl
    exact doGoodCapture_inv2 s.captureInit (by rw [hstc, hst] ; omega) (cells_captureInit s)
  · -- GOOD_CAPTURE
    exact doGoodCapture_inv2 s (by omega) (hc1 (by omega))
  · -- REFUTATION
    exact doRefutation_inv2 s (by omega) (hc1 (by omega))
  · -- QUIET_INIT
    exact doQuietInit_inv2 s (hc1 (by omega))
  · -- GOOD_QUIET
    exact doGoodQuiet_inv2 s (hc1 (by omega))
  · -- BAD_CAPTURE
    exact doBadCapture_inv2 s (by omega) (hc1 (by omega))
  · -- BAD_QUIET
    exact doBadQuiet_inv2 s (by omega) (hc1 (by omega))
  · -- EVASION_TT
    exact ⟨Or.inr (Or.inr (Or.inl rfl)),
      fun h => by exfalso; have h2 : (2:Nat) ≤ 8 + 1 ∧ 8 + 1 ≤ 7 := h; omega,
      fun h => by exfalso; have h2 : (8:Nat) + 1 = 10 := h; omega,
      fun h => by
        exfalso
        have h2 : (8:Nat) + 1 = 13 ∨ (8:Nat) + 1 = 16 := h
        rcases h2 with h2 | h2 <;> omega,
      fun h => by exfalso; have h2 : (8:Nat) + 1 = 18 := h; omega⟩
  · -- EVASION_INIT
    exact doEvasion_inv2 s.evasionInit rfl (cells_evasionInit s)
  · -- EVASION
    exact doEvasion_inv2 s (by omega) (hc2 (by omega))
  · -- PROBCUT_TT
    exact ⟨Or.inr (Or.inr (Or.inl rfl)),
      fun h => by exfalso; have h2 : (2:Nat) ≤ 11 + 1 ∧ 11 + 1 ≤ 7 := h; omega,
      fun h => by exfalso; have h2 : (11:Nat) + 1 = 10 := h; omega,
      fun h => by
        exfalso
        have h2 : (11:Nat) + 1 = 13 ∨ (11:Nat) + 1 = 16 := h
        rcases h2 with h2 | h2 <;> omega,
      fun h => by exfalso; have h2 : (11:Nat) + 1 = 18 := h; omega⟩
  · -- PROBCUT_INIT
    have hstc : s.captureInit.stage = s.stage + 1 := rfl
    exact doProbcut_inv2 s.captureInit (by rw [hstc, hst]) (cells_captureInit s)
  · -- PROBCUT
    exact doProbcut_inv2 s (by omega) (hc3 (Or.inl (by omega)))
  · -- QSEARCH_TT
    exact ⟨Or.inr (Or.inr (Or.inl rfl)),
      fun h => by exfalso; have h2 : (2:Nat) ≤ 14 + 1 ∧ 14 + 1 ≤ 7 := h; omega,
      fun h => by exfalso; have h2 : (14:Nat) + 1 = 10 := h; omega,
      fun h => by
        exfalso
        have h2 : (14:Nat) + 1 = 13 ∨ (14:Nat) + 1 = 16 := h
        rcases h2 with h2 | h2 <;> omega,
      fun h => by exfalso; have h2 : (14:Nat) + 1 = 18 := h; omega⟩
  · -- QCAPTURE_INIT
    have hstc : s.captureInit.stage = s.stage + 1 := rfl
    exact doQCapture_inv2 s.captureInit (by rw [hstc, hst]) (cells_captureInit s)
  · -- QCAPTURE
    exact doQCapture_inv2 s (by omega) (hc3 (Or.inr (by omega)))
  · -- QCHECK_INIT
    exact doQCheck_inv2 s.qcheckInit rfl (cells_qcheckInit s)
  · -- QCHECK
    exact doQCheck_inv2 s (by omega) (hc4 (by omega))
  · -- out of range
    exact ⟨Or.inl rfl, hc1, hc2, hc3, hc4⟩

theorem next_move_core (s : MovePicker) (f : Bool) : SameCore s (s.next_move f).2 := by
  by_cases h : s.stage = 0 ∨ s.stage = 8 ∨ s.stage = 11 ∨ s.stage = 14
  · exact (next_move_at_tt s f h).2.1
  · push_neg at h
    exact (next_move_facts s f (NT_explicit s.stage h.1 h.2.1 h.2.2.1 h.2.2.2)).2.1

theorem trace_inv2 : ∀ (flags : List Bool) (s : MovePicker), (∀ f ∈ flags, f = true) →
    Inv2 s → ∀ m ∈ s.trace flags, YieldOK s m := by
  intro flags
  induction flags with
  | nil =>
    intro s _ _ m hm
    simp [MovePicker.trace, MovePicker.steps] at hm
  | cons f fs ih =>
    intro s hf hInv m hm
    have hft : f = true := hf f (List.mem_cons_self f fs)
    subst hft
    rw [MovePicker.trace, MovePicker.steps] at hm
    obtain ⟨hy, hInv'⟩ := next_move_inv2 s hInv
    have hcore := next_move_core s true
    cases hn : s.next_move true with
    | mk m0 s' =>
      rw [hn] at hm hy hInv' hcore
      have hy2 : YieldOK s m0 := hy
      have hInv2' : Inv2 s' := hInv'
      have hcore2 : SameCore s s' := hcore
      simp only [List.map_cons, List.mem_cons] at hm
      rcases hm with h | h
      · rw [h]
        exact hy2
      · have hY := ih s' (fun g hg => hf g (List.mem_cons_of_mem _ hg)) hInv2' m
          (by rw [MovePicker.trace]; exact h)
        obtain ⟨hpos, -, -, -, -, htt, href, -, -⟩ := hcore2
        rcases hY with h1 | h1 | h1 | h1 | h1 | h1
        · exact Or.inl h1
        · rw [hpos] at h1
          exact Or.inr (Or.inl h1)
        · rw [htt] at h1
          exact Or.inr (Or.inr (Or.inl h1))
        · rw [href] at h1
          exact Or.inr (Or.inr (Or.inr (Or.inl h1)))
        · rw [hpos] at h1
          exact Or.inr (Or.inr (Or.inr (Or.inr (Or.inl h1))))
        · rw [hpos] at h1
          exact Or.inr (Or.inr (Or.inr (Or.inr (Or.inr h1))))
/-- C2 (amended): with `skipQuiets = true` on every `next_move` call,
over any of the three constructions, and assuming every generated
capture is capture-class, every yielded move is the none-sentinel, a
capture-class move, the hash move, one of the stored refutation moves
(killers/countermove), a generated evasion, or a generated quiet check.
The original claim, that only capture-class moves are yielded outside
the evasion stages, is false: the refutation stage is not gated by
`skipQuiets` (see the counterexample theorem). -/
theorem skip_quiets_yield_sources (p : Position) (ttm : Move) (d th : Int)
    (mh : Bool → Nat → Int) (cph ch ph : Nat → Nat → Nat → Int)
    (cm k0 k1 : Move) (flags : List Bool) (s0 : MovePicker)
    (hs : s0 = mkMainSearch p ttm d mh cph ch ph cm k0 k1
      ∨ s0 = mkQSearch p ttm d mh cph ch ph
      ∨ s0 = mkProbCut p ttm th cph)
    (hflags : ∀ f ∈ flags, f = true)
    (hgen : ∀ m ∈ p.genCaptures, p.capture_stage m = true) :
    ∀ m ∈ s0.trace flags,
      m = Move.none ∨ p.capture_stage m = true ∨ m = ttm
      ∨ m ∈ s0.refutations.map ExtMove.move
      ∨ m ∈ p.genEvasions ∨ m ∈ p.genQuietChecks := by
  have hpos : s0.pos = p := by rcases hs with h | h | h <;> rw [h] <;> rfl
  have htt : s0.ttMove = ttm := by rcases hs with h | h | h <;> rw [h] <;> rfl
  have hmoves : s0.moves = [] := by rcases hs with h | h | h <;> rw [h] <;> rfl
  have hInv : Inv2 s0 := by
    refine ⟨fun _ => ?_, fun _ => ?_, fun _ => ?_, fun _ => ?_⟩ <;>
      · intro e he
        rw [hmoves] at he
        exact absurd he (List.not_mem_nil e)
  intro m hm
  have hY := trace_inv2 flags s0 hflags hInv m hm
  rcases hY with h1 | h1 | h1 | h1 | h1 | h1
  · exact Or.inl h1
  · rw [hpos] at h1
    exact Or.inr (Or.inl (hgen m h1))
  · rw [htt] at h1
    exact Or.inr (Or.inr (Or.inl h1))
  · exact Or.inr (Or.inr (Or.inr (Or.inl h1)))
  · rw [hpos] at h1
    exact Or.inr (Or.inr (Or.inr (Or.inr (Or.inl h1))))
  · rw [hpos] at h1
    exact Or.inr (Or.inr (Or.inr (Or.inr (Or.inr h1))))

theorem skip_quiets_yield_sources_witness :
    wMvK = Move.none ∨ wPos.capture_stage wMvK = true ∨ wMvK = Move.none
    ∨ wMvK ∈ (mkMainSearch wPos Move.none 1 (fun _ _ => 0) (fun _ _ _ => 0)
        (fun _ _ _ => 0) (fun _ _ _ => 0) Move.none wMvK Move.none).refutations.map
          ExtMove.move
    ∨ wMvK ∈ wPos.genEvasions ∨ wMvK ∈ wPos.genQuietChecks :=
  skip_quiets_yield_sources wPos Move.none 1 0 (fun _ _ => 0) (fun _ _ _ => 0)
    (fun _ _ _ => 0) (fun _ _ _ => 0) Move.none wMvK Move.none [true] _
    (Or.inl rfl) (by simp) (by simp [wPos]) wMvK
    (by
      have htr : (mkMainSearch wPos Move.none 1 (fun _ _ => 0) (fun _ _ _ => 0)
          (fun _ _ _ => 0) (fun _ _ _ => 0) Move.none wMvK Move.none).trace [true]
          = [wMvK] := by
        simp [MovePicker.trace, MovePicker.steps, MovePicker.next_move, mkMainSearch,
          MovePicker.captureInit, MovePicker.doGoodCapture, selectGC,
          MovePicker.doRefutation, selectNext, MovePicker.refAccept, eget,
          limited_insertion_sort, lisOuter, toExtMoves, MovePicker.score_captures,
          wPos, wMvK, Move.none, MAIN_TT, EVASION_TT, REFUTATION]
      rw [htr]
      exact List.mem_singleton_self wMvK)

/-- C2, original form, refuted: in a main-search picker on a quiet (non
check, so no evasion stage is ever active) position with no generated
captures, a pseudo-legal non-capture killer move is yielded by the
refutation stage even though `skipQuiets` is true on every call: the
refutation stage is not gated by `skipQuiets`. -/
theorem skip_quiets_capture_only_counterexample :
    ¬ (∀ (p : Position) (ttm : Move) (d : Int) (mh : Bool → Nat → Int)
        (cph ch ph : Nat → Nat → Nat → Int) (cm k0 k1 : Move)
        (flags : List Bool),
        (∀ f ∈ flags, f = true) → p.checkers = false →
        ∀ m ∈ (mkMainSearch p ttm d mh cph ch ph cm k0 k1).trace flags,
          m = Move.none ∨ p.capture_stage m = true) := by
  intro h
  have htr : (mkMainSearch wPos Move.none 1 (fun _ _ => 0) (fun _ _ _ => 0)
      (fun _ _ _ => 0) (fun _ _ _ => 0) Move.none wMvK Move.none).trace [true]
      = [wMvK] := by
    simp [MovePicker.trace, MovePicker.steps, MovePicker.next_move, mkMainSearch,
      MovePicker.captureInit, MovePicker.doGoodCapture, selectGC,
      MovePicker.doRefutation, selectNext, MovePicker.refAccept, eget,
      limited_insertion_sort, lisOuter, toExtMoves, MovePicker.score_captures,
      wPos, wMvK, Move.none, MAIN_TT, EVASION_TT, REFUTATION]
  have h2 := h wPos Move.none 1 (fun _ _ => 0) (fun _ _ _ => 0) (fun _ _ _ => 0)
    (fun _ _ _ => 0) Move.none wMvK Move.none [true] (by simp) rfl wMvK
    (by rw [htr]; exact List.mem_singleton_self wMvK)
  rcases h2 with h2 | h2
  · exact absurd h2 (by decide)
  · exact absurd h2 (by decide)


theorem refCands_nil_of_ge4 (s : MovePicker) (h : 4 ≤ s.stage) : refCands s = [] := by
  rw [refCands, if_neg (by omega), if_neg (by omega)]

theorem refMenu_nil_of_ge4 (s : MovePicker) (h : 4 ≤ s.stage) : refMenu s = [] := by
  rw [refMenu, refCands_nil_of_ge4 s h]
  rfl

theorem refMenu_congr (s t : MovePicker) (hr : s.refutations = t.refutations)
    (htt : s.ttMove = t.ttMove) (hp : s.pos = t.pos)
    (hst : s.stage < 3) (hts : t.stage < 3) : refMenu s = refMenu t := by
  have hfn : refAcceptTT s = refAcceptTT t := by
    funext e
    simp only [refAcceptTT, MovePicker.refAccept, htt, hp]
  simp only [refMenu, refCands, refDup, hr, hfn]
  rw [if_pos hst, if_pos hts]

theorem doBadQuiet_stage_eq (s : MovePicker) (f : Bool) :
    (s.doBadQuiet f).2.stage = s.stage :=
  (doBadQuiet_facts s f).2.2

theorem doBadCapture_stage_ge (s : MovePicker) (f : Bool) (h : 4 ≤ s.stage) :
    4 ≤ (s.doBadCapture f).2.stage := by
  unfold MovePicker.doBadCapture
  cases hsel : selectNext s.moves s.ttMove (fun _ => true) s.cur s.endMoves with
  | mk m cur' =>
    dsimp only
    by_cases hm : m = Move.none
    · rw [if_neg (by simp [hm])]
      rw [doBadQuiet_stage_eq]
      exact (show (4:Nat) ≤ 7 by decide)
    · rw [if_pos (by simp [hm])]
      exact h

theorem doGoodQuiet_stage_ge (s : MovePicker) (f : Bool) (h : 4 ≤ s.stage) :
    4 ≤ (s.doGoodQuiet f).2.stage := by
  unfold MovePicker.doGoodQuiet
  rcases f with _ | _
  · cases hsel : selectNext s.moves s.ttMove s.goodQuietAccept s.cur s.endMoves with
    | mk m cur' =>
      dsimp only
      by_cases hm : m = Move.none
      · simp only [hm, ne_eq, not_true_eq_false, if_false, reduceIte]
        exact doBadCapture_stage_ge _ false (show (4:Nat) ≤ 6 by decide)
      · simp only [hm, ne_eq, not_false_eq_true, if_true, reduceIte]
        by_cases hv : (eget s.moves (cur' - 1)).value > -8000
            ∨ (eget s.moves (cur' - 1)).value ≤ quiet_threshold s.depth
        · simp only [hv, if_true, reduceIte]
          exact h
        · simp only [hv, if_false, reduceIte]
          exact doBadCapture_stage_ge _ false (show (4:Nat) ≤ 6 by decide)
  · exact doBadCapture_stage_ge _ true (show (4:Nat) ≤ 6 by decide)

theorem doQuietInit_stage_ge (s : MovePicker) (f : Bool) :
    4 ≤ (s.doQuietInit f).2.stage := by
  unfold MovePicker.doQuietInit
  rcases f with _ | _
  · exact doGoodQuiet_stage_ge _ false (show (4:Nat) ≤ 5 by decide)
  · exact doGoodQuiet_stage_ge _ true (show (4:Nat) ≤ 5 by decide)

theorem doQCheck_stage_eq (s : MovePicker) : (s.doQCheck).2.stage = s.stage :=
  (doQCheck_facts s).2.2

theorem doQCapture_stage_ge (s : MovePicker) (h : 4 ≤ s.stage) :
    4 ≤ (s.doQCapture).2.stage := by
  unfold MovePicker.doQCapture
  cases hsel : selectNext s.moves s.ttMove (fun _ => true) s.cur s.endMoves with
  | mk m cur' =>
    dsimp only
    by_cases hm : m = Move.none
    · rw [if_neg (by simp [hm])]
      by_cases hd : s.depth ≠ DEPTH_QS_CHECKS
      · rw [if_pos hd]
        exact h
      · rw [if_neg hd]
        rw [doQCheck_stage_eq]
        exact (show (4:Nat) ≤ 18 by decide)
    · rw [if_pos (by simp [hm])]
      exact h

theorem eget_eq_default {l : List ExtMove} {i : Nat} (h : l.length ≤ i) :
    eget l i = default := by
  rw [eget, List.getD_eq_getElem?_getD, List.getElem?_eq_none h]
  rfl

theorem selectNext_none_of_len (buf : List ExtMove) (ttm : Move)
    (accept : ExtMove → Bool)
    (hacc : ∀ e, accept e = true → e.move ≠ Move.none) :
    ∀ (k cur endM : Nat), endM - cur = k → buf.length ≤ cur →
      (selectNext buf ttm accept cur endM).1 = Move.none := by
  intro k
  induction k with
  | zero =>
    intro cur endM hk hlen
    rw [selectNext, dif_neg (by omega)]
  | succ k ih =>
    intro cur endM hk hlen
    rw [selectNext, dif_pos (by omega : cur < endM)]
    have hdef : eget buf cur = default := eget_eq_default hlen
    rw [if_neg ?hcond]
    · exact ih (cur + 1) endM (by omega) (by omega)
    case hcond =>
      rintro ⟨-, h2⟩
      refine hacc _ h2 ?_
      rw [hdef]
      rfl

theorem selectNext_filter (buf : List ExtMove) (ttm : Move)
    (accept q : ExtMove → Bool)
    (hacc : ∀ e, accept e = true → e.move ≠ Move.none)
    (hq : ∀ e, q e = true ↔ (e.move ≠ ttm ∧ accept e = true)) :
    ∀ (k cur endM : Nat), endM - cur = k →
      ((selectNext buf ttm accept cur endM).1 = Move.none →
        ((buf.take endM).drop cur).filter q = [])
      ∧ ((selectNext buf ttm accept cur endM).1 ≠ Move.none →
        (((buf.take endM).drop cur).filter q).map ExtMove.move
          = (selectNext buf ttm accept cur endM).1
            :: (((buf.take endM).drop (selectNext buf ttm accept cur endM).2).filter
              q).map ExtMove.move) := by
  intro k
  induction k with
  | zero =>
    intro cur endM hk
    rw [selectNext, dif_neg (by omega)]
    have hnil : (buf.take endM).drop cur = [] :=
      List.drop_eq_nil_of_le (le_trans (List.length_take_le endM buf) (by omega))
    exact ⟨fun _ => by rw [hnil]; rfl, fun h => absurd rfl h⟩
  | succ k ih =>
    intro cur endM hk
    have hlt : cur < endM := by omega
    rw [selectNext, dif_pos hlt]
    by_cases hcond : (eget buf cur).move ≠ ttm ∧ accept (eget buf cur) = true
    · rw [if_pos hcond]
      have hin : cur < buf.length := by
        by_contra hin
        exact hacc _ hcond.2 (by rw [eget_eq_default (by omega)]; rfl)
      have hlen : cur < (buf.take endM).length := by
        rw [List.length_take]
        omega
      have hdrop : (buf.take endM).drop cur
          = eget buf cur :: (buf.take endM).drop (cur + 1) := by
        rw [List.drop_eq_getElem_cons hlen]
        congr 1
        rw [List.getElem_take]
        exact (eget_eq_getElem hin).symm
      refine ⟨fun h => absurd h (hacc _ hcond.2), fun _ => ?_⟩
      rw [hdrop, List.filter_cons_of_pos ((hq _).mpr hcond), List.map_cons]
    · rw [if_neg hcond]
      obtain ⟨ih1, ih2⟩ := ih (cur + 1) endM (by omega)
      by_cases hin : cur < buf.length
      · have hlen : cur < (buf.take endM).length := by
          rw [List.length_take]
          omega
        have hdrop : (buf.take endM).drop cur
            = eget buf cur :: (buf.take endM).drop (cur + 1) := by
          rw [List.drop_eq_getElem_cons hlen]
          congr 1
          rw [List.getElem_take]
          exact (eget_eq_getElem hin).symm
        have hneg : ¬(q (eget buf cur) = true) := fun hqq => hcond ((hq _).mp hqq)
        refine ⟨fun h => ?_, fun h => ?_⟩
        · rw [hdrop, List.filter_cons_of_neg hneg]
          exact ih1 h
        · rw [hdrop, List.filter_cons_of_neg hneg]
          exact ih2 h
      · have hnil : (buf.take endM).drop cur = [] := by
          refine List.drop_eq_nil_of_le ?_
          rw [List.length_take]
          omega
        have hnil2 : (buf.take endM).drop (selectNext buf ttm accept (cur + 1) endM).2 = [] := by
          refine List.drop_eq_nil_of_le ?_
          rcases selectNext_spec buf ttm accept (endM - (cur + 1)) (cur + 1) endM rfl with
            ⟨-, h2, -⟩ | ⟨i, h1, -, h3, -⟩
          · rw [List.length_take]
            omega
          · rw [h3, List.length_take]
            omega
        refine ⟨fun _ => ?_, fun h => ?_⟩
        · rw [hnil]
          rfl
        · exact absurd
            (selectNext_none_of_len buf ttm accept hacc (endM - (cur + 1)) (cur + 1) endM
              rfl (by omega)) h
theorem sublist_of_eq {l1 l2 : List Move} (h : l1 = l2) : l1.Sublist l2 := by
  rw [h]

theorem refAccept_ne_none (s : MovePicker) :
    ∀ e, s.refAccept e = true → e.move ≠ Move.none := by
  intro e he
  rw [MovePicker.refAccept] at he
  simp only [Bool.and_eq_true, decide_eq_true_eq] at he
  exact he.1.1

theorem refAcceptTT_iff (s : MovePicker) :
    ∀ e, refAcceptTT s e = true ↔ (e.move ≠ s.ttMove ∧ s.refAccept e = true) := by
  intro e
  simp [refAcceptTT]

theorem doRefutation_ref (s : MovePicker) (f : Bool) (hst : s.stage = 3) :
    ((s.doRefutation f).1 ≠ Move.none → (s.doRefutation f).2.stage = 3 →
      ((s.doRefutation f).1 :: refMenu (s.doRefutation f).2).Sublist (refMenu s))
    ∧ (refMenu (s.doRefutation f).2).Sublist (refMenu s) := by
  unfold MovePicker.doRefutation
  cases hsel : selectNext s.refutations s.ttMove s.refAccept s.cur s.endMoves with
  | mk m cur' =>
    obtain ⟨hf1, hf2⟩ := selectNext_filter s.refutations s.ttMove s.refAccept
      (refAcceptTT s) (refAccept_ne_none s) (refAcceptTT_iff s)
      (s.endMoves - s.cur) s.cur s.endMoves rfl
    rw [hsel] at hf1 hf2
    dsimp only
    dsimp only at hf1 hf2
    by_cases hm : m = Move.none
    · rw [if_neg (by simp [hm])]
      have hge := doQuietInit_stage_ge { s with cur := cur', stage := QUIET_INIT } f
      constructor
      · intro _ h3
        exact absurd h3 (by omega)
      · rw [refMenu_nil_of_ge4 _ hge]
        exact List.nil_sublist _
    · rw [if_pos (by simp [hm])]
      have heq := hf2 hm
      have hmenus : refMenu s
          = (((s.refutations.take s.endMoves).drop s.cur).filter
              (refAcceptTT s)).map ExtMove.move := by
        rw [refMenu, refCands, if_neg (by omega), if_pos hst]
      have hmenur : refMenu ({ s with cur := cur' } : MovePicker)
          = (((s.refutations.take s.endMoves).drop cur').filter
              (refAcceptTT s)).map ExtMove.move := by
        rw [refMenu, refCands,
          if_neg (show ¬(({ s with cur := cur' } : MovePicker).stage < 3) by
            show ¬(s.stage < 3)
            omega),
          if_pos (show ({ s with cur := cur' } : MovePicker).stage = 3 from hst)]
        rfl
      constructor
      · intro _ _
        rw [hmenur, hmenus, heq]
      · rw [hmenur, hmenus, heq]
        exact List.sublist_cons_self m _
  
theorem refMenu_entry (s t : MovePicker)
    (hr : t.refutations = s.refutations) (htt : t.ttMove = s.ttMove)
    (hp : t.pos = s.pos) (ht3 : t.stage = 3) (hcur : t.cur = 0)
    (hend : t.endMoves = (if refDup s then 2 else 3))
    (hs3 : s.stage < 3) :
    refMenu t = refMenu s := by
  rw [refMenu, refMenu, refCands, refCands]
  rw [if_neg (show ¬(t.stage < 3) by omega), if_pos ht3, if_pos hs3, hcur, hend, hr]
  rw [List.drop_zero]
  have hfn : refAcceptTT t = refAcceptTT s := by
    funext e
    simp only [refAcceptTT, MovePicker.refAccept, htt, hp]
  rw [hfn]

theorem doGoodCapture_ref (s : MovePicker) (f : Bool) (hst : s.stage = 2) :
    ((s.doGoodCapture f).1 ≠ Move.none → (s.doGoodCapture f).2.stage = 3 →
      ((s.doGoodCapture f).1 :: refMenu (s.doGoodCapture f).2).Sublist (refMenu s))
    ∧ (refMenu (s.doGoodCapture f).2).Sublist (refMenu s) := by
  unfold MovePicker.doGoodCapture
  cases hsel : selectGC s.pos s.ttMove s.moves s.endBadCaptures s.cur s.endMoves with
  | mk m rest =>
    cases rest with
    | mk buf rest2 =>
      cases rest2 with
      | mk ebc cur' =>
        dsimp only
        by_cases hm : m = Move.none
        · rw [if_neg (by simp [hm])]
          obtain ⟨c1, c2⟩ := doRefutation_ref
            { s with moves := buf, endBadCaptures := ebc, cur := 0,
                     endMoves :=
                       if (eget s.refutations 0).move = (eget s.refutations 2).move
                           ∨ (eget s.refutations 1).move = (eget s.refutations 2).move
                       then 2 else 3,
                     stage := REFUTATION } f rfl
          have hm1 : refMenu
              ({ s with moves := buf, endBadCaptures := ebc, cur := 0,
                        endMoves :=
                          if (eget s.refutations 0).move = (eget s.refutations 2).move
                              ∨ (eget s.refutations 1).move = (eget s.refutations 2).move
                          then 2 else 3,
                        stage := REFUTATION } : MovePicker) = refMenu s :=
            refMenu_entry s _ rfl rfl rfl rfl rfl rfl (by omega)
          refine ⟨fun h1 h3 => ?_, ?_⟩
          · rw [← hm1]
            exact c1 h1 h3
          · rw [← hm1]
            exact c2
        · rw [if_pos (by simp [hm])]
          constructor
          · intro _ h3
            exact absurd (show s.stage = 3 from h3) (by omega)
          · have e1 := refMenu_congr
              ({ s with moves := buf, endBadCaptures := ebc, cur := cur' } : MovePicker) s
              rfl rfl rfl (show s.stage < 3 by omega) (by omega)
            exact sublist_of_eq e1
theorem next_move_ref (s : MovePicker) (f : Bool) :
    ((s.next_move f).1 ≠ Move.none → (s.next_move f).2.stage = 3 →
      ((s.next_move f).1 :: refMenu (s.next_move f).2).Sublist (refMenu s))
    ∧ (refMenu (s.next_move f).2).Sublist (refMenu s) := by
  unfold MovePicker.next_move
  rcases hst : s.stage with _|_|_|_|_|_|_|_|_|_|_|_|_|_|_|_|_|_|_|n
  · -- MAIN_TT
    refine ⟨fun _ h3 => absurd (show (0:Nat) + 1 = 3 from h3) (by decide), ?_⟩
    exact sublist_of_eq (refMenu_congr _ s rfl rfl rfl
      (show (0:Nat) + 1 < 3 by decide) (by omega))
  · -- CAPTURE_INIT
    have hcap2 : s.captureInit.stage = 2 := by
      have h2 : s.captureInit.stage = s.stage + 1 := rfl
      omega
    obtain ⟨c1, c2⟩ := doGoodCapture_ref s.captureInit f hcap2
    have e1 : refMenu s.captureInit = refMenu s :=
      refMenu_congr _ s rfl rfl rfl (by omega) (by omega)
    refine ⟨fun h1 h3 => ?_, ?_⟩
    · rw [← e1]
      exact c1 h1 h3
    · rw [← e1]
      exact c2
  · -- GOOD_CAPTURE
    exact doGoodCapture_ref s f (by omega)
  · -- REFUTATION
    exact doRefutation_ref s f (by omega)
  · -- QUIET_INIT
    have hge := doQuietInit_stage_ge s f
    refine ⟨fun _ h3 => absurd (show (s.doQuietInit f).2.stage = 3 from h3) (by omega), ?_⟩
    rw [refMenu_nil_of_ge4 _ hge]
    exact List.nil_sublist _
  · -- GOOD_QUIET
    have hge := doGoodQuiet_stage_ge s f (by omega)
    refine ⟨fun _ h3 => absurd (show (s.doGoodQuiet f).2.stage = 3 from h3) (by omega), ?_⟩
    rw [refMenu_nil_of_ge4 _ hge]
    exact List.nil_sublist _
  · -- BAD_CAPTURE
    have hge := doBadCapture_stage_ge s f (by omega)
    refine ⟨fun _ h3 => absurd (show (s.doBadCapture f).2.stage = 3 from h3) (by omega), ?_⟩
    rw [refMenu_nil_of_ge4 _ hge]
    exact List.nil_sublist _
  · -- BAD_QUIET
    have hge : 4 ≤ (s.doBadQuiet f).2.stage := by
      rw [doBadQuiet_stage_eq]
      omega
    refine ⟨fun _ h3 => absurd (show (s.doBadQuiet f).2.stage = 3 from h3) (by omega), ?_⟩
    rw [refMenu_nil_of_ge4 _ hge]
    exact List.nil_sublist _
  · -- EVASION_TT
    refine ⟨fun _ h3 => absurd (show (8:Nat) + 1 = 3 from h3) (by decide), ?_⟩
    show (refMenu { s with stage := 8 + 1 }).Sublist (refMenu s)
    rw [refMenu_nil_of_ge4 _ (show (4:Nat) ≤ 8 + 1 by decide)]
    exact List.nil_sublist _
  · -- EVASION_INIT
    have hse : (s.evasionInit.doEvasion).2.stage = s.evasionInit.stage :=
      (doEvasion_facts s.evasionInit).2.2
    have hge : 4 ≤ (s.evasionInit.doEvasion).2.stage := by
      rw [hse]
      exact (show (4:Nat) ≤ 10 by decide)
    refine ⟨fun _ h3 => absurd (show (s.evasionInit.doEvasion).2.stage = 3 from h3) (by omega), ?_⟩
    rw [refMenu_nil_of_ge4 _ hge]
    exact List.nil_sublist _
  · -- EVASION
    have hse : (s.doEvasion).2.stage = s.stage := (doEvasion_facts s).2.2
    have hge : 4 ≤ (s.doEvasion).2.stage := by
      rw [hse]
      omega
    refine ⟨fun _ h3 => absurd (show (s.doEvasion).2.stage = 3 from h3) (by omega), ?_⟩
    rw [refMenu_nil_of_ge4 _ hge]
    exact List.nil_sublist _
  · -- PROBCUT_TT
    refine ⟨fun _ h3 => absurd (show (11:Nat) + 1 = 3 from h3) (by decide), ?_⟩
    show (refMenu { s with stage := 11 + 1 }).Sublist (refMenu s)
    rw [refMenu_nil_of_ge4 _ (show (4:Nat) ≤ 11 + 1 by decide)]
    exact List.nil_sublist _
  · -- PROBCUT_INIT
    have hse : (s.captureInit.doProbcut).2.stage = s.captureInit.stage :=
      (doProbcut_facts s.captureInit).2.2
    have hge : 4 ≤ (s.captureInit.doProbcut).2.stage := by
      rw [hse]
      have h2 : s.captureInit.stage = s.stage + 1 := rfl
      omega
    refine ⟨fun _ h3 => absurd (show (s.captureInit.doProbcut).2.stage = 3 from h3) (by omega), ?_⟩
    rw [refMenu_nil_of_ge4 _ hge]
    exact List.nil_sublist _
  · -- PROBCUT
    have hse : (s.doProbcut).2.stage = s.stage := (doProbcut_facts s).2.2
    have hge : 4 ≤ (s.doProbcut).2.stage := by
      rw [hse]
      omega
    refine ⟨fun _ h3 => absurd (show (s.doProbcut).2.stage = 3 from h3) (by omega), ?_⟩
    rw [refMenu_nil_of_ge4 _ hge]
    exact List.nil_sublist _
  · -- QSEARCH_TT
    refine ⟨fun _ h3 => absurd (show (14:Nat) + 1 = 3 from h3) (by decide), ?_⟩
    show (refMenu { s with stage := 14 + 1 }).Sublist (refMenu s)
    rw [refMenu_nil_of_ge4 _ (show (4:Nat) ≤ 14 + 1 by decide)]
    exact List.nil_sublist _
  · -- QCAPTURE_INIT
    have hge : 4 ≤ (s.captureInit.doQCapture).2.stage := by
      refine doQCapture_stage_ge s.captureInit ?_
      have h2 : s.captureInit.stage = s.stage + 1 := rfl
      omega
    refine ⟨fun _ h3 => absurd (show (s.captureInit.doQCapture).2.stage = 3 from h3) (by omega), ?_⟩
    rw [refMenu_nil_of_ge4 _ hge]
    exact List.nil_sublist _
  · -- QCAPTURE
    have hge : 4 ≤ (s.doQCapture).2.stage := doQCapture_stage_ge s (by omega)
    refine ⟨fun _ h3 => absurd (show (s.doQCapture).2.stage = 3 from h3) (by omega), ?_⟩
    rw [refMenu_nil_of_ge4 _ hge]
    exact List.nil_sublist _
  · -- QCHECK_INIT
    have hge : 4 ≤ (s.qcheckInit.doQCheck).2.stage := by
      rw [doQCheck_stage_eq]
      exact (show (4:Nat) ≤ 18 by decide)
    refine ⟨fun _ h3 => absurd (show (s.qcheckInit.doQCheck).2.stage = 3 from h3) (by omega), ?_⟩
    rw [refMenu_nil_of_ge4 _ hge]
    exact List.nil_sublist _
  · -- QCHECK
    have hge : 4 ≤ (s.doQCheck).2.stage := by
      rw [doQCheck_stage_eq]
      omega
    refine ⟨fun _ h3 => absurd (show (s.doQCheck).2.stage = 3 from h3) (by omega), ?_⟩
    rw [refMenu_nil_of_ge4 _ hge]
    exact List.nil_sublist _
  · -- out of range
    exact ⟨fun h1 _ => absurd rfl h1, List.Sublist.refl _⟩

theorem steps_ref : ∀ (flags : List Bool) (s : MovePicker),
    (refYields (s.steps flags)).Sublist (refMenu s) := by
  intro flags
  induction flags with
  | nil =>
    intro s
    exact List.nil_sublist _
  | cons f fs ih =>
    intro s
    rw [MovePicker.steps]
    obtain ⟨c1, c2⟩ := next_move_ref s f
    cases hn : s.next_move f with
    | mk m s' =>
      rw [hn] at c1 c2
      dsimp only at c1 c2
      rw [refYields]
      by_cases hy : m ≠ Move.none ∧ s'.stage = 3
      · rw [List.filter_cons_of_pos (by simp [hy.1, hy.2])]
        rw [List.map_cons]
        have step1 : (m :: refYields (s'.steps fs)).Sublist (m :: refMenu s') :=
          List.Sublist.cons₂ m (ih s')
        exact step1.trans (c1 hy.1 hy.2)
      · rw [List.filter_cons_of_neg ?hneg]
        · exact (ih s').trans c2
        case hneg =>
          simp only [Bool.and_eq_true, decide_eq_true_eq]
          exact hy
/-- C4 (amended): in the main-search context with distinct killers, every
refutation-stage yield differs from the hash move, is not the
none-sentinel, is not capture-class, and is pseudo-legal; and the
refutation-stage yields are pairwise distinct (so a countermove equal to
a killer is yielded at most once, thanks to the `--endMoves` dedup).
The original claim's at-most-once guarantee fails when the two killer
slots hold the same move (see the counterexample theorem): the dedup
only compares the countermove against the killers. -/
theorem refutation_yield_properties (p : Position) (ttm : Move) (d : Int)
    (mh : Bool → Nat → Int) (cph ch ph : Nat → Nat → Nat → Int)
    (cm k0 k1 : Move) (flags : List Bool) (hk : k0 ≠ k1) :
    (∀ m ∈ refYields ((mkMainSearch p ttm d mh cph ch ph cm k0 k1).steps flags),
      m ≠ ttm ∧ m ≠ Move.none ∧ p.capture_stage m = false ∧ p.pseudo_legal m = true)
    ∧ (refYields ((mkMainSearch p ttm d mh cph ch ph cm k0 k1).steps flags)).Nodup := by
  constructor
  · intro m hm
    have hsub := steps_ref flags (mkMainSearch p ttm d mh cph ch ph cm k0 k1)
    have hm2 := hsub.subset hm
    rw [refMenu] at hm2
    simp only [List.mem_map, List.mem_filter] at hm2
    obtain ⟨e, ⟨hin, hacc⟩, hme⟩ := hm2
    obtain ⟨h1, h2⟩ := (refAcceptTT_iff _ e).mp hacc
    rw [MovePicker.refAccept] at h2
    simp only [Bool.and_eq_true, decide_eq_true_eq, Bool.not_eq_true'] at h2
    subst hme
    exact ⟨h1, h2.1.1, h2.1.2, h2.2⟩
  · have hsub := steps_ref flags (mkMainSearch p ttm d mh cph ch ph cm k0 k1)
    by_cases hc : p.checkers = true
    · have hge : 4 ≤ (mkMainSearch p ttm d mh cph ch ph cm k0 k1).stage := by
        show 4 ≤ (if p.checkers then EVASION_TT else MAIN_TT)
          + (if ttm ≠ Move.none ∧ p.pseudo_legal ttm = true then 0 else 1)
        rw [if_pos hc]
        exact le_trans (by decide) (Nat.le_add_right 8 _)
      rw [refMenu_nil_of_ge4 _ hge] at hsub
      rw [List.sublist_nil.mp hsub]
      exact List.nodup_nil
    · have hlt : (mkMainSearch p ttm d mh cph ch ph cm k0 k1).stage < 3 := by
        show (if p.checkers then EVASION_TT else MAIN_TT)
          + (if ttm ≠ Move.none ∧ p.pseudo_legal ttm = true then 0 else 1) < 3
        rw [if_neg hc]
        by_cases hv : ttm ≠ Move.none ∧ p.pseudo_legal ttm = true
        · rw [if_pos hv]
          decide
        · rw [if_neg hv]
          decide
      refine List.Nodup.sublist hsub ?_
      rw [refMenu]
      refine List.Nodup.sublist ((List.filter_sublist _).map ExtMove.move) ?_
      rw [refCands, if_pos hlt]
      show ((([⟨k0, 0⟩, ⟨k1, 0⟩, ⟨cm, 0⟩] : List ExtMove).take
        (if refDup (mkMainSearch p ttm d mh cph ch ph cm k0 k1) then 2 else 3)).map
          ExtMove.move).Nodup
      by_cases hdup : refDup (mkMainSearch p ttm d mh cph ch ph cm k0 k1)
      · rw [if_pos hdup]
        simp [hk]
      · rw [if_neg hdup]
        have hdup2 : ¬(k0 = cm ∨ k1 = cm) := by
          intro hor
          apply hdup
          show (eget ([⟨k0, 0⟩, ⟨k1, 0⟩, ⟨cm, 0⟩] : List ExtMove) 0).move
              = (eget ([⟨k0, 0⟩, ⟨k1, 0⟩, ⟨cm, 0⟩] : List ExtMove) 2).move
            ∨ (eget ([⟨k0, 0⟩, ⟨k1, 0⟩, ⟨cm, 0⟩] : List ExtMove) 1).move
              = (eget ([⟨k0, 0⟩, ⟨k1, 0⟩, ⟨cm, 0⟩] : List ExtMove) 2).move
          simpa [eget] using hor
        push_neg at hdup2
        simp [hk, hdup2.1, hdup2.2]

theorem refutation_yield_properties_witness :
    (wMvA ≠ Move.none ∧ wMvA ≠ Move.none ∧ wPos.capture_stage wMvA = false
      ∧ wPos.pseudo_legal wMvA = true)
    ∧ (refYields ((mkMainSearch wPos Move.none 1 (fun _ _ => 0) (fun _ _ _ => 0)
        (fun _ _ _ => 0) (fun _ _ _ => 0) wMvC wMvA wMvB).steps [true])).Nodup :=
  ⟨(refutation_yield_properties wPos Move.none 1 (fun _ _ => 0) (fun _ _ _ => 0)
      (fun _ _ _ => 0) (fun _ _ _ => 0) wMvC wMvA wMvB [true] (by decide)).1 wMvA
    (by
      have htr : refYields ((mkMainSearch wPos Move.none 1 (fun _ _ => 0)
          (fun _ _ _ => 0) (fun _ _ _ => 0) (fun _ _ _ => 0)
          wMvC wMvA wMvB).steps [true]) = [wMvA] := by
        simp [refYields, MovePicker.steps, MovePicker.next_move, mkMainSearch,
          MovePicker.captureInit, MovePicker.doGoodCapture, selectGC,
          MovePicker.doRefutation, selectNext, MovePicker.refAccept, eget,
          limited_insertion_sort, lisOuter, toExtMoves, MovePicker.score_captures,
          wPos, wMvA, wMvB, wMvC, Move.none, MAIN_TT, EVASION_TT, REFUTATION]
      rw [htr]
      exact List.mem_singleton_self wMvA),
   (refutation_yield_properties wPos Move.none 1 (fun _ _ => 0) (fun _ _ _ => 0)
      (fun _ _ _ => 0) (fun _ _ _ => 0) wMvC wMvA wMvB [true] (by decide)).2⟩

/-- C4, at-most-once clause, refuted: with both killer slots holding the
same quiet pseudo-legal move that is also the countermove, the dedup
removes only one of the three refutation cells, and the move is yielded
twice by the refutation stage. -/
theorem refutation_once_counterexample :
    ¬ (∀ (p : Position) (ttm : Move) (d : Int) (mh : Bool → Nat → Int)
        (cph ch ph : Nat → Nat → Nat → Int) (cm k0 k1 : Move)
        (flags : List Bool),
        cm = k0 ∨ cm = k1 →
        (refYields ((mkMainSearch p ttm d mh cph ch ph cm k0 k1).steps
          flags)).count cm ≤ 1) := by
  intro h
  have h2 := h wPos Move.none 1 (fun _ _ => 0) (fun _ _ _ => 0) (fun _ _ _ => 0)
    (fun _ _ _ => 0) wMvK wMvK wMvK [false, false] (Or.inl rfl)
  have hcomp : refYields ((mkMainSearch wPos Move.none 1 (fun _ _ => 0)
      (fun _ _ _ => 0) (fun _ _ _ => 0) (fun _ _ _ => 0)
      wMvK wMvK wMvK).steps [false, false]) = [wMvK, wMvK] := by
    simp [refYields, MovePicker.steps, MovePicker.next_move, mkMainSearch,
      MovePicker.captureInit, MovePicker.doGoodCapture, selectGC,
      MovePicker.doRefutation, selectNext, MovePicker.refAccept, eget,
      limited_insertion_sort, lisOuter, toExtMoves, MovePicker.score_captures,
      wPos, wMvK, Move.none, MAIN_TT, EVASION_TT, REFUTATION, QUIET_INIT]
  rw [hcomp] at h2
  exact absurd h2 (by decide)

theorem gMenu_le1 (s : MovePicker) (h : s.stage ≤ 1) :
    gMenu s = gcGoods s.pos s.ttMove (sortedCaps s) := by
  rw [gMenu, if_pos h]

theorem gMenu_stage2 (s : MovePicker) (h : s.stage = 2) :
    gMenu s = gcGoods s.pos s.ttMove (capRegion s) := by
  rw [gMenu, if_neg (by omega), if_pos h]

theorem gMenu_nil (s : MovePicker) (h : 3 ≤ s.stage) : gMenu s = [] := by
  rw [gMenu, if_neg (by omega), if_neg (by omega)]

theorem bMenu_le1 (s : MovePicker) (h : s.stage ≤ 1) :
    bMenu s = (gcBads s.pos s.ttMove (sortedCaps s)).map ExtMove.move := by
  rw [bMenu, if_pos h]

theorem bMenu_stage2 (s : MovePicker) (h : s.stage = 2) :
    bMenu s = (badsSoFar s ++ gcBads s.pos s.ttMove (capRegion s)).map ExtMove.move := by
  rw [bMenu, if_neg (by omega), if_pos h]

theorem bMenu_mid (s : MovePicker) (h3 : 3 ≤ s.stage) (h5 : s.stage ≤ 5) :
    bMenu s = (badsSoFar s).map ExtMove.move := by
  rw [bMenu, if_neg (by omega), if_neg (by omega), if_pos h5]

theorem bMenu_stage6 (s : MovePicker) (h : s.stage = 6) :
    bMenu s = (capRegion s).map ExtMove.move := by
  rw [bMenu, if_neg (by omega), if_neg (by omega), if_neg (by omega), if_pos h]

theorem bMenu_nil (s : MovePicker) (h : 7 ≤ s.stage) : bMenu s = [] := by
  rw [bMenu, if_neg (by omega), if_neg (by omega), if_neg (by omega), if_neg (by omega)]

theorem lis_length (l : List ExtMove) (limit : Int) :
    (limited_insertion_sort l limit).length = l.length :=
  (limited_insertion_sort_spec l limit).1.length_eq

/-- The split of a scan into accepted and copied cells is, up to the
hash-move skip, a partition: goods plus bad moves are a permutation of
the scanned non-hash moves. -/
theorem gcGoods_gcBads_perm (p : Position) (ttm : Move) : ∀ (l : List ExtMove),
    (gcGoods p ttm l ++ (gcBads p ttm l).map ExtMove.move).Perm
      ((l.filter (fun e => decide (e.move ≠ ttm))).map ExtMove.move) := by
  intro l
  induction l with
  | nil =>
    rw [gcGoods, gcBads]
    exact List.Perm.refl _
  | cons e r ih =>
    rw [gcGoods, gcBads]
    by_cases htt : e.move = ttm
    · rw [if_pos htt, if_pos htt, List.filter_cons_of_neg (by simp [htt])]
      exact ih
    · rw [if_neg htt, if_neg htt, List.filter_cons_of_pos (by simp [htt]), List.map_cons]
      by_cases hsee : p.see_ge e.move (Int.tdiv (-e.value) 18) = true
      · rw [if_pos hsee, if_pos hsee]
        exact List.Perm.cons e.move ih
      · rw [if_neg hsee, if_neg hsee, List.map_cons]
        exact List.Perm.trans List.perm_middle (List.Perm.cons e.move ih)

theorem take_succ_set (buf : List ExtMove) (ebc : Nat) (a : ExtMove)
    (h : ebc < buf.length) :
    (buf.set ebc a).take (ebc + 1) = buf.take ebc ++ [a] := by
  rw [take_succ_eget (by rw [List.length_set]; exact h)]
  rw [take_set_of_le a buf (le_refl ebc)]
  have ha : eget (buf.set ebc a) ebc = a := by
    rw [eget, List.getD_eq_getElem?_getD, List.getElem?_set_self h]
    rfl
  rw [ha]

theorem region_cons {buf : List ExtMove} {cur endM : Nat}
    (hlt : cur < endM) (hlen : endM ≤ buf.length) :
    (buf.take endM).drop cur = eget buf cur :: (buf.take endM).drop (cur + 1) := by
  have hl : cur < (buf.take endM).length := by
    rw [List.length_take]
    omega
  rw [List.drop_eq_getElem_cons hl]
  congr 1
  rw [List.getElem_take]
  exact (eget_eq_getElem (by omega)).symm

theorem selectGC_gc (p : Position) (ttm : Move) :
    ∀ (k : Nat) (buf : List ExtMove) (ebc cur endM : Nat), endM - cur = k →
      ebc ≤ cur → cur ≤ endM → endM ≤ buf.length →
      (∀ e ∈ buf.take ebc, e.move ≠ ttm) →
      ((gcGoods p ttm ((buf.take endM).drop cur) = [] →
        (selectGC p ttm buf ebc cur endM).1 = Move.none
        ∧ ((selectGC p ttm buf ebc cur endM).2.1.take
            (selectGC p ttm buf ebc cur endM).2.2.1)
          = buf.take ebc ++ gcBads p ttm ((buf.take endM).drop cur))
      ∧ (∀ g gs, gcGoods p ttm ((buf.take endM).drop cur) = g :: gs →
        (selectGC p ttm buf ebc cur endM).1 = g
        ∧ gcGoods p ttm (((selectGC p ttm buf ebc cur endM).2.1.take endM).drop
            (selectGC p ttm buf ebc cur endM).2.2.2) = gs
        ∧ ((selectGC p ttm buf ebc cur endM).2.1.take
              (selectGC p ttm buf ebc cur endM).2.2.1)
            ++ gcBads p ttm (((selectGC p ttm buf ebc cur endM).2.1.take endM).drop
              (selectGC p ttm buf ebc cur endM).2.2.2)
          = buf.take ebc ++ gcBads p ttm ((buf.take endM).drop cur))
      ∧ (selectGC p ttm buf ebc cur endM).2.1.length = buf.length
      ∧ (selectGC p ttm buf ebc cur endM).2.2.1 ≤ (selectGC p ttm buf ebc cur endM).2.2.2
      ∧ (selectGC p ttm buf ebc cur endM).2.2.2 ≤ endM
      ∧ (∀ e ∈ (selectGC p ttm buf ebc cur endM).2.1.take
          (selectGC p ttm buf ebc cur endM).2.2.1, e.move ≠ ttm)) := by
  intro k
  induction k with
  | zero =>
    intro buf ebc cur endM hk hle hcur hlen hbads
    rw [selectGC, dif_neg (by omega)]
    dsimp only
    have hR : (buf.take endM).drop cur = [] := by
      refine List.drop_eq_nil_of_le ?_
      rw [List.length_take]
      omega
    refine ⟨fun _ => ⟨rfl, ?_⟩, fun g gs hg => ?_, rfl, hle, by omega, hbads⟩
    · rw [hR, gcBads, List.append_nil]
    · rw [hR, gcGoods] at hg
      exact absurd hg (by simp)
  | succ k ih =>
    intro buf ebc cur endM hk hle hcur hlen hbads
    have hlt : cur < endM := by omega
    have hinbuf : cur < buf.length := by omega
    rw [selectGC, dif_pos hlt]
    have hR := region_cons hlt hlen
    by_cases htt : (eget buf cur).move = ttm
    · rw [if_neg (show ¬((eget buf cur).move ≠ ttm) from fun hne => hne htt)]
      have hgG : gcGoods p ttm ((buf.take endM).drop cur)
          = gcGoods p ttm ((buf.take endM).drop (cur + 1)) := by
        rw [hR, gcGoods, if_pos htt]
      have hgB : gcBads p ttm ((buf.take endM).drop cur)
          = gcBads p ttm ((buf.take endM).drop (cur + 1)) := by
        rw [hR, gcBads, if_pos htt]
      obtain ⟨ih1, ih2, ih3, ih4, ih5, ih6⟩ :=
        ih buf ebc (cur + 1) endM (by omega) (by omega) (by omega) hlen hbads
      refine ⟨fun hg => ?_, fun g gs hg => ?_, ih3, ih4, ih5, ih6⟩
      · rw [hgG] at hg
        obtain ⟨ha, hb⟩ := ih1 hg
        exact ⟨ha, by rw [hb, hgB]⟩
      · rw [hgG] at hg
        obtain ⟨ha, hb, hc⟩ := ih2 g gs hg
        exact ⟨ha, hb, by rw [hc, hgB]⟩
    · rw [if_pos htt]
      by_cases hsee : p.see_ge (eget buf cur).move
          (Int.tdiv (-(eget buf cur).value) 18) = true
      · rw [if_pos hsee]
        dsimp only
        have hgG : gcGoods p ttm ((buf.take endM).drop cur)
            = (eget buf cur).move :: gcGoods p ttm ((buf.take endM).drop (cur + 1)) := by
          rw [hR, gcGoods, if_neg htt, if_pos hsee]
        have hgB : gcBads p ttm ((buf.take endM).drop cur)
            = gcBads p ttm ((buf.take endM).drop (cur + 1)) := by
          rw [hR, gcBads, if_neg htt, if_pos hsee]
        refine ⟨fun hg => ?_, fun g gs hg => ?_, rfl, by omega, by omega, hbads⟩
        · rw [hgG] at hg
          exact absurd hg (by simp)
        · rw [hgG] at hg
          injection hg with hg1 hg2
          exact ⟨hg1, hg2, by rw [hgB]⟩
      · rw [if_neg hsee]
        have hgG : gcGoods p ttm ((buf.take endM).drop cur)
            = gcGoods p ttm ((buf.take endM).drop (cur + 1)) := by
          rw [hR, gcGoods, if_neg htt, if_neg hsee]
        have hgB : gcBads p ttm ((buf.take endM).drop cur)
            = eget buf cur :: gcBads p ttm ((buf.take endM).drop (cur + 1)) := by
          rw [hR, gcBads, if_neg htt, if_neg hsee]
        have hbadlen : ebc < buf.length := by omega
        have htake := take_succ_set buf ebc (eget buf cur) hbadlen
        have hbads2 : ∀ e ∈ (buf.set ebc (eget buf cur)).take (ebc + 1),
            e.move ≠ ttm := by
          intro e he
          rw [htake] at he
          rcases List.mem_append.mp he with h | h
          · exact hbads e h
          · rw [List.mem_singleton.mp h]
            exact htt
        have hreg : ((buf.set ebc (eget buf cur)).take endM).drop (cur + 1)
            = (buf.take endM).drop (cur + 1) := by
          rw [List.set_take, List.drop_set, if_pos (by omega)]
        obtain ⟨ih1, ih2, ih3, ih4, ih5, ih6⟩ :=
          ih (buf.set ebc (eget buf cur)) (ebc + 1) (cur + 1) endM (by omega)
            (by omega) (by omega) (by rw [List.length_set]; exact hlen) hbads2
        rw [hreg] at ih1 ih2
        rw [List.length_set] at ih3
        refine ⟨fun hg => ?_, fun g gs hg => ?_, ih3, ih4, ih5, ih6⟩
        · rw [hgG] at hg
          obtain ⟨ha, hb⟩ := ih1 hg
          refine ⟨ha, ?_⟩
          rw [hb, htake, hgB, List.append_assoc, List.singleton_append]
        · rw [hgG] at hg
          obtain ⟨ha, hb, hc⟩ := ih2 g gs hg
          refine ⟨ha, hb, ?_⟩
          rw [hc, htake, hgB, List.append_assoc, List.singleton_append]

theorem gcGoods_mem (p : Position) (ttm : Move) : ∀ (l : List ExtMove) (g : Move),
    g ∈ gcGoods p ttm l → ∃ e ∈ l, g = e.move := by
  intro l
  induction l with
  | nil =>
    intro g hg
    rw [gcGoods] at hg
    exact absurd hg (List.not_mem_nil g)
  | cons e r ih =>
    intro g hg
    rw [gcGoods] at hg
    by_cases htt : e.move = ttm
    · rw [if_pos htt] at hg
      obtain ⟨e2, he2, hge⟩ := ih g hg
      exact ⟨e2, List.mem_cons_of_mem e he2, hge⟩
    · rw [if_neg htt] at hg
      by_cases hsee : p.see_ge e.move (Int.tdiv (-e.value) 18) = true
      · rw [if_pos hsee] at hg
        rcases List.mem_cons.mp hg with h | h
        · exact ⟨e, List.mem_cons_self e r, h⟩
        · obtain ⟨e2, he2, hge⟩ := ih g h
          exact ⟨e2, List.mem_cons_of_mem e he2, hge⟩
      · rw [if_neg hsee] at hg
        obtain ⟨e2, he2, hge⟩ := ih g hg
        exact ⟨e2, List.mem_cons_of_mem e he2, hge⟩

theorem selectGC_cells (p : Position) (ttm : Move) (P : ExtMove → Prop) :
    ∀ (k : Nat) (buf : List ExtMove) (ebc cur endM : Nat), endM - cur = k →
      endM ≤ buf.length → (∀ e ∈ buf, P e) →
      ∀ e ∈ (selectGC p ttm buf ebc cur endM).2.1, P e := by
  intro k
  induction k with
  | zero =>
    intro buf ebc cur endM hk hlen hP
    rw [selectGC, dif_neg (by omega)]
    exact hP
  | succ k ih =>
    intro buf ebc cur endM hk hlen hP
    rw [selectGC, dif_pos (by omega : cur < endM)]
    by_cases htt : (eget buf cur).move ≠ ttm
    · rw [if_pos htt]
      by_cases hsee : p.see_ge (eget buf cur).move (Int.tdiv (-(eget buf cur).value) 18)
          = true
      · rw [if_pos hsee]
        exact hP
      · rw [if_neg hsee]
        refine ih (buf.set ebc (eget buf cur)) (ebc + 1) (cur + 1) endM (by omega)
          (by rw [List.length_set]; exact hlen) ?_
        intro e he
        rcases List.mem_or_eq_of_mem_set he with h | h
        · exact hP e h
        · rw [h]
          refine hP _ ?_
          rw [eget_eq_getElem (by omega : cur < buf.length)]
          exact List.getElem_mem _
    · rw [if_neg htt]
      exact ih buf ebc (cur + 1) endM (by omega) hlen hP

theorem captureInit_move_mem (s : MovePicker) :
    ∀ e ∈ s.captureInit.moves, e.move ∈ s.pos.genCaptures := by
  have hperm := (limited_insertion_sort_spec
    (s.score_captures (toExtMoves s.pos.genCaptures)) (-2147483648)).1
  intro e he
  have he2 : e ∈ s.score_captures (toExtMoves s.pos.genCaptures) :=
    hperm.mem_iff.mp he
  simp only [MovePicker.score_captures, toExtMoves, List.map_map, List.mem_map] at he2
  obtain ⟨m, hm, hme⟩ := he2
  rw [← hme]
  exact hm

theorem selectNext_head (buf : List ExtMove) (ttm : Move) (cur endM : Nat)
    (hlt : cur < endM) (hne : (eget buf cur).move ≠ ttm) :
    selectNext buf ttm (fun _ => true) cur endM = ((eget buf cur).move, cur + 1) := by
  rw [selectNext, dif_pos hlt, if_pos ⟨hne, rfl⟩]

theorem selectNext_stop (buf : List ExtMove) (ttm : Move) (accept : ExtMove → Bool)
    (cur endM : Nat) (h : endM ≤ cur) :
    selectNext buf ttm accept cur endM = (Move.none, cur) := by
  rw [selectNext, dif_neg (by omega)]

theorem doQCapture_stage_or (s : MovePicker) :
    (s.doQCapture).2.stage = s.stage ∨ (s.doQCapture).2.stage = 18 := by
  unfold MovePicker.doQCapture
  cases hsel : selectNext s.moves s.ttMove (fun _ => true) s.cur s.endMoves with
  | mk m cur' =>
    dsimp only
    by_cases hm : m = Move.none
    · rw [if_neg (by simp [hm])]
      by_cases hd : s.depth ≠ DEPTH_QS_CHECKS
      · rw [if_pos hd]
        exact Or.inl rfl
      · rw [if_neg hd]
        right
        rw [doQCheck_stage_eq]
        rfl
    · rw [if_pos (by simp [hm])]
      exact Or.inl rfl

theorem capRegion_captureInit (s : MovePicker) :
    capRegion s.captureInit = sortedCaps s := by
  show ((sortedCaps s).take ((toExtMoves s.pos.genCaptures).length)).drop 0 = sortedCaps s
  rw [List.drop_zero]
  have hl : (toExtMoves s.pos.genCaptures).length = (sortedCaps s).length := by
    rw [sortedCaps, lis_length, MovePicker.score_captures, List.length_map]
  rw [hl, List.take_length]

theorem capStep_same {s s' : MovePicker} {m : Move}
    (h2 : s'.stage ≠ 2) (h6 : s'.stage ≠ 6)
    (hg : gMenu s = gMenu s') (hb : bMenu s = bMenu s') : capStep s s' m := by
  constructor
  · rw [if_neg (fun hc => h2 hc.2)]
    exact hg
  · rw [if_neg (fun hc => h6 hc.2)]
    exact hb

theorem capStep_menu_eq {s t s' : MovePicker} {m : Move}
    (hg : gMenu s = gMenu t) (hb : bMenu s = bMenu t)
    (h : capStep t s' m) : capStep s s' m := by
  rw [capStep] at h ⊢
  rw [hg, hb]
  exact h

theorem doBadQuiet_cap (s : MovePicker) (f : Bool) (hst : s.stage = 7) :
    capStep s (s.doBadQuiet f).2 (s.doBadQuiet f).1 ∧ WF7 (s.doBadQuiet f).2 := by
  have hse : (s.doBadQuiet f).2.stage = s.stage := doBadQuiet_stage_eq s f
  constructor
  · refine capStep_same ?_ ?_ ?_ ?_
    · rw [hse]
      omega
    · rw [hse]
      omega
    · rw [gMenu_nil s (by omega), gMenu_nil _ (by rw [hse]; omega)]
    · rw [bMenu_nil s (by omega), bMenu_nil _ (by rw [hse]; omega)]
  · refine ⟨fun h => ?_, fun h => ?_, fun h => ?_⟩
    · exfalso
      rw [hse] at h
      omega
    · exfalso
      obtain ⟨-, h2⟩ := h
      rw [hse] at h2
      omega
    · exfalso
      rw [hse] at h
      omega

theorem doBadCapture_cap (s : MovePicker) (f : Bool) (hst : s.stage = 6)
    (hwf : WF7 s) :
    capStep s (s.doBadCapture f).2 (s.doBadCapture f).1 ∧ WF7 (s.doBadCapture f).2 := by
  obtain ⟨-, -, hwf6⟩ := hwf
  obtain ⟨hlen, hregtt, hregnn⟩ := hwf6 hst
  unfold MovePicker.doBadCapture
  by_cases hc : s.cur < s.endMoves
  · have hhead : eget s.moves s.cur ∈ capRegion s := by
      rw [capRegion, region_cons hc hlen]
      exact List.mem_cons_self _ _
    have hne : (eget s.moves s.cur).move ≠ s.ttMove := hregtt _ hhead
    have hnn : (eget s.moves s.cur).move ≠ Move.none := hregnn _ hhead
    rw [selectNext_head s.moves s.ttMove s.cur s.endMoves hc hne]
    dsimp only
    rw [if_pos hnn]
    dsimp only
    constructor
    · constructor
      · rw [if_neg (fun hcc => by have h2 : s.stage = 2 := hcc.2; omega)]
        rw [gMenu_nil s (by omega),
          gMenu_nil ({ s with cur := s.cur + 1 } : MovePicker) (show 3 ≤ s.stage by omega)]
      · rw [if_pos ⟨hnn, (hst : s.stage = 6)⟩]
        rw [bMenu_stage6 s hst,
          bMenu_stage6 ({ s with cur := s.cur + 1 } : MovePicker) (show s.stage = 6 from hst)]
        show ((s.moves.take s.endMoves).drop s.cur).map ExtMove.move
            = (eget s.moves s.cur).move
              :: ((s.moves.take s.endMoves).drop (s.cur + 1)).map ExtMove.move
        rw [region_cons hc hlen, List.map_cons]
    · refine ⟨fun h => ?_, fun h => ?_, fun h => ?_⟩
      · exfalso
        have h2 : s.stage = 2 := h
        omega
      · exfalso
        obtain ⟨-, h2⟩ := h
        have h3 : s.stage ≤ 5 := h2
        omega
      · refine ⟨hlen, ?_, ?_⟩
        · intro e he
          refine hregtt e ?_
          rw [capRegion, region_cons hc hlen]
          exact List.mem_cons_of_mem _ he
        · intro e he
          refine hregnn e ?_
          rw [capRegion, region_cons hc hlen]
          exact List.mem_cons_of_mem _ he
  · rw [selectNext_stop s.moves s.ttMove _ s.cur s.endMoves (by omega)]
    dsimp only
    rw [if_neg (by simp)]
    have hreg : capRegion s = [] := by
      rw [capRegion]
      refine List.drop_eq_nil_of_le ?_
      rw [List.length_take]
      omega
    obtain ⟨hcs, hwf'⟩ := doBadQuiet_cap
      { s with cur := s.beginBadQuiets, endMoves := s.endBadQuiets, stage := BAD_QUIET }
      f rfl
    refine ⟨capStep_menu_eq ?_ ?_ hcs, hwf'⟩
    · rw [gMenu_nil s (by omega), gMenu_nil ({ s with cur := s.beginBadQuiets, endMoves := s.endBadQuiets, stage := BAD_QUIET } : MovePicker) (show (3:Nat) ≤ 7 by decide)]
    · rw [bMenu_stage6 s hst, hreg, bMenu_nil ({ s with cur := s.beginBadQuiets, endMoves := s.endBadQuiets, stage := BAD_QUIET } : MovePicker) (show (7:Nat) ≤ 7 by decide)]
      rfl

theorem doGoodQuiet_cap (s : MovePicker) (f : Bool) (hst : s.stage = 5)
    (hwf : WF7 s) :
    capStep s (s.doGoodQuiet f).2 (s.doGoodQuiet f).1 ∧ WF7 (s.doGoodQuiet f).2 := by
  obtain ⟨-, hwf35, -⟩ := hwf
  obtain ⟨hblen, hbtt, hbnn⟩ := hwf35 ⟨by omega, by omega⟩
  have key : ∀ (t : MovePicker), t.stage = 5 → t.moves = s.moves →
      t.endBadCaptures = s.endBadCaptures →
      t.ttMove = s.ttMove → t.pos = s.pos →
      capStep s (t.enterBadCapture.doBadCapture f).2 (t.enterBadCapture.doBadCapture f).1
      ∧ WF7 (t.enterBadCapture.doBadCapture f).2 := by
    intro t ht5 htm htebc httt htpos
    have hwfX : WF7 t.enterBadCapture := by
      refine ⟨fun h => ?_, fun h => ?_, fun _ => ⟨?_, ?_, ?_⟩⟩
      · exfalso
        have h2 : (6:Nat) = 2 := h
        omega
      · exfalso
        obtain ⟨-, h2⟩ := h
        have h3 : (6:Nat) ≤ 5 := h2
        omega
      · show t.endBadCaptures ≤ t.moves.length
        rw [htebc, htm]
        exact hblen
      · intro e he
        have he2 : e ∈ badsSoFar s := by
          have he3 : e ∈ t.moves.take t.endBadCaptures := he
          rw [htm, htebc] at he3
          exact he3
        rw [show t.enterBadCapture.ttMove = s.ttMove from httt]
        exact hbtt e he2
      · intro e he
        have he3 : e ∈ t.moves.take t.endBadCaptures := he
        rw [htm, htebc] at he3
        exact hbnn e he3
    obtain ⟨hcs, hwf'⟩ := doBadCapture_cap t.enterBadCapture f rfl hwfX
    refine ⟨capStep_menu_eq ?_ ?_ hcs, hwf'⟩
    · rw [gMenu_nil s (by omega),
        gMenu_nil t.enterBadCapture (show (3:Nat) ≤ 6 by decide)]
    · rw [bMenu_mid s (by omega) (by omega),
        bMenu_stage6 t.enterBadCapture rfl]
      show (s.moves.take s.endBadCaptures).map ExtMove.move
        = ((t.moves.take t.endBadCaptures).drop 0).map ExtMove.move
      rw [List.drop_zero, htm, htebc]
  unfold MovePicker.doGoodQuiet
  rcases f with _ | _
  · rw [if_neg (show ¬(false = true) by decide)]
    cases hsel : selectNext s.moves s.ttMove s.goodQuietAccept s.cur s.endMoves with
    | mk m cur' =>
      dsimp only
      by_cases hm : m = Move.none
      · simp only [hm, ne_eq, not_true_eq_false, if_false, reduceIte]
        exact key { s with cur := cur' } hst rfl rfl rfl rfl
      · simp only [hm, ne_eq, not_false_eq_true, if_true, reduceIte]
        by_cases hv : (eget s.moves (cur' - 1)).value > -8000
            ∨ (eget s.moves (cur' - 1)).value ≤ quiet_threshold s.depth
        · simp only [hv, if_true, reduceIte]
          constructor
          · refine capStep_same ?_ ?_ ?_ ?_
            · show s.stage ≠ 2
              omega
            · show s.stage ≠ 6
              omega
            · rw [gMenu_nil s (by omega),
                gMenu_nil ({ s with cur := cur' } : MovePicker) (show 3 ≤ s.stage by omega)]
            · rw [bMenu_mid s (by omega) (by omega),
                bMenu_mid ({ s with cur := cur' } : MovePicker)
                  (show 3 ≤ s.stage by omega) (show s.stage ≤ 5 by omega)]
              rfl
          · refine ⟨fun h => ?_, fun h => ⟨?_, ?_, ?_⟩, fun h => ?_⟩
            · exfalso
              have h2 : s.stage = 2 := h
              omega
            · exact hblen
            · exact hbtt
            · exact hbnn
            · exfalso
              have h2 : s.stage = 6 := h
              omega
        · simp only [hv, if_false, reduceIte]
          exact key { s with cur := cur', beginBadQuiets := cur' - 1 } hst rfl rfl rfl rfl
  · rw [if_pos rfl]
    exact key s hst rfl rfl rfl rfl

theorem doQuietInit_cap (s : MovePicker) (f : Bool) (hst : s.stage = 4)
    (hwf : WF7 s) :
    capStep s (s.doQuietInit f).2 (s.doQuietInit f).1 ∧ WF7 (s.doQuietInit f).2 := by
  obtain ⟨-, hwf35, -⟩ := hwf
  obtain ⟨hblen, hbtt, hbnn⟩ := hwf35 ⟨by omega, by omega⟩
  unfold MovePicker.doQuietInit
  rcases f with _ | _
  · rw [if_neg (show ¬(false = true) by decide)]
    set X : MovePicker :=
      { s with cur := s.endBadCaptures,
               moves := s.moves.take s.endBadCaptures ++
                 limited_insertion_sort
                   (s.score_quiets (toExtMoves s.pos.genQuiets))
                   (quiet_threshold s.depth),
               endMoves := s.endBadCaptures + (toExtMoves s.pos.genQuiets).length,
               beginBadQuiets := s.endBadCaptures + (toExtMoves s.pos.genQuiets).length,
               endBadQuiets := s.endBadCaptures + (toExtMoves s.pos.genQuiets).length,
               stage := GOOD_QUIET } with hX
    have hbsf : badsSoFar X = badsSoFar s := by
      show (s.moves.take s.endBadCaptures ++
          limited_insertion_sort (s.score_quiets (toExtMoves s.pos.genQuiets))
            (quiet_threshold s.depth)).take s.endBadCaptures
        = s.moves.take s.endBadCaptures
      refine List.take_left' ?_
      rw [List.length_take]
      omega
    have hwfX : WF7 X := by
      refine ⟨fun h => ?_, fun _ => ⟨?_, ?_, ?_⟩, fun h => ?_⟩
      · exfalso
        have h2 : (5:Nat) = 2 := h
        omega
      · show s.endBadCaptures ≤ X.moves.length
        rw [hX]
        show s.endBadCaptures ≤ (s.moves.take s.endBadCaptures ++
          limited_insertion_sort (s.score_quiets (toExtMoves s.pos.genQuiets))
            (quiet_threshold s.depth)).length
        rw [List.length_append, List.length_take]
        omega
      · intro e he
        rw [hbsf] at he
        exact hbtt e he
      · intro e he
        rw [hbsf] at he
        exact hbnn e he
      · exfalso
        have h2 : (5:Nat) = 6 := h
        omega
    obtain ⟨hcs, hwf'⟩ := doGoodQuiet_cap X false rfl hwfX
    refine ⟨capStep_menu_eq ?_ ?_ hcs, hwf'⟩
    · rw [gMenu_nil s (by omega), gMenu_nil X (show (3:Nat) ≤ 5 by decide)]
    · rw [bMenu_mid s (by omega) (by omega),
        bMenu_mid X (show (3:Nat) ≤ 5 by decide) (show (5:Nat) ≤ 5 by decide), hbsf]
  · rw [if_pos rfl]
    have hwfX : WF7 ({ s with stage := GOOD_QUIET } : MovePicker) := by
      refine ⟨fun h => ?_, fun _ => ⟨hblen, hbtt, hbnn⟩, fun h => ?_⟩
      · exfalso
        have h2 : (5:Nat) = 2 := h
        omega
      · exfalso
        have h2 : (5:Nat) = 6 := h
        omega
    obtain ⟨hcs, hwf'⟩ := doGoodQuiet_cap { s with stage := GOOD_QUIET } true rfl hwfX
    refine ⟨capStep_menu_eq ?_ ?_ hcs, hwf'⟩
    · rw [gMenu_nil s (by omega),
        gMenu_nil ({ s with stage := GOOD_QUIET } : MovePicker) (show (3:Nat) ≤ 5 by decide)]
    · rw [bMenu_mid s (by omega) (by omega),
        bMenu_mid ({ s with stage := GOOD_QUIET } : MovePicker)
          (show (3:Nat) ≤ 5 by decide) (show (5:Nat) ≤ 5 by decide)]
      rfl

theorem doRefutation_cap (s : MovePicker) (f : Bool) (hst : s.stage = 3)
    (hwf : WF7 s) :
    capStep s (s.doRefutation f).2 (s.doRefutation f).1 ∧ WF7 (s.doRefutation f).2 := by
  obtain ⟨-, hwf35, -⟩ := hwf
  obtain ⟨hblen, hbtt, hbnn⟩ := hwf35 ⟨by omega, by omega⟩
  unfold MovePicker.doRefutation
  cases hsel : selectNext s.refutations s.ttMove s.refAccept s.cur s.endMoves with
  | mk m cur' =>
    dsimp only
    by_cases hm : m = Move.none
    · rw [if_neg (by simp [hm])]
      have hwfX : WF7 ({ s with cur := cur', stage := QUIET_INIT } : MovePicker) := by
        refine ⟨fun h => ?_, fun _ => ⟨hblen, hbtt, hbnn⟩, fun h => ?_⟩
        · exfalso
          have h2 : (4:Nat) = 2 := h
          omega
        · exfalso
          have h2 : (4:Nat) = 6 := h
          omega
      obtain ⟨hcs, hwf'⟩ :=
        doQuietInit_cap { s with cur := cur', stage := QUIET_INIT } f rfl hwfX
      refine ⟨capStep_menu_eq ?_ ?_ hcs, hwf'⟩
      · rw [gMenu_nil s (by omega),
          gMenu_nil ({ s with cur := cur', stage := QUIET_INIT } : MovePicker)
            (show (3:Nat) ≤ 4 by decide)]
      · rw [bMenu_mid s (by omega) (by omega),
          bMenu_mid ({ s with cur := cur', stage := QUIET_INIT } : MovePicker)
            (show (3:Nat) ≤ 4 by decide) (show (4:Nat) ≤ 5 by decide)]
        rfl
    · rw [if_pos (by simp [hm])]
      dsimp only
      constructor
      · refine capStep_same ?_ ?_ ?_ ?_
        · show s.stage ≠ 2
          omega
        · show s.stage ≠ 6
          omega
        · rw [gMenu_nil s (by omega),
            gMenu_nil ({ s with cur := cur' } : MovePicker) (show 3 ≤ s.stage by omega)]
        · rw [bMenu_mid s (by omega) (by omega),
            bMenu_mid ({ s with cur := cur' } : MovePicker)
              (show 3 ≤ s.stage by omega) (show s.stage ≤ 5 by omega)]
          rfl
      · refine ⟨fun h => ?_, fun h => ⟨hblen, hbtt, hbnn⟩, fun h => ?_⟩
        · exfalso
          have h2 : s.stage = 2 := h
          omega
        · exfalso
          have h2 : s.stage = 6 := h
          omega

theorem doGoodCapture_cap (s : MovePicker) (f : Bool) (hst : s.stage = 2)
    (hwf : WF7 s) :
    capStep s (s.doGoodCapture f).2 (s.doGoodCapture f).1
    ∧ WF7 (s.doGoodCapture f).2 := by
  obtain ⟨hwf2, -, -⟩ := hwf
  obtain ⟨hle, hcur, hlen, hbtt, hall⟩ := hwf2 hst
  unfold MovePicker.doGoodCapture
  cases hsel : selectGC s.pos s.ttMove s.moves s.endBadCaptures s.cur s.endMoves with
  | mk m rest =>
    cases rest with
    | mk buf rest2 =>
      cases rest2 with
      | mk ebc cur' =>
        obtain ⟨gc1, gc2, gc3, gc4, gc5, gc6⟩ :=
          selectGC_gc s.pos s.ttMove (s.endMoves - s.cur) s.moves s.endBadCaptures
            s.cur s.endMoves rfl hle hcur hlen hbtt
        have hcells := selectGC_cells s.pos s.ttMove (fun e => e.move ≠ Move.none)
          (s.endMoves - s.cur) s.moves s.endBadCaptures s.cur s.endMoves rfl hlen hall
        rw [hsel] at gc1 gc2 gc3 gc4 gc5 gc6 hcells
        dsimp only
        dsimp only at gc1 gc2 gc3 gc4 gc5 gc6 hcells
        cases hgoods : gcGoods s.pos s.ttMove ((s.moves.take s.endMoves).drop s.cur) with
        | nil =>
          obtain ⟨hm, hbadseq⟩ := gc1 hgoods
          rw [hm, if_neg (by simp)]
          have hwfS1 : WF7 ({ s with moves := buf, endBadCaptures := ebc, cur := 0,
                                     endMoves :=
                                       if (eget s.refutations 0).move = (eget s.refutations 2).move
                                           ∨ (eget s.refutations 1).move = (eget s.refutations 2).move
                                       then 2 else 3,
                                     stage := REFUTATION } : MovePicker) := by
            refine ⟨fun h => ?_, fun _ => ⟨?_, ?_, ?_⟩, fun h => ?_⟩
            · exact absurd (show (3:Nat) = 2 from h) (by decide)
            · show ebc ≤ buf.length
              omega
            · intro e he
              exact gc6 e he
            · intro e he
              exact hcells e (List.mem_of_mem_take he)
            · exact absurd (show (3:Nat) = 6 from h) (by decide)
          obtain ⟨hcs, hwf'⟩ := doRefutation_cap
            { s with moves := buf, endBadCaptures := ebc, cur := 0,
                     endMoves :=
                       if (eget s.refutations 0).move = (eget s.refutations 2).move
                           ∨ (eget s.refutations 1).move = (eget s.refutations 2).move
                       then 2 else 3,
                     stage := REFUTATION } f rfl hwfS1
          refine ⟨capStep_menu_eq ?_ ?_ hcs, hwf'⟩
          · rw [gMenu_stage2 s hst]
            show gcGoods s.pos s.ttMove ((s.moves.take s.endMoves).drop s.cur)
              = gMenu { s with moves := buf, endBadCaptures := ebc, cur := 0,
                               endMoves :=
                                 if (eget s.refutations 0).move = (eget s.refutations 2).move
                                     ∨ (eget s.refutations 1).move = (eget s.refutations 2).move
                                 then 2 else 3,
                               stage := REFUTATION }
            rw [hgoods, gMenu_nil { s with moves := buf, endBadCaptures := ebc, cur := 0,
                                           endMoves :=
                                             if (eget s.refutations 0).move = (eget s.refutations 2).move
                                                 ∨ (eget s.refutations 1).move = (eget s.refutations 2).move
                                             then 2 else 3,
                                           stage := REFUTATION } (show (3:Nat) ≤ 3 by decide)]
          · rw [bMenu_stage2 s hst,
              bMenu_mid ({ s with moves := buf, endBadCaptures := ebc, cur := 0,
                                  endMoves :=
                                    if (eget s.refutations 0).move = (eget s.refutations 2).move
                                        ∨ (eget s.refutations 1).move = (eget s.refutations 2).move
                                    then 2 else 3,
                                  stage := REFUTATION } : MovePicker)
                (show (3:Nat) ≤ 3 by decide) (show (3:Nat) ≤ 5 by decide)]
            exact congrArg (List.map ExtMove.move) hbadseq.symm
        | cons g gs =>
          obtain ⟨hm, hrest, hbadseq⟩ := gc2 g gs hgoods
          have hgne : g ≠ Move.none := by
            obtain ⟨e, he, hge⟩ := gcGoods_mem s.pos s.ttMove
              ((s.moves.take s.endMoves).drop s.cur) g
              (by rw [hgoods]; exact List.mem_cons_self g gs)
            rw [hge]
            exact hall e (List.mem_of_mem_take (List.mem_of_mem_drop he))
          rw [hm, if_pos hgne]
          dsimp only
          constructor
          · constructor
            · rw [if_pos ⟨hgne, (hst : s.stage = 2)⟩]
              rw [gMenu_stage2 s hst,
                gMenu_stage2 ({ s with moves := buf, endBadCaptures := ebc,
                                       cur := cur' } : MovePicker) (show s.stage = 2 from hst)]
              show gcGoods s.pos s.ttMove ((s.moves.take s.endMoves).drop s.cur)
                = g :: gcGoods s.pos s.ttMove ((buf.take s.endMoves).drop cur')
              rw [hgoods, hrest]
            · rw [if_neg (fun hc => by have h6 : s.stage = 6 := hc.2; omega)]
              rw [bMenu_stage2 s hst,
                bMenu_stage2 ({ s with moves := buf, endBadCaptures := ebc,
                                       cur := cur' } : MovePicker) (show s.stage = 2 from hst)]
              exact (congrArg (List.map ExtMove.move) hbadseq).symm
          · refine ⟨fun _ => ⟨gc4, ?_, ?_, ?_, ?_⟩, fun h => ?_, fun h => ?_⟩
            · exact gc5
            · show s.endMoves ≤ buf.length
              omega
            · intro e he
              exact gc6 e he
            · intro e he
              exact hcells e he
            · exfalso
              obtain ⟨h3, -⟩ := h
              have h4 : 3 ≤ s.stage := h3
              omega
            · exfalso
              have h6 : s.stage = 6 := h
              omega

theorem goodCapYields_cons_pos (m : Move) (s' : MovePicker)
    (rest : List (Move × MovePicker)) (h : m ≠ Move.none ∧ s'.stage = 2) :
    goodCapYields ((m, s') :: rest) = m :: goodCapYields rest := by
  rw [goodCapYields, goodCapYields, List.filter_cons_of_pos (by simp [h.1, h.2]),
    List.map_cons]

theorem goodCapYields_cons_neg (m : Move) (s' : MovePicker)
    (rest : List (Move × MovePicker)) (h : ¬(m ≠ Move.none ∧ s'.stage = 2)) :
    goodCapYields ((m, s') :: rest) = goodCapYields rest := by
  rw [goodCapYields, goodCapYields, List.filter_cons_of_neg (by simpa using h)]

theorem badCapYields_cons_pos (m : Move) (s' : MovePicker)
    (rest : List (Move × MovePicker)) (h : m ≠ Move.none ∧ s'.stage = 6) :
    badCapYields ((m, s') :: rest) = m :: badCapYields rest := by
  rw [badCapYields, badCapYields, List.filter_cons_of_pos (by simp [h.1, h.2]),
    List.map_cons]

theorem badCapYields_cons_neg (m : Move) (s' : MovePicker)
    (rest : List (Move × MovePicker)) (h : ¬(m ≠ Move.none ∧ s'.stage = 6)) :
    badCapYields ((m, s') :: rest) = badCapYields rest := by
  rw [badCapYields, badCapYields, List.filter_cons_of_neg (by simpa using h)]

theorem next_move_cap (s : MovePicker) (f : Bool)
    (hgen : ∀ m ∈ s.pos.genCaptures, m ≠ Move.none) (hwf : WF7 s) :
    capStep s (s.next_move f).2 (s.next_move f).1 ∧ WF7 (s.next_move f).2 := by
  unfold MovePicker.next_move
  rcases hst : s.stage with _|_|_|_|_|_|_|_|_|_|_|_|_|_|_|_|_|_|_|n
  · -- MAIN_TT
    constructor
    · refine capStep_same (show (0:Nat) + 1 ≠ 2 by decide) (show (0:Nat) + 1 ≠ 6 by decide)
        ?_ ?_
      · rw [gMenu_le1 s (by omega),
          gMenu_le1 ({ s with stage := 0 + 1 } : MovePicker) (show (0:Nat) + 1 ≤ 1 by decide)]
        rfl
      · rw [bMenu_le1 s (by omega),
          bMenu_le1 ({ s with stage := 0 + 1 } : MovePicker) (show (0:Nat) + 1 ≤ 1 by decide)]
        rfl
    · refine ⟨fun h => ?_, fun h => ?_, fun h => ?_⟩
      · exact absurd (show (0:Nat) + 1 = 2 from h) (by decide)
      · exact absurd (show (3:Nat) ≤ 0 + 1 from h.1) (by decide)
      · exact absurd (show (0:Nat) + 1 = 6 from h) (by decide)
  · -- CAPTURE_INIT
    have hstX : s.captureInit.stage = 2 := by
      have hx : s.captureInit.stage = s.stage + 1 := rfl
      omega
    have hlenX : (sortedCaps s).length = (toExtMoves s.pos.genCaptures).length := by
      rw [sortedCaps, lis_length, MovePicker.score_captures, List.length_map]
    have hwfX : WF7 s.captureInit := by
      refine ⟨fun _ => ⟨?_, ?_, ?_, ?_, ?_⟩, fun h => ?_, fun h => ?_⟩
      · exact Nat.le_refl 0
      · exact Nat.zero_le _
      · show (toExtMoves s.pos.genCaptures).length ≤ (sortedCaps s).length
        omega
      · intro e he
        exact absurd (show e ∈ ([] : List ExtMove) from he) (List.not_mem_nil e)
      · intro e he
        exact hgen _ (captureInit_move_mem s e he)
      · exfalso
        have h3 : 3 ≤ s.stage + 1 := h.1
        omega
      · exfalso
        have h6 : s.stage + 1 = 6 := h
        omega
    obtain ⟨hcs, hwf'⟩ := doGoodCapture_cap s.captureInit f hstX hwfX
    refine ⟨capStep_menu_eq ?_ ?_ hcs, hwf'⟩
    · rw [gMenu_le1 s (by omega), gMenu_stage2 s.captureInit hstX, capRegion_captureInit s]
      rfl
    · rw [bMenu_le1 s (by omega), bMenu_stage2 s.captureInit hstX, capRegion_captureInit s]
      rw [show badsSoFar s.captureInit = ([] : List ExtMove) from rfl, List.nil_append]
      rfl
  · -- GOOD_CAPTURE
    exact doGoodCapture_cap s f (by omega) hwf
  · -- REFUTATION
    exact doRefutation_cap s f (by omega) hwf
  · -- QUIET_INIT
    exact doQuietInit_cap s f (by omega) hwf
  · -- GOOD_QUIET
    exact doGoodQuiet_cap s f (by omega) hwf
  · -- BAD_CAPTURE
    exact doBadCapture_cap s f (by omega) hwf
  · -- BAD_QUIET
    exact doBadQuiet_cap s f (by omega)
  · -- EVASION_TT
    constructor
    · refine capStep_same (show (8:Nat) + 1 ≠ 2 by decide) (show (8:Nat) + 1 ≠ 6 by decide)
        ?_ ?_
      · rw [gMenu_nil s (by omega),
          gMenu_nil ({ s with stage := 8 + 1 } : MovePicker) (show (3:Nat) ≤ 8 + 1 by decide)]
      · rw [bMenu_nil s (by omega),
          bMenu_nil ({ s with stage := 8 + 1 } : MovePicker) (show (7:Nat) ≤ 8 + 1 by decide)]
    · refine ⟨fun h => ?_, fun h => ?_, fun h => ?_⟩
      · exact absurd (show (8:Nat) + 1 = 2 from h) (by decide)
      · exact absurd (show (8:Nat) + 1 ≤ 5 from h.2) (by decide)
      · exact absurd (show (8:Nat) + 1 = 6 from h) (by decide)
  · -- EVASION_INIT
    have hse : (s.evasionInit.doEvasion).2.stage = s.evasionInit.stage :=
      (doEvasion_facts s.evasionInit).2.2
    constructor
    · refine capStep_same ?_ ?_ ?_ ?_
      · rw [hse]
        exact (show (10:Nat) ≠ 2 by decide)
      · rw [hse]
        exact (show (10:Nat) ≠ 6 by decide)
      · rw [gMenu_nil s (by omega), gMenu_nil (s.evasionInit.doEvasion).2
          (by rw [hse]; exact (show (3:Nat) ≤ 10 by decide))]
      · rw [bMenu_nil s (by omega), bMenu_nil (s.evasionInit.doEvasion).2
          (by rw [hse]; exact (show (7:Nat) ≤ 10 by decide))]
    · refine ⟨fun h => ?_, fun h => ?_, fun h => ?_⟩
      · rw [hse] at h
        exact absurd (show (10:Nat) = 2 from h) (by decide)
      · obtain ⟨-, h2⟩ := h
        rw [hse] at h2
        exact absurd (show (10:Nat) ≤ 5 from h2) (by decide)
      · rw [hse] at h
        exact absurd (show (10:Nat) = 6 from h) (by decide)
  · -- EVASION
    have hse : (s.doEvasion).2.stage = s.stage := (doEvasion_facts s).2.2
    constructor
    · refine capStep_same ?_ ?_ ?_ ?_
      · rw [hse]
        omega
      · rw [hse]
        omega
      · rw [gMenu_nil s (by omega), gMenu_nil (s.doEvasion).2 (by rw [hse]; omega)]
      · rw [bMenu_nil s (by omega), bMenu_nil (s.doEvasion).2 (by rw [hse]; omega)]
    · refine ⟨fun h => ?_, fun h => ?_, fun h => ?_⟩
      · rw [hse] at h
        omega
      · obtain ⟨-, h2⟩ := h
        rw [hse] at h2
        omega
      · rw [hse] at h
        omega
  · -- PROBCUT_TT
    constructor
    · refine capStep_same (show (11:Nat) + 1 ≠ 2 by decide) (show (11:Nat) + 1 ≠ 6 by decide)
        ?_ ?_
      · rw [gMenu_nil s (by omega),
          gMenu_nil ({ s with stage := 11 + 1 } : MovePicker) (show (3:Nat) ≤ 11 + 1 by decide)]
      · rw [bMenu_nil s (by omega),
          bMenu_nil ({ s with stage := 11 + 1 } : MovePicker) (show (7:Nat) ≤ 11 + 1 by decide)]
    · refine ⟨fun h => ?_, fun h => ?_, fun h => ?_⟩
      · exact absurd (show (11:Nat) + 1 = 2 from h) (by decide)
      · exact absurd (show (11:Nat) + 1 ≤ 5 from h.2) (by decide)
      · exact absurd (show (11:Nat) + 1 = 6 from h) (by decide)
  · -- PROBCUT_INIT
    have hse : (s.captureInit.doProbcut).2.stage = s.captureInit.stage :=
      (doProbcut_facts s.captureInit).2.2
    have hx : s.captureInit.stage = s.stage + 1 := rfl
    constructor
    · refine capStep_same ?_ ?_ ?_ ?_
      · rw [hse, hx]
        omega
      · rw [hse, hx]
        omega
      · rw [gMenu_nil s (by omega), gMenu_nil (s.captureInit.doProbcut).2
          (by rw [hse, hx]; omega)]
      · rw [bMenu_nil s (by omega), bMenu_nil (s.captureInit.doProbcut).2
          (by rw [hse, hx]; omega)]
    · refine ⟨fun h => ?_, fun h => ?_, fun h => ?_⟩
      · rw [hse, hx] at h
        omega
      · obtain ⟨-, h2⟩ := h
        rw [hse, hx] at h2
        omega
      · rw [hse, hx] at h
        omega
  · -- PROBCUT
    have hse : (s.doProbcut).2.stage = s.stage := (doProbcut_facts s).2.2
    constructor
    · refine capStep_same ?_ ?_ ?_ ?_
      · rw [hse]
        omega
      · rw [hse]
        omega
      · rw [gMenu_nil s (by omega), gMenu_nil (s.doProbcut).2 (by rw [hse]; omega)]
      · rw [bMenu_nil s (by omega), bMenu_nil (s.doProbcut).2 (by rw [hse]; omega)]
    · refine ⟨fun h => ?_, fun h => ?_, fun h => ?_⟩
      · rw [hse] at h
        omega
      · obtain ⟨-, h2⟩ := h
        rw [hse] at h2
        omega
      · rw [hse] at h
        omega
  · -- QSEARCH_TT
    constructor
    · refine capStep_same (show (14:Nat) + 1 ≠ 2 by decide) (show (14:Nat) + 1 ≠ 6 by decide)
        ?_ ?_
      · rw [gMenu_nil s (by omega),
          gMenu_nil ({ s with stage := 14 + 1 } : MovePicker) (show (3:Nat) ≤ 14 + 1 by decide)]
      · rw [bMenu_nil s (by omega),
          bMenu_nil ({ s with stage := 14 + 1 } : MovePicker) (show (7:Nat) ≤ 14 + 1 by decide)]
    · refine ⟨fun h => ?_, fun h => ?_, fun h => ?_⟩
      · exact absurd (show (14:Nat) + 1 = 2 from h) (by decide)
      · exact absurd (show (14:Nat) + 1 ≤ 5 from h.2) (by decide)
      · exact absurd (show (14:Nat) + 1 = 6 from h) (by decide)
  · -- QCAPTURE_INIT
    have hx : s.captureInit.stage = s.stage + 1 := rfl
    have h7 : 7 ≤ (s.captureInit.doQCapture).2.stage := by
      rcases doQCapture_stage_or s.captureInit with h | h
      · rw [h, hx]
        omega
      · rw [h]
        decide
    have h3s : 3 ≤ s.stage := by omega
    have h7s : 7 ≤ s.stage := by omega
    constructor
    · refine capStep_same ?_ ?_ ?_ ?_
      · show (s.captureInit.doQCapture).2.stage ≠ 2
        omega
      · show (s.captureInit.doQCapture).2.stage ≠ 6
        omega
      · rw [gMenu_nil s h3s, gMenu_nil (s.captureInit.doQCapture).2 (by omega)]
      · rw [bMenu_nil s h7s, bMenu_nil (s.captureInit.doQCapture).2 h7]
    · refine ⟨fun h => ?_, fun h => ?_, fun h => ?_⟩
      · have h2 : (s.captureInit.doQCapture).2.stage = 2 := h
        omega
      · have h2 : (s.captureInit.doQCapture).2.stage ≤ 5 := h.2
        omega
      · have h2 : (s.captureInit.doQCapture).2.stage = 6 := h
        omega
  · -- QCAPTURE
    have h7 : 7 ≤ (s.doQCapture).2.stage := by
      rcases doQCapture_stage_or s with h | h
      · rw [h]
        omega
      · rw [h]
        decide
    have h3s : 3 ≤ s.stage := by omega
    have h7s : 7 ≤ s.stage := by omega
    constructor
    · refine capStep_same ?_ ?_ ?_ ?_
      · show (s.doQCapture).2.stage ≠ 2
        omega
      · show (s.doQCapture).2.stage ≠ 6
        omega
      · rw [gMenu_nil s h3s, gMenu_nil (s.doQCapture).2 (by omega)]
      · rw [bMenu_nil s h7s, bMenu_nil (s.doQCapture).2 h7]
    · refine ⟨fun h => ?_, fun h => ?_, fun h => ?_⟩
      · have h2 : (s.doQCapture).2.stage = 2 := h
        omega
      · have h2 : (s.doQCapture).2.stage ≤ 5 := h.2
        omega
      · have h2 : (s.doQCapture).2.stage = 6 := h
        omega
  · -- QCHECK_INIT
    have hse : (s.qcheckInit.doQCheck).2.stage = s.qcheckInit.stage :=
      doQCheck_stage_eq s.qcheckInit
    have h7 : 7 ≤ (s.qcheckInit.doQCheck).2.stage := by
      rw [hse]
      exact (show (7:Nat) ≤ 18 by decide)
    have h3s : 3 ≤ s.stage := by omega
    have h7s : 7 ≤ s.stage := by omega
    constructor
    · refine capStep_same ?_ ?_ ?_ ?_
      · show (s.qcheckInit.doQCheck).2.stage ≠ 2
        omega
      · show (s.qcheckInit.doQCheck).2.stage ≠ 6
        omega
      · rw [gMenu_nil s h3s, gMenu_nil (s.qcheckInit.doQCheck).2 (by omega)]
      · rw [bMenu_nil s h7s, bMenu_nil (s.qcheckInit.doQCheck).2 h7]
    · refine ⟨fun h => ?_, fun h => ?_, fun h => ?_⟩
      · have h2 : (s.qcheckInit.doQCheck).2.stage = 2 := h
        omega
      · have h2 : (s.qcheckInit.doQCheck).2.stage ≤ 5 := h.2
        omega
      · have h2 : (s.qcheckInit.doQCheck).2.stage = 6 := h
        omega
  · -- QCHECK
    have hse : (s.doQCheck).2.stage = s.stage := doQCheck_stage_eq s
    have h7 : 7 ≤ (s.doQCheck).2.stage := by
      rw [hse]
      omega
    have h3s : 3 ≤ s.stage := by omega
    have h7s : 7 ≤ s.stage := by omega
    constructor
    · refine capStep_same ?_ ?_ ?_ ?_
      · show (s.doQCheck).2.stage ≠ 2
        omega
      · show (s.doQCheck).2.stage ≠ 6
        omega
      · rw [gMenu_nil s h3s, gMenu_nil (s.doQCheck).2 (by omega)]
      · rw [bMenu_nil s h7s, bMenu_nil (s.doQCheck).2 h7]
    · refine ⟨fun h => ?_, fun h => ?_, fun h => ?_⟩
      · have h2 : (s.doQCheck).2.stage = 2 := h
        omega
      · have h2 : (s.doQCheck).2.stage ≤ 5 := h.2
        omega
      · have h2 : (s.doQCheck).2.stage = 6 := h
        omega
  · -- out of range
    constructor
    · refine capStep_same ?_ ?_ rfl rfl
      · show s.stage ≠ 2
        omega
      · show s.stage ≠ 6
        omega
    · exact hwf

theorem steps_cap : ∀ (flags : List Bool) (s : MovePicker),
    (∀ m ∈ s.pos.genCaptures, m ≠ Move.none) → WF7 s →
    gMenu s = goodCapYields (s.steps flags) ++ gMenu (s.runState flags)
    ∧ bMenu s = badCapYields (s.steps flags) ++ bMenu (s.runState flags)
    ∧ WF7 (s.runState flags) := by
  intro flags
  induction flags with
  | nil =>
    intro s hgen hwf
    exact ⟨(List.nil_append _).symm, (List.nil_append _).symm, hwf⟩
  | cons f fs ih =>
    intro s hgen hwf
    obtain ⟨hcs, hwf'⟩ := next_move_cap s f hgen hwf
    cases hn : s.next_move f with
    | mk m s' =>
      rw [hn] at hcs hwf'
      have hcs2 : capStep s s' m := hcs
      have hwf2 : WF7 s' := hwf'
      have hgen' : ∀ mv ∈ s'.pos.genCaptures, mv ≠ Move.none := by
        have hpos := (next_move_core s f).1
        rw [hn] at hpos
        have hpos2 : s'.pos = s.pos := hpos
        rw [hpos2]
        exact hgen
      obtain ⟨ih1, ih2, ih3⟩ := ih s' hgen' hwf2
      have hsteps : s.steps (f :: fs) = (m, s') :: s'.steps fs := by
        rw [MovePicker.steps, hn]
      have hrun : s.runState (f :: fs) = s'.runState fs := by
        rw [MovePicker.runState, hn]
      rw [hsteps, hrun]
      obtain ⟨hcg, hcb⟩ := hcs2
      refine ⟨?_, ?_, ih3⟩
      · by_cases hc : m ≠ Move.none ∧ s'.stage = 2
        · rw [goodCapYields_cons_pos m s' _ hc, List.cons_append]
          rw [if_pos hc] at hcg
          rw [hcg, ih1]
        · rw [goodCapYields_cons_neg m s' _ hc]
          rw [if_neg hc] at hcg
          rw [hcg, ih1]
      · by_cases hc : m ≠ Move.none ∧ s'.stage = 6
        · rw [badCapYields_cons_pos m s' _ hc, List.cons_append]
          rw [if_pos hc] at hcb
          rw [hcb, ih2]
        · rw [badCapYields_cons_neg m s' _ hc]
          rw [if_neg hc] at hcb
          rw [hcb, ih2]

theorem map_move_filter_scored (s : MovePicker) (ttm : Move) : ∀ (gen : List Move),
    ((s.score_captures (toExtMoves gen)).filter
        (fun e => decide (e.move ≠ ttm))).map ExtMove.move
      = gen.filter (fun m => decide (m ≠ ttm)) := by
  intro gen
  induction gen with
  | nil => rfl
  | cons m r ih =>
    show (List.filter (fun e => decide (e.move ≠ ttm))
        (({ move := m, value := captureScore s.pos m } : ExtMove)
          :: s.score_captures (toExtMoves r))).map ExtMove.move
      = List.filter (fun m => decide (m ≠ ttm)) (m :: r)
    by_cases hm : m = ttm
    · rw [List.filter_cons_of_neg (by simp [hm]), List.filter_cons_of_neg (by simp [hm]), ih]
    · rw [List.filter_cons_of_pos (by simp [hm]), List.filter_cons_of_pos (by simp [hm]),
        List.map_cons, ih]

/-- C7: in the main-search context (not in check), running `next_move`
until the picker has passed the capture phases (final stage at least
`BAD_QUIET`), the moves yielded while in `GOOD_CAPTURE` are exactly the
winning captures of the scored sorted buffer in order, the moves yielded
while in `BAD_CAPTURE` are exactly the cells moved into the bad-capture
sub-range during the good-capture scan, unfiltered and in order, and
together they are a permutation of the full generated capture set minus
the hash move (the generator is assumed never to emit the none
sentinel, which the buffer uses as its empty-cell marker). -/
theorem capture_phase_partition (p : Position) (ttm : Move) (d : Int)
    (mh : Bool → Nat → Int) (cph ch ph : Nat → Nat → Nat → Int)
    (cm k0 k1 : Move) (flags : List Bool)
    (hnc : p.checkers = false)
    (hgen : ∀ m ∈ p.genCaptures, m ≠ Move.none)
    (hdone : 7 ≤ ((mkMainSearch p ttm d mh cph ch ph cm k0 k1).runState flags).stage) :
    goodCapYields ((mkMainSearch p ttm d mh cph ch ph cm k0 k1).steps flags)
      = gcGoods p ttm (sortedCaps (mkMainSearch p ttm d mh cph ch ph cm k0 k1))
    ∧ badCapYields ((mkMainSearch p ttm d mh cph ch ph cm k0 k1).steps flags)
      = (gcBads p ttm (sortedCaps (mkMainSearch p ttm d mh cph ch ph cm k0 k1))).map
          ExtMove.move
    ∧ (goodCapYields ((mkMainSearch p ttm d mh cph ch ph cm k0 k1).steps flags)
        ++ badCapYields ((mkMainSearch p ttm d mh cph ch ph cm k0 k1).steps flags)).Perm
        (p.genCaptures.filter (fun m => decide (m ≠ ttm))) := by
  have hst : (mkMainSearch p ttm d mh cph ch ph cm k0 k1).stage ≤ 1 := by
    show (if p.checkers then EVASION_TT else MAIN_TT)
        + (if ttm ≠ Move.none ∧ p.pseudo_legal ttm then 0 else 1) ≤ 1
    by_cases hc : ttm ≠ Move.none ∧ p.pseudo_legal ttm
    · simp only [hnc]
      rw [if_neg (show ¬(false = true) by decide), if_pos hc]
      decide
    · simp only [hnc]
      rw [if_neg (show ¬(false = true) by decide), if_neg hc]
      decide
  have hwf0 : WF7 (mkMainSearch p ttm d mh cph ch ph cm k0 k1) := by
    refine ⟨fun h => ?_, fun h => ?_, fun h => ?_⟩
    · exact absurd h (by omega)
    · exact absurd h.1 (by omega)
    · exact absurd h (by omega)
  have hgen0 : ∀ m ∈ (mkMainSearch p ttm d mh cph ch ph cm k0 k1).pos.genCaptures,
      m ≠ Move.none := hgen
  obtain ⟨h1, h2, -⟩ := steps_cap flags (mkMainSearch p ttm d mh cph ch ph cm k0 k1)
    hgen0 hwf0
  rw [gMenu_nil ((mkMainSearch p ttm d mh cph ch ph cm k0 k1).runState flags) (by omega),
    List.append_nil, gMenu_le1 (mkMainSearch p ttm d mh cph ch ph cm k0 k1) hst] at h1
  rw [bMenu_nil ((mkMainSearch p ttm d mh cph ch ph cm k0 k1).runState flags) (by omega),
    List.append_nil, bMenu_le1 (mkMainSearch p ttm d mh cph ch ph cm k0 k1) hst] at h2
  refine ⟨h1.symm, h2.symm, ?_⟩
  rw [← h1, ← h2]
  have hlp : (sortedCaps (mkMainSearch p ttm d mh cph ch ph cm k0 k1)).Perm
      ((mkMainSearch p ttm d mh cph ch ph cm k0 k1).score_captures
        (toExtMoves (mkMainSearch p ttm d mh cph ch ph cm k0 k1).pos.genCaptures)) := by
    rw [sortedCaps]
    exact (lis_partial_sort_facts _ _).1
  have hstep := (hlp.filter (fun e => decide (e.move ≠ ttm))).map ExtMove.move
  rw [map_move_filter_scored] at hstep
  exact (gcGoods_gcBads_perm p ttm
    (sortedCaps (mkMainSearch p ttm d mh cph ch ph cm k0 k1))).trans hstep

theorem capture_phase_partition_witness :
    wPosC6.checkers = false
    ∧ (∀ m ∈ wPosC6.genCaptures, m ≠ Move.none)
    ∧ 7 ≤ ((mkMainSearch wPosC6 Move.none 1 (fun _ _ => 0) (fun _ _ _ => 0)
        (fun _ _ _ => 0) (fun _ _ _ => 0) Move.none Move.none Move.none).runState
        [true, true, true]).stage
    ∧ (goodCapYields ((mkMainSearch wPosC6 Move.none 1 (fun _ _ => 0) (fun _ _ _ => 0)
          (fun _ _ _ => 0) (fun _ _ _ => 0) Move.none Move.none Move.none).steps
          [true, true, true])
        = gcGoods wPosC6 Move.none (sortedCaps (mkMainSearch wPosC6 Move.none 1
            (fun _ _ => 0) (fun _ _ _ => 0) (fun _ _ _ => 0) (fun _ _ _ => 0)
            Move.none Move.none Move.none))
      ∧ badCapYields ((mkMainSearch wPosC6 Move.none 1 (fun _ _ => 0) (fun _ _ _ => 0)
          (fun _ _ _ => 0) (fun _ _ _ => 0) Move.none Move.none Move.none).steps
          [true, true, true])
        = (gcBads wPosC6 Move.none (sortedCaps (mkMainSearch wPosC6 Move.none 1
            (fun _ _ => 0) (fun _ _ _ => 0) (fun _ _ _ => 0) (fun _ _ _ => 0)
            Move.none Move.none Move.none))).map ExtMove.move
      ∧ (goodCapYields ((mkMainSearch wPosC6 Move.none 1 (fun _ _ => 0) (fun _ _ _ => 0)
            (fun _ _ _ => 0) (fun _ _ _ => 0) Move.none Move.none Move.none).steps
            [true, true, true])
          ++ badCapYields ((mkMainSearch wPosC6 Move.none 1 (fun _ _ => 0)
            (fun _ _ _ => 0) (fun _ _ _ => 0) (fun _ _ _ => 0) Move.none Move.none
            Move.none).steps [true, true, true])).Perm
          (wPosC6.genCaptures.filter (fun m => decide (m ≠ Move.none)))) := by
  have hdone : 7 ≤ ((mkMainSearch wPosC6 Move.none 1 (fun _ _ => 0) (fun _ _ _ => 0)
      (fun _ _ _ => 0) (fun _ _ _ => 0) Move.none Move.none Move.none).runState
      [true, true, true]).stage := by
    simp [MovePicker.runState, MovePicker.next_move, mkMainSearch,
      MovePicker.captureInit, MovePicker.doGoodCapture, selectGC,
      MovePicker.doRefutation, selectNext, MovePicker.refAccept,
      MovePicker.doQuietInit, MovePicker.doGoodQuiet, MovePicker.goodQuietAccept,
      MovePicker.doBadCapture, MovePicker.doBadQuiet, MovePicker.enterBadCapture,
      selectBest, MovePicker.score_quiets, eget,
      limited_insertion_sort, lisOuter, lisInner, toExtMoves,
      MovePicker.score_captures, captureScore, relative_rank, to_sq,
      wPosC6, wPos, wMvA, wMvB, Move.none, MAIN_TT, EVASION_TT, REFUTATION,
      QUIET_INIT, GOOD_QUIET, BAD_CAPTURE, BAD_QUIET]
  exact ⟨rfl, by decide, hdone,
    capture_phase_partition wPosC6 Move.none 1 (fun _ _ => 0) (fun _ _ _ => 0)
      (fun _ _ _ => 0) (fun _ _ _ => 0) Move.none Move.none Move.none
      [true, true, true] rfl (by decide) hdone⟩

end Brainlearn
